import Mathlib

/-!
# cg_base: render-pass compilation and device-queue preparation

Shallow embedding of `renderpass_t::create` (framework/src/renderpass.cpp) and of
`device_queue::prepare` (framework/src/queue_vulkan.cpp), followed by theorems about them.

Conventions of the embedding
* `std::vector` and `std::queue` are lists (push at the back, pop at the front);
  `std::map<uint32_t, T>` is an association list read through `List.lookup`.
* a `throw` and a failed `assert` both end the call without an object; they are the
  `error` outcomes of `Except create_error`, kept apart by constructor, and the number
  carried by `assertion_failed` is the source line of the assertion.
* unsigned 32-bit values are natural numbers, reduced modulo 2^32 where the source casts.
* `float` values are only copied, never computed with; they are kept as bit patterns.
-/

namespace cgb

/-! ## Vulkan side: layouts, references, descriptions -/

/-- The members of `vk::ImageLayout` that `renderpass_t::create` assigns. -/
inductive ImageLayout
  | eUndefined
  | eGeneral
  | eColorAttachmentOptimal
  | eDepthStencilAttachmentOptimal
  | eDepthReadOnlyStencilAttachmentOptimal
  | eShaderReadOnlyOptimal
  | ePresentSrcKHR
  deriving DecidableEq

/-- `VK_ATTACHMENT_UNUSED` is `~0U`. -/
def VK_ATTACHMENT_UNUSED : Nat := 4294967295

/-- `VK_SUBPASS_EXTERNAL` is `~0U`. -/
def VK_SUBPASS_EXTERNAL : Nat := 4294967295

/-- The conversion `static_cast<uint32_t>(n)` of an unsigned value. -/
def to_uint32 (n : Nat) : Nat := n % 4294967296

/-- The difference `a - b` of two `size_t` values, which wraps around at 2^64. -/
def size_t_sub (a b : Nat) : Nat :=
  (a % 18446744073709551616 + (18446744073709551616 - b % 18446744073709551616))
    % 18446744073709551616

/-- The conversion `static_cast<int>(u)` of a 32-bit unsigned value. -/
def to_int (u : Nat) : Int :=
  if u % 4294967296 < 2147483648 then ((u % 4294967296 : Nat) : Int)
  else ((u % 4294967296 : Nat) : Int) - 4294967296

/-- The conversion `static_cast<uint32_t>(i)` of a signed value. -/
def int_to_uint32 (i : Int) : Nat := (i % 4294967296).toNat

/-- A `float`, kept as its IEEE-754 bit pattern. -/
structure float32 where
  bits : Nat
  deriving DecidableEq

/-- The value `0.5f`. -/
def float32.half : float32 := ⟨0x3F000000⟩

/-- The struct `vk::AttachmentReference`; a default-constructed one is `{0, eUndefined}`. -/
structure AttachmentReference where
  attachment : Nat := 0
  layout : ImageLayout := ImageLayout.eUndefined
  deriving DecidableEq

/-- The union `vk::ClearValue`: a colour, a depth/stencil pair, or value-initialised. -/
inductive ClearValue
  | color (r g b a : float32)
  | depthStencil (depth : float32) (stencil : Nat)
  | empty
  deriving DecidableEq

/-! ## Attachment declarations (types declared outside the translated files) -/

/-- The enumeration `xv::on_load`. -/
inductive on_load
  | dont_care
  | clear
  | load
  deriving DecidableEq

/-- The enumeration `xv::on_store`. -/
inductive on_store
  | dont_care
  | store
  | store_in_presentable_format
  deriving DecidableEq

/-- Modelled from the spec: the flag set `xv::image_usage` is declared outside the
translated files; only the two flags that `create` tests with `has_flag` are kept. -/
structure image_usage where
  sampled : Bool
  shader_storage : Bool
  deriving DecidableEq

/-- Modelled from the spec: the subpass usage entry is declared outside the translated
files. It has the four flags, an optional explicit layout location for the input and for
the colour category, and an optional resolve-target attachment index. -/
structure subpass_usage_type where
  mInput : Bool
  mColor : Bool
  mDepthStencil : Bool
  mPreserve : Bool
  mInputLocation : Option Nat
  mColorLocation : Option Nat
  mResolveAttachmentIndex : Option Nat
  deriving DecidableEq

namespace subpass_usage_type

def as_input (u : subpass_usage_type) : Bool := u.mInput
def as_color (u : subpass_usage_type) : Bool := u.mColor
def as_depth_stencil (u : subpass_usage_type) : Bool := u.mDepthStencil
def as_preserve (u : subpass_usage_type) : Bool := u.mPreserve
def has_input_location (u : subpass_usage_type) : Bool := u.mInputLocation.isSome
def has_color_location (u : subpass_usage_type) : Bool := u.mColorLocation.isSome
def has_resolve (u : subpass_usage_type) : Bool := u.mResolveAttachmentIndex.isSome

/-- The entry of a subpass in which the attachment is not used at all. -/
def unused : subpass_usage_type :=
  { mInput := false, mColor := false, mDepthStencil := false, mPreserve := false,
    mInputLocation := none, mColorLocation := none, mResolveAttachmentIndex := none }

end subpass_usage_type

/-- Modelled from the spec: the attachment declaration `xv::attachment` is declared
outside the translated files. Format and sample count are opaque codes, the usage sequence
has one entry per subpass. -/
structure attachment where
  mFormat : Nat
  mSampleCount : Nat
  mLoadOperation : on_load
  mStoreOperation : on_store
  mStencilLoadOperation : Option on_load
  mStencilStoreOperation : Option on_store
  mImageUsageHintBefore : Option image_usage
  mImageUsageHintAfter : Option image_usage
  mSubpassUsages : List subpass_usage_type
  mColorClearValue : float32 × float32 × float32 × float32
  mDepthClearValue : float32
  mStencilClearValue : Nat
  deriving DecidableEq

namespace attachment

def get_stencil_load_op (a : attachment) : on_load :=
  a.mStencilLoadOperation.getD a.mLoadOperation

def get_stencil_store_op (a : attachment) : on_store :=
  a.mStencilStoreOperation.getD a.mStoreOperation

/-- Modelled from the spec: `get_first_color_depth_input` is not in the translated files.
It is the first chronological usage that is input, colour or depth/stencil; when there is
none, an entry with none of these three flags is returned. -/
def get_first_color_depth_input (a : attachment) : subpass_usage_type :=
  (a.mSubpassUsages.find? (fun u => u.as_input || u.as_color || u.as_depth_stencil)).getD
    subpass_usage_type.unused

/-- Modelled from the spec: `get_last_color_depth_input` is not in the translated files.
It is the last chronological usage that is input, colour or depth/stencil; when there is
none, an entry with none of these three flags is returned. -/
def get_last_color_depth_input (a : attachment) : subpass_usage_type :=
  (a.mSubpassUsages.reverse.find?
    (fun u => u.as_input || u.as_color || u.as_depth_stencil)).getD subpass_usage_type.unused

/-- Modelled from the spec: `is_used_as_color_attachment` is not in the translated files;
the attachment is a colour attachment in some subpass. -/
def is_used_as_color_attachment (a : attachment) : Bool :=
  a.mSubpassUsages.any (fun u => u.as_color)

/-- Modelled from the spec: `is_used_as_depth_stencil_attachment` is not in the translated
files; the attachment is a depth/stencil attachment in some subpass. -/
def is_used_as_depth_stencil_attachment (a : attachment) : Bool :=
  a.mSubpassUsages.any (fun u => u.as_depth_stencil)

/-- Modelled from the spec: `is_used_as_input_attachment` is not in the translated files;
the attachment is an input attachment in some subpass. -/
def is_used_as_input_attachment (a : attachment) : Bool :=
  a.mSubpassUsages.any (fun u => u.as_input)

/-- Modelled from the spec: `shall_be_presentable` is not in the translated files; an
attachment is marked presentable by the store operation store-as-presentable. -/
def shall_be_presentable (a : attachment) : Bool :=
  decide (a.mStoreOperation = on_store.store_in_presentable_format)

end attachment

/-- The struct `vk::AttachmentDescription`. The load and store operations are kept as
declared: the converters `to_vk_load_op`, `to_vk_store_op` and `to_vk_sample_count` are
outside the translated files. -/
structure AttachmentDescription where
  format : Nat
  samples : Nat
  loadOp : on_load
  storeOp : on_store
  stencilLoadOp : on_load
  stencilStoreOp : on_store
  initialLayout : ImageLayout
  finalLayout : ImageLayout
  deriving DecidableEq

/-! ## Attachment layout inference (renderpass.cpp lines 47-161) -/

/-- Lines 63-99: the pair `(initialLayout, initialLayoutFixed)` after the three tests on
the first usage. -/
def initial_layout_from_first_usage (a : attachment) : ImageLayout × Bool :=
  let isLoad := decide (on_load.load = a.mLoadOperation)
  let isClear := decide (on_load.clear = a.mLoadOperation)
  let firstUsage := a.get_first_color_depth_input
  let s0 : ImageLayout × Bool := (ImageLayout.eUndefined, false)
  let s1 :=
    if firstUsage.as_input then
      let t := if isLoad then (ImageLayout.eShaderReadOnlyOptimal, true) else s0
      if isClear then (t.1, true) else t
    else s0
  let s2 :=
    if firstUsage.as_color then
      let t := if isLoad then (ImageLayout.eColorAttachmentOptimal, true) else s1
      if isClear then (t.1, true) else t
    else s1
  if firstUsage.as_depth_stencil then
    let t := if isLoad then (ImageLayout.eDepthStencilAttachmentOptimal, true) else s2
    if isClear then (t.1, true) else t
  else s2

/-- Lines 63-110: as before, then the usage hint before the pass when nothing is fixed. -/
def initial_layout_before_final (a : attachment) : ImageLayout × Bool :=
  let s := initial_layout_from_first_usage a
  if !s.2 then
    match a.mImageUsageHintBefore with
    | some hint =>
      let l1 := if hint.sampled then ImageLayout.eShaderReadOnlyOptimal else s.1
      let l2 := if hint.shader_storage then ImageLayout.eGeneral else l1
      (l2, s.2)
    | none => s
  else s

/-- Lines 112-157: the final layout. -/
def final_layout (a : attachment) : ImageLayout :=
  let isStore := decide (on_store.store = a.mStoreOperation)
    || decide (on_store.store_in_presentable_format = a.mStoreOperation)
  let lastUsage := a.get_last_color_depth_input
  let f0 := ImageLayout.eUndefined
  let f1 := if lastUsage.as_input then ImageLayout.eShaderReadOnlyOptimal else f0
  let f2 := if lastUsage.as_color then ImageLayout.eColorAttachmentOptimal else f1
  let f3 := if lastUsage.as_depth_stencil then ImageLayout.eDepthStencilAttachmentOptimal else f2
  let f4 :=
    if isStore && decide (ImageLayout.eUndefined = f3) then
      if a.is_used_as_color_attachment then ImageLayout.eColorAttachmentOptimal
      else if a.is_used_as_depth_stencil_attachment then
        ImageLayout.eDepthReadOnlyStencilAttachmentOptimal
      else if a.is_used_as_input_attachment then ImageLayout.eShaderReadOnlyOptimal
      else f3
    else f3
  let f5 :=
    match a.mImageUsageHintAfter with
    | some hint =>
      let l1 := if hint.sampled then ImageLayout.eShaderReadOnlyOptimal else f4
      if hint.shader_storage then ImageLayout.eGeneral else l1
    | none => f4
  let f6 := if ImageLayout.eUndefined = f5 then ImageLayout.eShaderReadOnlyOptimal else f5
  if a.shall_be_presentable then ImageLayout.ePresentSrcKHR else f6

/-- Lines 159-161: the initial layout, taken from the final one when it is not fixed and
the attachment is loaded. -/
def initial_layout (a : attachment) : ImageLayout :=
  let s := initial_layout_before_final a
  if !s.2 && decide (on_load.load = a.mLoadOperation) then final_layout a else s.1

/-- Lines 165-174: the attachment description pushed for an attachment. -/
def attachment_description (a : attachment) : AttachmentDescription :=
  { format := a.mFormat
    samples := a.mSampleCount
    loadOp := a.mLoadOperation
    storeOp := a.mStoreOperation
    stencilLoadOp := a.get_stencil_load_op
    stencilStoreOp := a.get_stencil_store_op
    initialLayout := initial_layout a
    finalLayout := final_layout a }

/-! ## Per-subpass bookkeeping (renderpass.cpp lines 7-22 and 202-253) -/

/-- A `std::map<uint32_t, vk::AttachmentReference>`: the entry added last for a key is the
one that is read. -/
abbrev location_map := List (Nat × AttachmentReference)

/-- The member `count(loc)` of the map: 1 when the key is present, 0 otherwise. -/
def location_map.count (m : location_map) (loc : Nat) : Nat :=
  if (m.lookup loc).isSome then 1 else 0

/-- The read `m[loc]`, which yields a default-constructed reference for a missing key. -/
def location_map.get (m : location_map) (loc : Nat) : AttachmentReference :=
  (m.lookup loc).getD {}

/-- The assignment `m[loc] = r`. -/
def location_map.assign (m : location_map) (loc : Nat) (r : AttachmentReference) :
    location_map :=
  (loc, r) :: m

/-- The struct `subpass_desc_helper`. -/
structure subpass_desc_helper where
  mSubpassId : Nat
  mSpecificInputLocations : location_map
  mUnspecifiedInputLocations : List AttachmentReference
  mInputMaxLoc : Int
  mSpecificColorLocations : location_map
  mUnspecifiedColorLocations : List AttachmentReference
  mColorMaxLoc : Int
  mSpecificDepthStencilLocations : location_map
  mUnspecifiedDepthStencilLocations : List AttachmentReference
  mDepthStencilMaxLoc : Int
  mSpecificResolveLocations : location_map
  mUnspecifiedResolveLocations : List AttachmentReference
  mPreserveAttachments : List Nat
  deriving DecidableEq

/-- Lines 37-41: the helper emplaced for subpass `i`. -/
def subpass_desc_helper.init (i : Nat) : subpass_desc_helper :=
  { mSubpassId := i
    mSpecificInputLocations := []
    mUnspecifiedInputLocations := []
    mInputMaxLoc := -1
    mSpecificColorLocations := []
    mUnspecifiedColorLocations := []
    mColorMaxLoc := -1
    mSpecificDepthStencilLocations := []
    mUnspecifiedDepthStencilLocations := []
    mDepthStencilMaxLoc := -1
    mSpecificResolveLocations := []
    mUnspecifiedResolveLocations := []
    mPreserveAttachments := [] }

/-- The ways in which `renderpass_t::create` ends without returning an object. -/
inductive create_error
  | no_attachments
  | subpass_count_mismatch
  | input_location_used_twice (loc subpass : Nat)
  | color_location_used_twice (loc subpass : Nat)
  | assertion_failed (line : Nat)
  | loop_does_not_terminate
  | out_of_fuel
  deriving DecidableEq

/-- The outcomes that are a `throw` or a failed assertion of the source. The other two
are the loop of line 389 that does not end and a too small supply of iterations. -/
def create_error.is_throw_or_assertion : create_error → Bool
  | create_error.no_attachments => true
  | create_error.subpass_count_mismatch => true
  | create_error.input_location_used_twice _ _ => true
  | create_error.color_location_used_twice _ _ => true
  | create_error.assertion_failed _ => true
  | create_error.loop_does_not_terminate => false
  | create_error.out_of_fuel => false

/-- Lines 205-219: the usage of attachment `attachmentIndex` in subpass `i` as input. -/
def usage_as_input (attachmentIndex i : Nat) (sp : subpass_desc_helper)
    (u : subpass_usage_type) : Except create_error subpass_desc_helper :=
  if u.as_input then
    if !(!u.has_resolve || u.as_color) then Except.error (create_error.assertion_failed 206)
    else
      match u.mInputLocation with
      | some loc =>
        if sp.mSpecificInputLocations.count loc ≠ 0 then
          Except.error (create_error.input_location_used_twice loc i)
        else
          Except.ok { sp with
            mSpecificInputLocations := sp.mSpecificInputLocations.assign loc
              ⟨attachmentIndex, ImageLayout.eShaderReadOnlyOptimal⟩
            mInputMaxLoc := max sp.mInputMaxLoc (loc : Int) }
      | none =>
        Except.ok { sp with
          mUnspecifiedInputLocations := sp.mUnspecifiedInputLocations ++
            [⟨attachmentIndex, ImageLayout.eShaderReadOnlyOptimal⟩] }
  else Except.ok sp

/-- The attachment named by the resolve reference of a colour usage (lines 228 and 234). -/
def resolve_attachment (u : subpass_usage_type) : Nat :=
  match u.mResolveAttachmentIndex with
  | some target => target
  | none => VK_ATTACHMENT_UNUSED

/-- Lines 220-236: the usage as colour, with the resolve reference kept in step. -/
def usage_as_color (attachmentIndex i : Nat) (sp : subpass_desc_helper)
    (u : subpass_usage_type) : Except create_error subpass_desc_helper :=
  if u.as_color then
    match u.mColorLocation with
    | some loc =>
      if sp.mSpecificColorLocations.count loc ≠ 0 then
        Except.error (create_error.color_location_used_twice loc i)
      else
        Except.ok { sp with
          mSpecificColorLocations := sp.mSpecificColorLocations.assign loc
            ⟨attachmentIndex, ImageLayout.eColorAttachmentOptimal⟩
          mSpecificResolveLocations := sp.mSpecificResolveLocations.assign loc
            ⟨resolve_attachment u, ImageLayout.eColorAttachmentOptimal⟩
          mColorMaxLoc := max sp.mColorMaxLoc (loc : Int) }
    | none =>
      Except.ok { sp with
        mUnspecifiedColorLocations := sp.mUnspecifiedColorLocations ++
          [⟨attachmentIndex, ImageLayout.eColorAttachmentOptimal⟩]
        mUnspecifiedResolveLocations := sp.mUnspecifiedResolveLocations ++
          [⟨resolve_attachment u, ImageLayout.eColorAttachmentOptimal⟩] }
  else Except.ok sp

/-- Lines 237-247: the usage as depth/stencil, always queued. -/
def usage_as_depth_stencil (attachmentIndex : Nat) (sp : subpass_desc_helper)
    (u : subpass_usage_type) : Except create_error subpass_desc_helper :=
  if u.as_depth_stencil then
    if !(!u.has_resolve || u.as_color) then Except.error (create_error.assertion_failed 238)
    else
      Except.ok { sp with
        mUnspecifiedDepthStencilLocations := sp.mUnspecifiedDepthStencilLocations ++
          [⟨attachmentIndex, ImageLayout.eDepthStencilAttachmentOptimal⟩] }
  else Except.ok sp

/-- Lines 248-252: the usage as preserve. -/
def usage_as_preserve (attachmentIndex : Nat) (sp : subpass_desc_helper)
    (u : subpass_usage_type) : Except create_error subpass_desc_helper :=
  if u.as_preserve then
    if !(!u.has_resolve || u.as_color) then Except.error (create_error.assertion_failed 249)
    else if !(!u.as_input && !u.as_color && !u.as_depth_stencil) then
      Except.error (create_error.assertion_failed 250)
    else
      Except.ok { sp with mPreserveAttachments := sp.mPreserveAttachments ++ [attachmentIndex] }
  else Except.ok sp

/-- Lines 203-252: the body of the loop over the subpasses of one attachment. -/
def process_usage (attachmentIndex i : Nat) (sp : subpass_desc_helper)
    (u : subpass_usage_type) : Except create_error subpass_desc_helper :=
  match usage_as_input attachmentIndex i sp u with
  | Except.error e => Except.error e
  | Except.ok sp1 =>
    match usage_as_color attachmentIndex i sp1 u with
    | Except.error e => Except.error e
    | Except.ok sp2 =>
      match usage_as_depth_stencil attachmentIndex sp2 u with
      | Except.error e => Except.error e
      | Except.ok sp3 => usage_as_preserve attachmentIndex sp3 u

/-- Lines 202-253: the loop `for (i = 0; i < nSubpasses; ++i)` over `subpasses[i]` and the
usage entry `i`, started at subpass `i`. Line 180 has made both sequences equally long. -/
def process_usages (attachmentIndex : Nat) :
    Nat → List subpass_desc_helper → List subpass_usage_type →
      Except create_error (List subpass_desc_helper)
  | _, sps, [] => Except.ok sps
  | _, [], _ :: _ => Except.ok []
  | i, sp :: sps, u :: us =>
    match process_usage attachmentIndex i sp u with
    | Except.error e => Except.error e
    | Except.ok sp1 =>
      match process_usages attachmentIndex (i + 1) sps us with
      | Except.error e => Except.error e
      | Except.ok rest => Except.ok (sp1 :: rest)

/-! ## Clear values (renderpass.cpp lines 184-200) -/

/-- Lines 187-196: the loop `while (descriptions.size() != clearValues.size() && spId <
nSubpasses)`, over the usage entries from `spId` on. -/
def clear_values_loop (a : attachment) (numDescriptions : Nat) :
    List subpass_usage_type → List ClearValue → List ClearValue
  | [], clearValues => clearValues
  | u :: us, clearValues =>
    if numDescriptions ≠ clearValues.length then
      let c1 :=
        if u.as_color then
          clearValues ++ [ClearValue.color a.mColorClearValue.1 a.mColorClearValue.2.1
            a.mColorClearValue.2.2.1 a.mColorClearValue.2.2.2]
        else clearValues
      let c2 :=
        if u.as_depth_stencil then
          c1 ++ [ClearValue.depthStencil a.mDepthClearValue a.mStencilClearValue]
        else c1
      clear_values_loop a numDescriptions us c2
    else clearValues

/-- Lines 186-199: the loop, then the empty clear value when none was pushed. -/
def fill_clear_values (a : attachment) (numDescriptions : Nat) (clearValues : List ClearValue) :
    List ClearValue :=
  let c := clear_values_loop a numDescriptions a.mSubpassUsages clearValues
  if numDescriptions ≠ c.length then c ++ [ClearValue.empty] else c

/-! ## Ordered reference sequences (renderpass.cpp lines 256-324) -/

/-- Line 257: `vk::AttachmentReference().setAttachment(VK_ATTACHMENT_UNUSED)`. -/
def unusedAttachmentRef : AttachmentReference :=
  { attachment := VK_ATTACHMENT_UNUSED }

/-- Lines 264-278 and 302-316: the loop
`for (int loc = 0; loc <= maxLoc || !unspecified.empty(); ++loc)` from position `loc` on,
with the references pushed so far in `ordered`. Every iteration uses one unit of the first
argument; `out_of_fuel` is the outcome of too small a supply, and `line` is the line of the
assertion inside the body. -/
def fill_ordered (line : Nat) (specific : location_map) (maxLoc : Int) :
    Nat → Nat → List AttachmentReference → List AttachmentReference →
      Except create_error (List AttachmentReference)
  | 0, _, _, _ => Except.error create_error.out_of_fuel
  | fuel + 1, loc, unspecified, ordered =>
    if (loc : Int) ≤ maxLoc ∨ unspecified ≠ [] then
      if specific.count loc > 0 then
        if specific.count loc ≠ 1 then Except.error (create_error.assertion_failed line)
        else
          fill_ordered line specific maxLoc fuel (loc + 1) unspecified
            (ordered ++ [specific.get loc])
      else
        match unspecified with
        | r :: rest =>
          fill_ordered line specific maxLoc fuel (loc + 1) rest (ordered ++ [r])
        | [] =>
          fill_ordered line specific maxLoc fuel (loc + 1) [] (ordered ++ [unusedAttachmentRef])
    else Except.ok ordered

/-- Lines 280-300: the same loop for the colour references, which pushes a resolve
reference with every colour reference. -/
def fill_ordered_color (specificColor specificResolve : location_map) (maxLoc : Int) :
    Nat → Nat → List AttachmentReference → List AttachmentReference →
      List AttachmentReference → List AttachmentReference →
      Except create_error (List AttachmentReference × List AttachmentReference)
  | 0, _, _, _, _, _ => Except.error create_error.out_of_fuel
  | fuel + 1, loc, unspecifiedColor, unspecifiedResolve, orderedColor, orderedResolve =>
    if (loc : Int) ≤ maxLoc ∨ unspecifiedColor ≠ [] then
      if specificColor.count loc > 0 then
        if specificColor.count loc ≠ 1 then Except.error (create_error.assertion_failed 282)
        else if specificResolve.count loc ≠ 1 then
          Except.error (create_error.assertion_failed 283)
        else
          fill_ordered_color specificColor specificResolve maxLoc fuel (loc + 1)
            unspecifiedColor unspecifiedResolve
            (orderedColor ++ [specificColor.get loc])
            (orderedResolve ++ [specificResolve.get loc])
      else
        match unspecifiedColor, unspecifiedResolve with
        | c :: restColor, r :: restResolve =>
          if restColor.length ≠ restResolve.length then
            Except.error (create_error.assertion_failed 289)
          else
            fill_ordered_color specificColor specificResolve maxLoc fuel (loc + 1)
              restColor restResolve (orderedColor ++ [c]) (orderedResolve ++ [r])
        | _ :: _, [] => Except.error (create_error.assertion_failed 289)
        | [], _ =>
          fill_ordered_color specificColor specificResolve maxLoc fuel (loc + 1)
            [] unspecifiedResolve (orderedColor ++ [unusedAttachmentRef])
            (orderedResolve ++ [unusedAttachmentRef])
    else Except.ok (orderedColor, orderedResolve)

/-- The number of iterations granted to the loops over one helper: one for every map
entry, one for every queued reference, one for every position up to the maximum. -/
def loop_fuel (specific : location_map) (unspecified : List AttachmentReference)
    (maxLoc : Int) : Nat :=
  specific.length + unspecified.length + (maxLoc + 1).toNat + 1

/-- The element of `mSubpassData`: the reference tables of one subpass. -/
structure subpass_data where
  mOrderedInputAttachmentRefs : List AttachmentReference
  mOrderedColorAttachmentRefs : List AttachmentReference
  mOrderedDepthStencilAttachmentRefs : List AttachmentReference
  mOrderedResolveAttachmentRefs : List AttachmentReference
  mPreserveAttachments : List Nat
  deriving DecidableEq

/-- Lines 260-323: the body of the loop that fills `mSubpassData`, for one helper. The
assertion of line 262 compares the size of a vector with the number of its pushes. -/
def fill_subpass_data (a : subpass_desc_helper) : Except create_error subpass_data :=
  match fill_ordered 266 a.mSpecificInputLocations a.mInputMaxLoc
      (loop_fuel a.mSpecificInputLocations a.mUnspecifiedInputLocations a.mInputMaxLoc)
      0 a.mUnspecifiedInputLocations [] with
  | Except.error e => Except.error e
  | Except.ok inputRefs =>
    match fill_ordered_color a.mSpecificColorLocations a.mSpecificResolveLocations a.mColorMaxLoc
        (loop_fuel a.mSpecificColorLocations a.mUnspecifiedColorLocations a.mColorMaxLoc)
        0 a.mUnspecifiedColorLocations a.mUnspecifiedResolveLocations [] [] with
    | Except.error e => Except.error e
    | Except.ok (colorRefs, resolveRefs) =>
      match fill_ordered 304 a.mSpecificDepthStencilLocations a.mDepthStencilMaxLoc
          (loop_fuel a.mSpecificDepthStencilLocations a.mUnspecifiedDepthStencilLocations
            a.mDepthStencilMaxLoc)
          0 a.mUnspecifiedDepthStencilLocations [] with
      | Except.error e => Except.error e
      | Except.ok depthStencilRefs =>
        if !(resolveRefs.isEmpty || decide (resolveRefs.length = colorRefs.length)) then
          Except.error (create_error.assertion_failed 321)
        else if !(decide (depthStencilRefs.length ≤ 1)) then
          Except.error (create_error.assertion_failed 323)
        else
          Except.ok
            { mOrderedInputAttachmentRefs := inputRefs
              mOrderedColorAttachmentRefs := colorRefs
              mOrderedDepthStencilAttachmentRefs := depthStencilRefs
              mOrderedResolveAttachmentRefs := resolveRefs
              mPreserveAttachments := a.mPreserveAttachments }

/-- Lines 259-324: the loop over all helpers, in subpass order. -/
def fill_all_subpass_data :
    List subpass_desc_helper → Except create_error (List subpass_data)
  | [] => Except.ok []
  | a :: rest =>
    match fill_subpass_data a with
    | Except.error e => Except.error e
    | Except.ok b =>
      match fill_all_subpass_data rest with
      | Except.error e => Except.error e
      | Except.ok bs => Except.ok (b :: bs)

/-- The struct `vk::SubpassDescription` as filled in lines 334-350; a null pointer is
`none`, the bind point is always the graphics one. -/
structure SubpassDescription where
  colorAttachmentCount : Nat
  pColorAttachments : List AttachmentReference
  pResolveAttachments : Option (List AttachmentReference)
  pDepthStencilAttachment : Option AttachmentReference
  inputAttachmentCount : Nat
  pInputAttachments : List AttachmentReference
  preserveAttachmentCount : Nat
  pPreserveAttachments : List Nat
  deriving DecidableEq

/-- Lines 334-350. -/
def subpass_description (b : subpass_data) : SubpassDescription :=
  { colorAttachmentCount := to_uint32 b.mOrderedColorAttachmentRefs.length
    pColorAttachments := b.mOrderedColorAttachmentRefs
    pResolveAttachments :=
      if b.mOrderedResolveAttachmentRefs.length = 0 then none
      else some b.mOrderedResolveAttachmentRefs
    pDepthStencilAttachment := b.mOrderedDepthStencilAttachmentRefs.head?
    inputAttachmentCount := to_uint32 b.mOrderedInputAttachmentRefs.length
    pInputAttachments := b.mOrderedInputAttachmentRefs
    preserveAttachmentCount := to_uint32 b.mPreserveAttachments.length
    pPreserveAttachments := b.mPreserveAttachments }

/-! ## Subpass dependencies (renderpass.cpp lines 359-419) -/

/-- Modelled from the spec: the pipeline-stage sets are declared outside the translated
files; the two named by `create` are kept by name, any other by a code. -/
inductive pipeline_stage
  | all_commands
  | all_graphics_stages
  | other (code : Nat)
  deriving DecidableEq

/-- Modelled from the spec: the memory-access sets are declared outside the translated
files; the four named by `create` are kept by name, their union by `either`, any other by
a code. -/
inductive memory_access
  | any_write_access
  | any_read_access
  | any_graphics_read_access
  | any_graphics_basic_write_access
  | either (a b : memory_access)
  | other (code : Nat)
  deriving DecidableEq

/-- Modelled from the spec: `renderpass_sync` is declared outside the translated files. It
names a source and a destination subpass, each a subpass index or the marker for
"external", and carries the stage and access sets of both sides. -/
structure renderpass_sync where
  mSourceSubpassId : Int
  mDestinationSubpassId : Int
  mSourceStage : pipeline_stage
  mSourceMemoryDependency : memory_access
  mDestinationStage : pipeline_stage
  mDestinationMemoryDependency : memory_access
  deriving DecidableEq

namespace renderpass_sync

/-- The marker `renderpass_sync::sExternal`. -/
def sExternal : Int := -1

/-- Modelled from the spec: the source identifier handed to Vulkan, "external" or the
subpass index. -/
def source_vk_subpass_id (s : renderpass_sync) : Nat :=
  if s.mSourceSubpassId = sExternal then VK_SUBPASS_EXTERNAL
  else int_to_uint32 s.mSourceSubpassId

/-- Modelled from the spec: the destination identifier handed to Vulkan, "external" or the
subpass index. -/
def destination_vk_subpass_id (s : renderpass_sync) : Nat :=
  if s.mDestinationSubpassId = sExternal then VK_SUBPASS_EXTERNAL
  else int_to_uint32 s.mDestinationSubpassId

end renderpass_sync

/-- The struct `vk::SubpassDependency`; the stage and access sets are kept as declared,
their converters to Vulkan flags are outside the translated files. -/
structure SubpassDependency where
  srcSubpass : Nat
  dstSubpass : Nat
  srcStageMask : pipeline_stage
  srcAccessMask : memory_access
  dstStageMask : pipeline_stage
  dstAccessMask : memory_access
  deriving DecidableEq

/-- Lines 361-373: the dependency that `addDependency` pushes for a sync description. -/
def addDependency (rps : renderpass_sync) : SubpassDependency :=
  { srcSubpass := rps.source_vk_subpass_id
    dstSubpass := rps.destination_vk_subpass_id
    srcStageMask := rps.mSourceStage
    srcAccessMask := rps.mSourceMemoryDependency
    dstStageMask := rps.mDestinationStage
    dstAccessMask := rps.mDestinationMemoryDependency }

/-- The optional hook `aSync`: `if (aSync) { aSync(sync); }`. -/
def apply_sync (aSync : Option (renderpass_sync → renderpass_sync)) (s : renderpass_sync) :
    renderpass_sync :=
  match aSync with
  | some f => f s
  | none => s

/-- Lines 376-379: the sync description of the leading edge. -/
def syncBefore (firstSubpassId : Nat) : renderpass_sync :=
  { mSourceSubpassId := renderpass_sync.sExternal
    mDestinationSubpassId := to_int firstSubpassId
    mSourceStage := pipeline_stage.all_commands
    mSourceMemoryDependency := memory_access.any_write_access
    mDestinationStage := pipeline_stage.all_graphics_stages
    mDestinationMemoryDependency :=
      memory_access.either memory_access.any_graphics_read_access
        memory_access.any_graphics_basic_write_access }

/-- Lines 392-395: the sync description of the edge between two consecutive subpasses. -/
def syncBetween (prevSubpassId nextSubpassId : Nat) : renderpass_sync :=
  { mSourceSubpassId := to_int prevSubpassId
    mDestinationSubpassId := to_int nextSubpassId
    mSourceStage := pipeline_stage.all_graphics_stages
    mSourceMemoryDependency := memory_access.any_graphics_basic_write_access
    mDestinationStage := pipeline_stage.all_graphics_stages
    mDestinationMemoryDependency :=
      memory_access.either memory_access.any_graphics_read_access
        memory_access.any_graphics_basic_write_access }

/-- Lines 406-409: the sync description of the trailing edge. -/
def syncAfter (lastSubpassId : Nat) : renderpass_sync :=
  { mSourceSubpassId := to_int lastSubpassId
    mDestinationSubpassId := renderpass_sync.sExternal
    mSourceStage := pipeline_stage.all_graphics_stages
    mSourceMemoryDependency := memory_access.any_graphics_basic_write_access
    mDestinationStage := pipeline_stage.all_commands
    mDestinationMemoryDependency := memory_access.any_read_access }

/-- Lines 389-403: the body of the loop `for (i = firstSubpassId + 1; i <= lastSubpassId;
++i)` run for the values of `i` in the list. -/
def dependencies_between (aSync : Option (renderpass_sync → renderpass_sync)) :
    List Nat → List SubpassDependency → Except create_error (List SubpassDependency)
  | [], deps => Except.ok deps
  | i :: rest, deps =>
    let prevSubpassId := i - 1
    let nextSubpassId := i
    let s := apply_sync aSync (syncBetween prevSubpassId nextSubpassId)
    if s.source_vk_subpass_id ≠ prevSubpassId then
      Except.error (create_error.assertion_failed 400)
    else if s.destination_vk_subpass_id ≠ nextSubpassId then
      Except.error (create_error.assertion_failed 401)
    else dependencies_between aSync rest (deps ++ [addDependency s])

/-- Lines 375-419, with the value of `lastSubpassId` as an argument. When that value is
the largest 32-bit one, the condition `i <= lastSubpassId` of the loop holds for every
`i`: the call never returns an object, which is reported as `loop_does_not_terminate`
without tracing the iterations. -/
def subpass_dependencies_upto (numSubpassesFirst lastSubpassId : Nat)
    (aSync : Option (renderpass_sync → renderpass_sync)) :
    Except create_error (List SubpassDependency) :=
  let firstSubpassId : Nat := 0
  let before := apply_sync aSync (syncBefore firstSubpassId)
  if before.source_vk_subpass_id ≠ VK_SUBPASS_EXTERNAL then
    Except.error (create_error.assertion_failed 384)
  else if before.destination_vk_subpass_id ≠ 0 then
    Except.error (create_error.assertion_failed 385)
  else if lastSubpassId = 4294967295 then Except.error create_error.loop_does_not_terminate
  else
    match dependencies_between aSync ((List.range lastSubpassId).map (fun k => k + 1))
        [addDependency before] with
    | Except.error e => Except.error e
    | Except.ok deps =>
      let after := apply_sync aSync (syncAfter lastSubpassId)
      if after.source_vk_subpass_id ≠ lastSubpassId then
        Except.error (create_error.assertion_failed 414)
      else if after.destination_vk_subpass_id ≠ VK_SUBPASS_EXTERNAL then
        Except.error (create_error.assertion_failed 415)
      else if (deps ++ [addDependency after]).length ≠ numSubpassesFirst + 1 then
        Except.error (create_error.assertion_failed 419)
      else Except.ok (deps ++ [addDependency after])

/-- Lines 359-419. `lastSubpassId` is `numSubpassesFirst - 1`, computed in `size_t` and
narrowed to `uint32_t` (line 360). -/
def subpass_dependencies (numSubpassesFirst : Nat)
    (aSync : Option (renderpass_sync → renderpass_sync)) :
    Except create_error (List SubpassDependency) :=
  subpass_dependencies_upto numSubpassesFirst (to_uint32 (size_t_sub numSubpassesFirst 1)) aSync

/-! ## The render pass and its creation (renderpass.cpp lines 24-444) -/

/-- The struct `vk::RenderPassCreateInfo` of lines 427-433. -/
structure RenderPassCreateInfo where
  attachmentCount : Nat
  pAttachments : List AttachmentDescription
  subpassCount : Nat
  pSubpasses : List SubpassDescription
  dependencyCount : Nat
  pDependencies : List SubpassDependency
  deriving DecidableEq

/-- The class `renderpass_t`. The device is outside the translated files; the handle
`mRenderPass` stands for the one creation call and records what that call was given. -/
structure renderpass_t where
  mAttachmentDescriptions : List AttachmentDescription
  mClearValues : List ClearValue
  mSubpassData : List subpass_data
  mSubpasses : List SubpassDescription
  mSubpassDependencies : List SubpassDependency
  mRenderPass : Option RenderPassCreateInfo
  deriving DecidableEq

/-- What the loop over the attachments (lines 45-254) changes. -/
structure create_state where
  mAttachmentDescriptions : List AttachmentDescription
  mClearValues : List ClearValue
  subpasses : List subpass_desc_helper
  deriving DecidableEq

/-- Lines 46-253: the body of the loop over the attachments. -/
def process_attachment (numSubpassesFirst : Nat) (st : create_state) (a : attachment) :
    Except create_error create_state :=
  let descriptions := st.mAttachmentDescriptions ++ [attachment_description a]
  let attachmentIndex := to_uint32 (descriptions.length - 1)
  let nSubpasses := a.mSubpassUsages.length
  if nSubpasses ≠ numSubpassesFirst then Except.error create_error.subpass_count_mismatch
  else if descriptions.length ≠ st.mClearValues.length + 1 then
    Except.error (create_error.assertion_failed 185)
  else
    let clearValues := fill_clear_values a descriptions.length st.mClearValues
    if descriptions.length ≠ clearValues.length then
      Except.error (create_error.assertion_failed 200)
    else
      match process_usages attachmentIndex 0 st.subpasses a.mSubpassUsages with
      | Except.error e => Except.error e
      | Except.ok subpasses =>
        Except.ok
          { mAttachmentDescriptions := descriptions
            mClearValues := clearValues
            subpasses := subpasses }

/-- Lines 45-254: the loop over the attachments. -/
def process_attachments (numSubpassesFirst : Nat) :
    create_state → List attachment → Except create_error create_state
  | st, [] => Except.ok st
  | st, a :: rest =>
    match process_attachment numSubpassesFirst st a with
    | Except.error e => Except.error e
    | Except.ok st1 => process_attachments numSubpassesFirst st1 rest

/-- Lines 427-433. -/
def create_info (r : renderpass_t) : RenderPassCreateInfo :=
  { attachmentCount := to_uint32 r.mAttachmentDescriptions.length
    pAttachments := r.mAttachmentDescriptions
    subpassCount := to_uint32 r.mSubpasses.length
    pSubpasses := r.mSubpasses
    dependencyCount := to_uint32 r.mSubpassDependencies.length
    pDependencies := r.mSubpassDependencies }

/-- The function `renderpass_t::create`. The hooks are pure functions of what they are
given; an absent hook is `none`. -/
def create (aAttachments : List attachment)
    (aSync : Option (renderpass_sync → renderpass_sync))
    (aAlterConfigBeforeCreation : Option (renderpass_t → renderpass_t)) :
    Except create_error renderpass_t :=
  match aAttachments with
  | [] => Except.error create_error.no_attachments
  | front :: _ =>
    let numSubpassesFirst := front.mSubpassUsages.length
    let subpasses := (List.range numSubpassesFirst).map subpass_desc_helper.init
    match process_attachments numSubpassesFirst
        { mAttachmentDescriptions := [], mClearValues := [], subpasses := subpasses }
        aAttachments with
    | Except.error e => Except.error e
    | Except.ok st =>
      match fill_all_subpass_data st.subpasses with
      | Except.error e => Except.error e
      | Except.ok subpassData =>
        match subpass_dependencies numSubpassesFirst aSync with
        | Except.error e => Except.error e
        | Except.ok dependencies =>
          let result : renderpass_t :=
            { mAttachmentDescriptions := st.mAttachmentDescriptions
              mClearValues := st.mClearValues
              mSubpassData := subpassData
              mSubpasses := subpassData.map subpass_description
              mSubpassDependencies := dependencies
              mRenderPass := none }
          let altered :=
            match aAlterConfigBeforeCreation with
            | some f => f result
            | none => result
          Except.ok { altered with mRenderPass := some (create_info altered) }

/-! ## Queries on a render pass (renderpass.cpp lines 446-489) -/

/-- Lines 446-453; `none` is a failed assertion on one of the two indices. -/
def renderpass_t.is_input_attachment (r : renderpass_t) (aSubpassId aAttachmentIndex : Nat) :
    Option Bool :=
  match r.mSubpassData[aSubpassId]? with
  | none => none
  | some b =>
    if aAttachmentIndex < r.mAttachmentDescriptions.length then
      some (b.mOrderedInputAttachmentRefs.any (fun ref => ref.attachment = aAttachmentIndex))
    else none

/-- Lines 455-462; `none` is a failed assertion on one of the two indices. -/
def renderpass_t.is_color_attachment (r : renderpass_t) (aSubpassId aAttachmentIndex : Nat) :
    Option Bool :=
  match r.mSubpassData[aSubpassId]? with
  | none => none
  | some b =>
    if aAttachmentIndex < r.mAttachmentDescriptions.length then
      some (b.mOrderedColorAttachmentRefs.any (fun ref => ref.attachment = aAttachmentIndex))
    else none

/-- Lines 464-471; `none` is a failed assertion on one of the two indices. -/
def renderpass_t.is_depth_stencil_attachment (r : renderpass_t)
    (aSubpassId aAttachmentIndex : Nat) : Option Bool :=
  match r.mSubpassData[aSubpassId]? with
  | none => none
  | some b =>
    if aAttachmentIndex < r.mAttachmentDescriptions.length then
      some (b.mOrderedDepthStencilAttachmentRefs.any
        (fun ref => ref.attachment = aAttachmentIndex))
    else none

/-- Lines 473-480; `none` is a failed assertion on one of the two indices. -/
def renderpass_t.is_resolve_attachment (r : renderpass_t) (aSubpassId aAttachmentIndex : Nat) :
    Option Bool :=
  match r.mSubpassData[aSubpassId]? with
  | none => none
  | some b =>
    if aAttachmentIndex < r.mAttachmentDescriptions.length then
      some (b.mOrderedResolveAttachmentRefs.any (fun ref => ref.attachment = aAttachmentIndex))
    else none

/-- Lines 482-489; `none` is a failed assertion on one of the two indices. -/
def renderpass_t.is_preserve_attachment (r : renderpass_t)
    (aSubpassId aAttachmentIndex : Nat) : Option Bool :=
  match r.mSubpassData[aSubpassId]? with
  | none => none
  | some b =>
    if aAttachmentIndex < r.mAttachmentDescriptions.length then
      some (b.mPreserveAttachments.any (fun idx => idx = aAttachmentIndex))
    else none

/-! ## Device queues (queue_vulkan.cpp lines 5-62) -/

/-- The enumeration `device_queue_selection_strategy`. -/
inductive device_queue_selection_strategy
  | prefer_separate_queues
  | prefer_everything_on_single_queue
  deriving DecidableEq

/-- The members of `device_queue` that `prepare` sets; a null handle is `none`. -/
structure device_queue where
  mQueueFamilyIndex : Nat
  mQueueIndex : Nat
  mPriority : float32
  mQueue : Option Nat
  deriving DecidableEq

def device_queue.family_index (q : device_queue) : Nat := q.mQueueFamilyIndex

def device_queue.queue_index (q : device_queue) : Nat := q.mQueueIndex

/-- An element of the result of `find_best_queue_family_for`, which is outside the
translated files: the index of the family and the `queueCount` of its properties. -/
structure queue_family where
  index : Nat
  queueCount : Nat
  deriving DecidableEq

/-- Lines 24-30: `alreadyInUse != sPreparedQueues.end()`. -/
def already_in_use (sPreparedQueues : List device_queue) (familyIndex queueIndex : Nat) :
    Bool :=
  sPreparedQueues.any
    (fun pq => decide (pq.family_index = familyIndex) && decide (pq.queue_index = queueIndex))

/-- Lines 22-52: the inner loop over the queue indices in the list, for one family; `some`
is the jump to `found_indices` with the indices it has set. -/
def find_in_family (aSelectionStrategy : device_queue_selection_strategy)
    (sPreparedQueues : List device_queue) (familyIndex : Nat) : List Nat → Option (Nat × Nat)
  | [] => none
  | qi :: rest =>
    match aSelectionStrategy with
    | device_queue_selection_strategy.prefer_separate_queues =>
      if !already_in_use sPreparedQueues familyIndex qi then some (familyIndex, qi)
      else find_in_family aSelectionStrategy sPreparedQueues familyIndex rest
    | device_queue_selection_strategy.prefer_everything_on_single_queue =>
      if already_in_use sPreparedQueues familyIndex qi then some (familyIndex, 0)
      else find_in_family aSelectionStrategy sPreparedQueues familyIndex rest

/-- Lines 21-53: the outer loop over the families. -/
def find_indices (aSelectionStrategy : device_queue_selection_strategy)
    (sPreparedQueues : List device_queue) : List queue_family → Option (Nat × Nat)
  | [] => none
  | family :: rest =>
    match find_in_family aSelectionStrategy sPreparedQueues family.index
        (List.range family.queueCount) with
    | some found => some found
    | none => find_indices aSelectionStrategy sPreparedQueues rest

/-- The function `device_queue::prepare`, given the families that
`find_best_queue_family_for` returned and the ledger `sPreparedQueues`. It returns the
queue that was appended together with the ledger after the call; `none` is the `throw` of
line 14. -/
def device_queue.prepare (families : List queue_family)
    (aSelectionStrategy : device_queue_selection_strategy)
    (sPreparedQueues : List device_queue) : Option (device_queue × List device_queue) :=
  match families with
  | [] => none
  | first :: _ =>
    let found := (find_indices aSelectionStrategy sPreparedQueues families).getD (first.index, 0)
    let prepd_queue : device_queue :=
      { mQueueFamilyIndex := found.1
        mQueueIndex := found.2
        mPriority := float32.half
        mQueue := none }
    some (prepd_queue, sPreparedQueues ++ [prepd_queue])

/-- The ledger `sPreparedQueues` after a call of `prepare`. The `throw` of line 14 comes
before the only write to the ledger, the `emplace_back` of line 56. -/
def device_queue.ledger_after (families : List queue_family)
    (aSelectionStrategy : device_queue_selection_strategy)
    (sPreparedQueues : List device_queue) : List device_queue :=
  match device_queue.prepare families aSelectionStrategy sPreparedQueues with
  | some (_, ledger) => ledger
  | none => sPreparedQueues

/-- The (family, queue index) pairs in the order in which `prepare` visits them: families
in order, the queue indices of a family ascending and below its queue count. -/
def enumerate_pairs : List queue_family → List (Nat × Nat)
  | [] => []
  | family :: rest =>
    (List.range family.queueCount).map (fun qi => (family.index, qi)) ++ enumerate_pairs rest

/-- Whether a (family, queue index) pair is one that the strategy looks for: a pair that
is not in the ledger under `prefer_separate_queues`, a pair that is in the ledger under
`prefer_everything_on_single_queue` (lines 35-50). -/
def satisfies_strategy (aSelectionStrategy : device_queue_selection_strategy)
    (sPreparedQueues : List device_queue) (p : Nat × Nat) : Bool :=
  match aSelectionStrategy with
  | device_queue_selection_strategy.prefer_separate_queues =>
    !already_in_use sPreparedQueues p.1 p.2
  | device_queue_selection_strategy.prefer_everything_on_single_queue =>
    already_in_use sPreparedQueues p.1 p.2

/-! ## Notions used to state the properties -/

/-- The explicit input location that a usage entry declares, if it is an input usage. -/
def input_location_of (u : subpass_usage_type) : Option Nat :=
  if u.as_input then u.mInputLocation else none

/-- The explicit colour location that a usage entry declares, if it is a colour usage. -/
def color_location_of (u : subpass_usage_type) : Option Nat :=
  if u.as_color then u.mColorLocation else none

/-- An input usage without an explicit location. -/
def queued_as_input (u : subpass_usage_type) : Bool :=
  u.as_input && u.mInputLocation.isNone

/-- A colour usage without an explicit location. -/
def queued_as_color (u : subpass_usage_type) : Bool :=
  u.as_color && u.mColorLocation.isNone

/-- The usage entries of subpass `s`, in attachment-list order, each with the index of its
attachment; the first attachment of the list has index `k`. -/
def usages_from (s : Nat) : Nat → List attachment → List (Nat × subpass_usage_type)
  | _, [] => []
  | k, a :: rest =>
    match a.mSubpassUsages[s]? with
    | some u => (k, u) :: usages_from s (k + 1) rest
    | none => usages_from s (k + 1) rest

/-- The usage entries of subpass `s` of an attachment list, with the attachment indices. -/
def usages_in_subpass (aAttachments : List attachment) (s : Nat) :
    List (Nat × subpass_usage_type) :=
  usages_from s 0 aAttachments

/-- The largest of the locations, `-1` when there is none. -/
def max_location (locs : List Nat) : Int :=
  locs.foldl (fun m loc => max m (loc : Int)) (-1)

/-- The explicit input locations declared in a column of usage entries. -/
def input_locations (es : List (Nat × subpass_usage_type)) : List Nat :=
  es.filterMap (fun e => input_location_of e.2)

/-- The explicit colour locations declared in a column of usage entries. -/
def color_locations (es : List (Nat × subpass_usage_type)) : List Nat :=
  es.filterMap (fun e => color_location_of e.2)

/-- The input reference of attachment `k`. -/
def input_ref (k : Nat) : AttachmentReference :=
  ⟨to_uint32 k, ImageLayout.eShaderReadOnlyOptimal⟩

/-- The colour reference of attachment `k`. -/
def color_ref (k : Nat) : AttachmentReference :=
  ⟨to_uint32 k, ImageLayout.eColorAttachmentOptimal⟩

/-- The depth/stencil reference of attachment `k`. -/
def depth_stencil_ref (k : Nat) : AttachmentReference :=
  ⟨to_uint32 k, ImageLayout.eDepthStencilAttachmentOptimal⟩

/-- The resolve reference that goes with a colour usage. -/
def resolve_ref (u : subpass_usage_type) : AttachmentReference :=
  ⟨resolve_attachment u, ImageLayout.eColorAttachmentOptimal⟩

/-- The references of the location-less input usages of a column, in order. -/
def queued_input_refs (es : List (Nat × subpass_usage_type)) : List AttachmentReference :=
  es.filterMap (fun e => if queued_as_input e.2 then some (input_ref e.1) else none)

/-- The references of the location-less colour usages of a column, in order. -/
def queued_color_refs (es : List (Nat × subpass_usage_type)) : List AttachmentReference :=
  es.filterMap (fun e => if queued_as_color e.2 then some (color_ref e.1) else none)

/-- The resolve references of the location-less colour usages of a column, in order. -/
def queued_resolve_refs (es : List (Nat × subpass_usage_type)) : List AttachmentReference :=
  es.filterMap (fun e => if queued_as_color e.2 then some (resolve_ref e.2) else none)

/-- The references of the depth/stencil usages of a column, in order. -/
def depth_stencil_refs (es : List (Nat × subpass_usage_type)) : List AttachmentReference :=
  es.filterMap (fun e => if e.2.as_depth_stencil then some (depth_stencil_ref e.1) else none)

/-- The attachment indices of the preserve usages of a column, in order. -/
def preserve_indices (es : List (Nat × subpass_usage_type)) : List Nat :=
  es.filterMap (fun e => if e.2.as_preserve then some (to_uint32 e.1) else none)

/-- The helper of subpass `s` once the usage entries `es` of that subpass have been
processed, the entry of the first attachment first. -/
def helper_of (s : Nat) (es : List (Nat × subpass_usage_type)) : subpass_desc_helper :=
  { mSubpassId := s
    mSpecificInputLocations :=
      (es.filterMap (fun e => (input_location_of e.2).map (fun loc => (loc, input_ref e.1)))).reverse
    mUnspecifiedInputLocations := queued_input_refs es
    mInputMaxLoc := max_location (input_locations es)
    mSpecificColorLocations :=
      (es.filterMap (fun e => (color_location_of e.2).map (fun loc => (loc, color_ref e.1)))).reverse
    mUnspecifiedColorLocations := queued_color_refs es
    mColorMaxLoc := max_location (color_locations es)
    mSpecificDepthStencilLocations := []
    mUnspecifiedDepthStencilLocations := depth_stencil_refs es
    mDepthStencilMaxLoc := -1
    mSpecificResolveLocations :=
      (es.filterMap (fun e => (color_location_of e.2).map (fun loc => (loc, resolve_ref e.2)))).reverse
    mUnspecifiedResolveLocations := queued_resolve_refs es
    mPreserveAttachments := preserve_indices es }

/-- What the assertions of lines 206, 238, 249 and 250 ask of a usage entry. -/
def usage_passes_assertions (u : subpass_usage_type) : Bool :=
  ((!(u.as_input || u.as_depth_stencil || u.as_preserve)) || (!u.has_resolve || u.as_color))
    && ((!u.as_preserve) || (!u.as_input && !u.as_color && !u.as_depth_stencil))

/-- The number of positions below `p` that no explicit location claims. -/
def free_below (specific : location_map) (p : Nat) : Nat :=
  ((List.range p).filter (fun i => decide (specific.count i = 0))).length

/-- The reference expected at position `p` of an ordered sequence: the one of the explicit
location `p` if there is one, else the next queued one, else the "unused" reference. -/
def expected_ref (specific : location_map) (unspecified : List AttachmentReference)
    (p : Nat) : AttachmentReference :=
  if specific.count p > 0 then specific.get p
  else unspecified.getD (free_below specific p) unusedAttachmentRef

/-- The earliest usage entry of an attachment that is colour or depth/stencil. -/
def first_clear_usage (a : attachment) : Option subpass_usage_type :=
  a.mSubpassUsages.find? (fun u => u.as_color || u.as_depth_stencil)

/-- The colour clear value of an attachment. -/
def color_clear_value (a : attachment) : ClearValue :=
  ClearValue.color a.mColorClearValue.1 a.mColorClearValue.2.1 a.mColorClearValue.2.2.1
    a.mColorClearValue.2.2.2

/-- The depth/stencil clear value of an attachment. -/
def depth_stencil_clear_value (a : attachment) : ClearValue :=
  ClearValue.depthStencil a.mDepthClearValue a.mStencilClearValue

/-- The clear value that belongs to an attachment: the one of its earliest colour or
depth/stencil usage, the empty one when it has no such usage. -/
def clear_value_of (a : attachment) : ClearValue :=
  match first_clear_usage a with
  | some u => if u.as_color then color_clear_value a else depth_stencil_clear_value a
  | none => ClearValue.empty

/-- The earliest colour or depth/stencil usage of the attachment is not both at once. -/
def clear_usage_unambiguous (a : attachment) : Bool :=
  match first_clear_usage a with
  | some u => !(u.as_color && u.as_depth_stencil)
  | none => true

/-- The state of the loop over the attachments after the attachments `done`. -/
def processed (S : Nat) (done : List attachment) (st : create_state) : Prop :=
  st.mAttachmentDescriptions = done.map attachment_description ∧
  st.mClearValues = done.map clear_value_of ∧
  st.subpasses.length = S ∧
  ∀ s, s < S → st.subpasses[s]? = some (helper_of s (usages_in_subpass done s))

/-- What the loop over the attachments has checked of the attachments it has passed:
equal subpass counts, the assertions on every usage entry, one clear value each, and no
explicit location declared twice in a subpass. -/
def admissible (S : Nat) (done : List attachment) : Prop :=
  (∀ a ∈ done, a.mSubpassUsages.length = S ∧
    (∀ u ∈ a.mSubpassUsages, usage_passes_assertions u = true) ∧
    clear_usage_unambiguous a = true) ∧
  ∀ s, s < S → (input_locations (usages_in_subpass done s)).Nodup ∧
    (color_locations (usages_in_subpass done s)).Nodup

/-- Line 33: the number of subpasses of the first attachment (0 for an empty list, for
which `create` throws before reading it). -/
def num_subpasses_first (aAttachments : List attachment) : Nat :=
  match aAttachments with
  | front :: _ => front.mSubpassUsages.length
  | [] => 0

/-- The number of positions below `p` that are not among the explicit locations. -/
def free_positions_below (locs : List Nat) (p : Nat) : Nat :=
  ((List.range p).filter (fun i => decide (i ∉ locs))).length

/-- The sync hook, if there is one, leaves the subpass identifiers of every sync
description as they are. -/
def sync_keeps_subpass_ids (aSync : Option (renderpass_sync → renderpass_sync)) : Prop :=
  ∀ s : renderpass_sync,
    (apply_sync aSync s).source_vk_subpass_id = s.source_vk_subpass_id ∧
    (apply_sync aSync s).destination_vk_subpass_id = s.destination_vk_subpass_id

/-- The (source, destination) identifiers of the dependency edges of a render pass with
`S` subpasses, in order: "external" to subpass 0, every subpass to the next one, the last
subpass to "external". -/
def edge_ids (S : Nat) : List (Nat × Nat) :=
  (VK_SUBPASS_EXTERNAL, 0) ::
    ((List.range (S - 1)).map (fun k => (k, k + 1)) ++ [(S - 1, VK_SUBPASS_EXTERNAL)])

/-- The sync descriptions of the edges of a render pass with `S` subpasses, as `create`
hands them to the sync hook, in order (lines 376, 392 and 406). -/
def sync_descriptions (S : Nat) : List renderpass_sync :=
  syncBefore 0 ::
    ((List.range (S - 1)).map (fun k => syncBetween k (k + 1)) ++ [syncAfter (S - 1)])

/-- The sync hook changes the source or the destination identifier of a sync
description. -/
def sync_alters_subpass_ids (aSync : Option (renderpass_sync → renderpass_sync))
    (s : renderpass_sync) : Prop :=
  (apply_sync aSync s).source_vk_subpass_id ≠ s.source_vk_subpass_id ∨
    (apply_sync aSync s).destination_vk_subpass_id ≠ s.destination_vk_subpass_id

/-- The ways in which the colour loop (lines 280-300) pushes a colour reference `c`
together with a resolve reference `r`: both from the maps at an explicit location, both
from the same place of the two queues, or both the "unused" reference. -/
def paired_at (sc sr : location_map) (qc qr : List AttachmentReference)
    (c r : AttachmentReference) : Prop :=
  (∃ loc, sc.count loc > 0 ∧ c = sc.get loc ∧ r = sr.get loc) ∨
  (∃ j : Nat, qc[j]? = some c ∧ qr[j]? = some r) ∨
  (c = unusedAttachmentRef ∧ r = unusedAttachmentRef)

/-- The indices, in the order of the attachment list, of the attachments whose usage entry
at subpass `s` has the given flag. -/
def declared_indices (flag : subpass_usage_type → Bool) (aAttachments : List attachment)
    (s : Nat) : List Nat :=
  ((usages_in_subpass aAttachments s).filter (fun e => flag e.2)).map Prod.fst

/-- A valid attachment list: it is not empty, the subpass count of the first attachment is
at least 1 and fits 32 bits, and the list passes every check of `create`: equal subpass
counts, the assertions on the usage entries, one clear value per attachment, no explicit
location declared twice in a subpass, at most one depth/stencil usage per subpass. -/
def valid_attachments (aAttachments : List attachment) : Prop :=
  aAttachments ≠ [] ∧ 1 ≤ num_subpasses_first aAttachments ∧
  num_subpasses_first aAttachments < 4294967296 ∧
  admissible (num_subpasses_first aAttachments) aAttachments ∧
  ∀ s, s < num_subpasses_first aAttachments →
    (depth_stencil_refs (usages_in_subpass aAttachments s)).length ≤ 1

/-- A well-formed attachment list in the sense of the error taxonomy: it is not empty, all
attachments have the subpass count S >= 1 of the first one, no explicit input or colour
location is declared twice in a subpass, no subpass has more than one depth/stencil usage,
and no usage entry combines preserve with another usage flag. -/
def well_formed_attachments (aAttachments : List attachment) : Prop :=
  aAttachments ≠ [] ∧ 1 ≤ num_subpasses_first aAttachments ∧
  (∀ a ∈ aAttachments, a.mSubpassUsages.length = num_subpasses_first aAttachments) ∧
  (∀ s, s < num_subpasses_first aAttachments →
    (input_locations (usages_in_subpass aAttachments s)).Nodup ∧
    (color_locations (usages_in_subpass aAttachments s)).Nodup ∧
    (depth_stencil_refs (usages_in_subpass aAttachments s)).length ≤ 1) ∧
  ∀ a ∈ aAttachments, ∀ u ∈ a.mSubpassUsages, u.as_preserve = true →
    u.as_input = false ∧ u.as_color = false ∧ u.as_depth_stencil = false

instance well_formed_attachments_decidable (aAttachments : List attachment) :
    Decidable (well_formed_attachments aAttachments) := by
  unfold well_formed_attachments
  infer_instance

instance admissible_decidable (S : Nat) (done : List attachment) :
    Decidable (admissible S done) := by
  unfold admissible
  infer_instance

instance valid_attachments_decidable (aAttachments : List attachment) :
    Decidable (valid_attachments aAttachments) := by
  unfold valid_attachments
  infer_instance

/-- The object of an outcome of `create`; an object without any content stands in for an
outcome that is an error. -/
def compiled (outcome : Except create_error renderpass_t) : renderpass_t :=
  match outcome with
  | Except.ok r => r
  | Except.error _ =>
    { mAttachmentDescriptions := [], mClearValues := [], mSubpassData := [], mSubpasses := [],
      mSubpassDependencies := [], mRenderPass := none }

/-! ## Sample declarations -/

/-- An attachment that is cleared and stored, with the given usage entries. -/
def sample_attachment (usages : List subpass_usage_type) : attachment :=
  { mFormat := 0
    mSampleCount := 1
    mLoadOperation := on_load.clear
    mStoreOperation := on_store.store
    mStencilLoadOperation := none
    mStencilStoreOperation := none
    mImageUsageHintBefore := none
    mImageUsageHintAfter := none
    mSubpassUsages := usages
    mColorClearValue := (⟨0⟩, ⟨0⟩, ⟨0⟩, ⟨0⟩)
    mDepthClearValue := ⟨0x3F800000⟩
    mStencilClearValue := 0 }

/-- A colour usage with the given explicit location, if any. -/
def color_usage (loc : Option Nat) : subpass_usage_type :=
  { subpass_usage_type.unused with mColor := true, mColorLocation := loc }

/-- An input usage with the given explicit location, if any. -/
def input_usage (loc : Option Nat) : subpass_usage_type :=
  { subpass_usage_type.unused with mInput := true, mInputLocation := loc }

/-- A depth/stencil usage. -/
def depth_stencil_usage : subpass_usage_type :=
  { subpass_usage_type.unused with mDepthStencil := true }

/-- A usage that is colour and depth/stencil at once. -/
def color_and_depth_stencil_usage : subpass_usage_type :=
  { subpass_usage_type.unused with mColor := true, mDepthStencil := true }

/-- A usage that is depth/stencil and preserve at once. -/
def depth_stencil_and_preserve_usage : subpass_usage_type :=
  { subpass_usage_type.unused with mDepthStencil := true, mPreserve := true }

/-- A usage that is input and colour at once, without locations. -/
def input_and_color_usage : subpass_usage_type :=
  { subpass_usage_type.unused with mInput := true, mColor := true }

/-- An attachment that is loaded and stored, with the given usage entries. -/
def sample_loaded_attachment (usages : List subpass_usage_type) : attachment :=
  { sample_attachment usages with mLoadOperation := on_load.load }

/-- A colour attachment that is stored, not as presentable, with a usage hint after the
pass that names the given usages. -/
def sample_hinted_attachment (sampled shader_storage : Bool) : attachment :=
  { sample_attachment [color_usage (some 0)] with
    mImageUsageHintAfter := some ⟨sampled, shader_storage⟩ }

/-- A sync hook that redirects every edge to subpass 7. -/
def sample_redirecting_sync (s : renderpass_sync) : renderpass_sync :=
  { s with mDestinationSubpassId := 7 }

/-- A sync hook that widens the destination stage of every edge and keeps the subpass
identifiers. -/
def sample_widening_sync (s : renderpass_sync) : renderpass_sync :=
  { s with mDestinationStage := pipeline_stage.all_commands }

/-- One attachment that is a colour attachment in each of two subpasses. -/
def sample_two_subpasses : List attachment :=
  [sample_attachment [color_usage none, color_usage none]]

/-- An attachment that no subpass uses, with the given load operation and a usage hint
before the pass that names the given usages. -/
def sample_hinted_before_attachment (loadOp : on_load) (sampled shader_storage : Bool) :
    attachment :=
  { sample_attachment [subpass_usage_type.unused] with
    mLoadOperation := loadOp
    mImageUsageHintBefore := some ⟨sampled, shader_storage⟩ }

/-- One subpass; attachment 0 is a colour attachment without a location that is resolved
into attachment 2, attachment 1 a colour attachment at location 2 without a resolve target,
attachment 2 is not used by the subpass. -/
def sample_resolving_attachments : List attachment :=
  [sample_attachment [{ color_usage none with mResolveAttachmentIndex := some 2 }],
    sample_attachment [color_usage (some 2)],
    sample_attachment [subpass_usage_type.unused]]

/-- The reference tables of the one subpass of the sample with a resolve target. -/
def sample_resolving_subpass_data : subpass_data :=
  (compiled (create sample_resolving_attachments none none)).mSubpassData.headD
    ⟨[], [], [], [], []⟩

/-- An input usage that declares the resolve target 0 without being a colour usage. -/
def input_usage_with_resolve : subpass_usage_type :=
  { input_usage none with mResolveAttachmentIndex := some 0 }

/-- One subpass; attachment 0 is a colour attachment without a location, attachment 1 a
colour attachment at location 0, attachment 2 the depth/stencil attachment. -/
def sample_attachments : List attachment :=
  [sample_attachment [color_usage none], sample_attachment [color_usage (some 0)],
    sample_attachment [depth_stencil_usage]]

/-- A colour attachment that is stored as presentable, with a usage hint after the pass
that names sampled and storage usage. -/
def sample_presentable_attachment : attachment :=
  { sample_attachment [color_usage (some 0)] with
    mStoreOperation := on_store.store_in_presentable_format
    mImageUsageHintAfter := some ⟨true, true⟩ }

/-- The reference tables of the one subpass of the sample declarations. -/
def sample_subpass_data : subpass_data :=
  (compiled (create sample_attachments none none)).mSubpassData.headD ⟨[], [], [], [], []⟩

deriving instance DecidableEq for Except

/-! # Theorems -/

/-! ## Device queues -/

theorem find_in_family_separate (ledger : List device_queue) (familyIndex : Nat)
    (qis : List Nat) :
    find_in_family device_queue_selection_strategy.prefer_separate_queues ledger familyIndex qis
      = (qis.map (fun qi => (familyIndex, qi))).find?
          (fun p => !already_in_use ledger p.1 p.2) := by
  induction qis with
  | nil => simp [find_in_family]
  | cons qi rest ih =>
    simp only [find_in_family, List.map_cons, List.find?_cons]
    by_cases h : already_in_use ledger familyIndex qi = true
    · simp [h, ih]
    · simp [h]

theorem find_indices_separate (ledger : List device_queue) (families : List queue_family) :
    find_indices device_queue_selection_strategy.prefer_separate_queues ledger families
      = (enumerate_pairs families).find? (fun p => !already_in_use ledger p.1 p.2) := by
  induction families with
  | nil => simp [find_indices, enumerate_pairs]
  | cons family rest ih =>
    simp only [find_indices, enumerate_pairs, List.find?_append, find_in_family_separate, ih]
    cases ((List.range family.queueCount).map (fun qi => (family.index, qi))).find?
      (fun p => !already_in_use ledger p.1 p.2) <;> simp

theorem already_in_use_eq_false {ledger : List device_queue} {familyIndex queueIndex : Nat}
    (h : already_in_use ledger familyIndex queueIndex = false) :
    ∀ pq ∈ ledger, ¬ (pq.family_index = familyIndex ∧ pq.queue_index = queueIndex) := by
  intro pq hpq hboth
  have : already_in_use ledger familyIndex queueIndex = true := by
    simp only [already_in_use, List.any_eq_true]
    exact ⟨pq, hpq, by simp [hboth.1, hboth.2]⟩
  simp [h] at this

/-- C10: under prefer_separate_queues, when some enumerated (family, queue index) pair is
not yet in the ledger, `prepare` succeeds and binds the first such pair in enumeration
order; that pair differs from every pair already in the ledger. -/
theorem C10_prepare_separate_first_free (families : List queue_family)
    (ledger : List device_queue) (hne : families ≠ [])
    (hfree : ∃ p ∈ enumerate_pairs families, already_in_use ledger p.1 p.2 = false) :
    ∃ q ledger1,
      device_queue.prepare families device_queue_selection_strategy.prefer_separate_queues
        ledger = some (q, ledger1) ∧
      (enumerate_pairs families).find? (fun p => !already_in_use ledger p.1 p.2)
        = some (q.mQueueFamilyIndex, q.mQueueIndex) ∧
      ∀ pq ∈ ledger,
        ¬ (pq.family_index = q.mQueueFamilyIndex ∧ pq.queue_index = q.mQueueIndex) := by
  obtain ⟨p0, hp0, hp0free⟩ := hfree
  have hsome : ((enumerate_pairs families).find?
      (fun p => !already_in_use ledger p.1 p.2)).isSome = true := by
    rw [List.find?_isSome]
    exact ⟨p0, hp0, by simp [hp0free]⟩
  obtain ⟨p, hp⟩ := Option.isSome_iff_exists.mp hsome
  have hpfree : already_in_use ledger p.1 p.2 = false := by
    have := List.find?_some hp
    simpa using this
  cases families with
  | nil => exact absurd rfl hne
  | cons first rest =>
    refine ⟨⟨p.1, p.2, float32.half, none⟩,
      ledger ++ [⟨p.1, p.2, float32.half, none⟩], ?_, ?_, ?_⟩
    · simp only [device_queue.prepare, find_indices_separate, hp, Option.getD_some]
    · exact hp
    · exact already_in_use_eq_false hpfree

/-- C10, at the ledger {(0,0)} and one family 0 with two queues: the pair (0,1) is bound. -/
theorem C10_prepare_separate_first_free_witness :
    ∃ q ledger1,
      device_queue.prepare [⟨0, 2⟩] device_queue_selection_strategy.prefer_separate_queues
        [⟨0, 0, float32.half, none⟩] = some (q, ledger1) ∧
      (enumerate_pairs [⟨0, 2⟩]).find?
          (fun p => !already_in_use [⟨0, 0, float32.half, none⟩] p.1 p.2)
        = some (q.mQueueFamilyIndex, q.mQueueIndex) ∧
      ∀ pq ∈ [(⟨0, 0, float32.half, none⟩ : device_queue)],
        ¬ (pq.family_index = q.mQueueFamilyIndex ∧ pq.queue_index = q.mQueueIndex) :=
  C10_prepare_separate_first_free [⟨0, 2⟩] [⟨0, 0, float32.half, none⟩] (by decide)
    ⟨(0, 1), by decide, by decide⟩

/-! ## The helper of a subpass as a function of the usage entries processed -/


theorem lookup_isSome_iff (m : location_map) (loc : Nat) :
    (m.lookup loc).isSome = true ↔ loc ∈ m.map Prod.fst := by
  induction m with
  | nil => simp
  | cons e rest ih =>
    obtain ⟨k, r⟩ := e
    by_cases h : loc = k
    · subst h
      simp [List.lookup]
    · have h2 : (loc == k) = false := by simpa using h
      simp [List.lookup, h2, ih, h]

theorem count_eq_zero_iff (m : location_map) (loc : Nat) :
    m.count loc = 0 ↔ loc ∉ m.map Prod.fst := by
  rw [← lookup_isSome_iff]
  unfold location_map.count
  split <;> simp_all

theorem count_eq_one_iff (m : location_map) (loc : Nat) :
    m.count loc = 1 ↔ loc ∈ m.map Prod.fst := by
  rw [← lookup_isSome_iff]
  unfold location_map.count
  split <;> simp_all

theorem count_pos_iff (m : location_map) (loc : Nat) :
    m.count loc > 0 ↔ loc ∈ m.map Prod.fst := by
  rw [← lookup_isSome_iff]
  unfold location_map.count
  split <;> simp_all

theorem helper_of_input_keys (s : Nat) (es : List (Nat × subpass_usage_type)) :
    (helper_of s es).mSpecificInputLocations.map Prod.fst = (input_locations es).reverse := by
  simp [helper_of, input_locations, List.map_filterMap, Option.map_map, Function.comp_def]

theorem helper_of_color_keys (s : Nat) (es : List (Nat × subpass_usage_type)) :
    (helper_of s es).mSpecificColorLocations.map Prod.fst = (color_locations es).reverse := by
  simp [helper_of, color_locations, List.map_filterMap, Option.map_map, Function.comp_def]

theorem helper_of_resolve_keys (s : Nat) (es : List (Nat × subpass_usage_type)) :
    (helper_of s es).mSpecificResolveLocations.map Prod.fst = (color_locations es).reverse := by
  simp [helper_of, color_locations, List.map_filterMap, Option.map_map, Function.comp_def]

theorem max_location_append (locs : List Nat) (loc : Nat) :
    max_location (locs ++ [loc]) = max (max_location locs) (loc : Int) := by
  simp [max_location, List.foldl_append]

/-- What `usage_as_input` returns when it returns, and what it has checked. -/
theorem usage_as_input_ok {k i : Nat} {sp sp1 : subpass_desc_helper} {u : subpass_usage_type}
    (h : usage_as_input k i sp u = Except.ok sp1) :
    sp1 = { sp with
        mSpecificInputLocations :=
          (match input_location_of u with
            | some loc => (loc, ⟨k, ImageLayout.eShaderReadOnlyOptimal⟩) :: sp.mSpecificInputLocations
            | none => sp.mSpecificInputLocations)
        mUnspecifiedInputLocations := sp.mUnspecifiedInputLocations ++
          (if queued_as_input u then [⟨k, ImageLayout.eShaderReadOnlyOptimal⟩] else [])
        mInputMaxLoc :=
          (match input_location_of u with
            | some loc => max sp.mInputMaxLoc (loc : Int)
            | none => sp.mInputMaxLoc) } ∧
      (u.as_input = true → u.has_resolve = true → u.as_color = true) ∧
      (∀ loc, input_location_of u = some loc → sp.mSpecificInputLocations.count loc = 0) := by
  unfold usage_as_input at h
  unfold input_location_of queued_as_input
  cases hin : u.as_input
  · simp only [hin] at h
    simp at h
    subst h
    simp
  · simp only [hin, if_true] at h
    split at h
    · simp at h
    · rename_i hres
      simp at hres
      cases hloc : u.mInputLocation with
      | none =>
        simp only [hloc] at h
        simp at h
        subst h
        simpa using hres
      | some loc =>
        simp only [hloc] at h
        split at h
        · simp at h
        · rename_i hcount
          simp at h
          subst h
          simp at hcount
          simp [hcount, location_map.assign]
          exact hres

/-- What `usage_as_color` returns when it returns, and what it has checked. -/
theorem usage_as_color_ok {k i : Nat} {sp sp1 : subpass_desc_helper} {u : subpass_usage_type}
    (h : usage_as_color k i sp u = Except.ok sp1) :
    sp1 = { sp with
        mSpecificColorLocations :=
          (match color_location_of u with
            | some loc => (loc, ⟨k, ImageLayout.eColorAttachmentOptimal⟩) :: sp.mSpecificColorLocations
            | none => sp.mSpecificColorLocations)
        mSpecificResolveLocations :=
          (match color_location_of u with
            | some loc => (loc, resolve_ref u) :: sp.mSpecificResolveLocations
            | none => sp.mSpecificResolveLocations)
        mUnspecifiedColorLocations := sp.mUnspecifiedColorLocations ++
          (if queued_as_color u then [⟨k, ImageLayout.eColorAttachmentOptimal⟩] else [])
        mUnspecifiedResolveLocations := sp.mUnspecifiedResolveLocations ++
          (if queued_as_color u then [resolve_ref u] else [])
        mColorMaxLoc :=
          (match color_location_of u with
            | some loc => max sp.mColorMaxLoc (loc : Int)
            | none => sp.mColorMaxLoc) } ∧
      (∀ loc, color_location_of u = some loc → sp.mSpecificColorLocations.count loc = 0) := by
  unfold usage_as_color at h
  unfold color_location_of queued_as_color resolve_ref
  cases hin : u.as_color
  · simp only [hin] at h
    simp at h
    subst h
    simp
  · simp only [hin, if_true] at h
    cases hloc : u.mColorLocation with
    | none =>
      simp only [hloc] at h
      simp at h
      subst h
      simp
    | some loc =>
      simp only [hloc] at h
      split at h
      · simp at h
      · rename_i hcount
        simp at h
        subst h
        simp at hcount
        simp [hcount, location_map.assign]

/-- What `usage_as_depth_stencil` returns when it returns, and what it has checked. -/
theorem usage_as_depth_stencil_ok {k : Nat} {sp sp1 : subpass_desc_helper}
    {u : subpass_usage_type} (h : usage_as_depth_stencil k sp u = Except.ok sp1) :
    sp1 = { sp with
        mUnspecifiedDepthStencilLocations := sp.mUnspecifiedDepthStencilLocations ++
          (if u.as_depth_stencil then [⟨k, ImageLayout.eDepthStencilAttachmentOptimal⟩] else []) } ∧
      (u.as_depth_stencil = true → u.has_resolve = true → u.as_color = true) := by
  unfold usage_as_depth_stencil at h
  cases hin : u.as_depth_stencil
  · simp only [hin] at h
    simp at h
    subst h
    simp
  · simp only [hin, if_true] at h
    split at h
    · simp at h
    · rename_i hres
      simp at hres h
      subst h
      simpa using hres

/-- What `usage_as_preserve` returns when it returns, and what it has checked. -/
theorem usage_as_preserve_ok {k : Nat} {sp sp1 : subpass_desc_helper}
    {u : subpass_usage_type} (h : usage_as_preserve k sp u = Except.ok sp1) :
    sp1 = { sp with
        mPreserveAttachments := sp.mPreserveAttachments ++
          (if u.as_preserve then [k] else []) } ∧
      (u.as_preserve = true → u.has_resolve = true → u.as_color = true) ∧
      (u.as_preserve = true →
        u.as_input = false ∧ u.as_color = false ∧ u.as_depth_stencil = false) := by
  unfold usage_as_preserve at h
  cases hin : u.as_preserve
  · simp only [hin] at h
    simp at h
    subst h
    simp
  · simp only [hin, if_true] at h
    split at h
    · simp at h
    · rename_i hres
      split at h
      · simp at h
      · rename_i hexcl
        simp at hres hexcl h
        subst h
        refine ⟨by simp, fun _ => hres, fun _ => ?_⟩
        simpa [and_assoc] using hexcl


theorem subpass_desc_helper_ext {a b : subpass_desc_helper}
    (h1 : a.mSubpassId = b.mSubpassId)
    (h2 : a.mSpecificInputLocations = b.mSpecificInputLocations)
    (h3 : a.mUnspecifiedInputLocations = b.mUnspecifiedInputLocations)
    (h4 : a.mInputMaxLoc = b.mInputMaxLoc)
    (h5 : a.mSpecificColorLocations = b.mSpecificColorLocations)
    (h6 : a.mUnspecifiedColorLocations = b.mUnspecifiedColorLocations)
    (h7 : a.mColorMaxLoc = b.mColorMaxLoc)
    (h8 : a.mSpecificDepthStencilLocations = b.mSpecificDepthStencilLocations)
    (h9 : a.mUnspecifiedDepthStencilLocations = b.mUnspecifiedDepthStencilLocations)
    (h10 : a.mDepthStencilMaxLoc = b.mDepthStencilMaxLoc)
    (h11 : a.mSpecificResolveLocations = b.mSpecificResolveLocations)
    (h12 : a.mUnspecifiedResolveLocations = b.mUnspecifiedResolveLocations)
    (h13 : a.mPreserveAttachments = b.mPreserveAttachments) : a = b := by
  cases a
  cases b
  simp_all

theorem usage_passes_assertions_iff (u : subpass_usage_type) :
    usage_passes_assertions u = true ↔
      ((u.as_input = true ∨ u.as_depth_stencil = true ∨ u.as_preserve = true) →
        u.has_resolve = true → u.as_color = true) ∧
      (u.as_preserve = true →
        u.as_input = false ∧ u.as_color = false ∧ u.as_depth_stencil = false) := by
  unfold usage_passes_assertions
  cases u.as_input <;> cases u.as_depth_stencil <;> cases u.as_preserve <;>
    cases u.has_resolve <;> cases u.as_color <;> simp

/-- One step of the loop over the subpasses, seen on the column of a subpass: when the
step returns, the helper is the one of the column extended by the entry. -/
theorem process_usage_helper_of_ok (s i k : Nat) (es : List (Nat × subpass_usage_type))
    (u : subpass_usage_type) (sp1 : subpass_desc_helper)
    (h : process_usage (to_uint32 k) i (helper_of s es) u = Except.ok sp1) :
    sp1 = helper_of s (es ++ [(k, u)]) ∧ usage_passes_assertions u = true ∧
      (∀ loc, input_location_of u = some loc → loc ∉ input_locations es) ∧
      (∀ loc, color_location_of u = some loc → loc ∉ color_locations es) := by
  unfold process_usage at h
  cases h1 : usage_as_input (to_uint32 k) i (helper_of s es) u with
  | error e => simp [h1] at h
  | ok spa =>
    simp only [h1] at h
    cases h2 : usage_as_color (to_uint32 k) i spa u with
    | error e => simp [h2] at h
    | ok spb =>
      simp only [h2] at h
      cases h3 : usage_as_depth_stencil (to_uint32 k) spb u with
      | error e => simp [h3] at h
      | ok spc =>
        simp only [h3] at h
        obtain ⟨e1, a1, c1⟩ := usage_as_input_ok h1
        obtain ⟨e2, c2⟩ := usage_as_color_ok h2
        obtain ⟨e3, a3⟩ := usage_as_depth_stencil_ok h3
        obtain ⟨e4, a4, x4⟩ := usage_as_preserve_ok h
        refine ⟨?_, ?_, ?_, ?_⟩
        · subst e1 e2 e3 e4
          apply subpass_desc_helper_ext <;>
            simp only [helper_of, List.filterMap_append, List.filterMap_cons, List.filterMap_nil,
              queued_input_refs, queued_color_refs, queued_resolve_refs, depth_stencil_refs,
              preserve_indices, input_locations, color_locations, max_location_append,
              input_ref, color_ref, depth_stencil_ref, List.reverse_append]
          · cases input_location_of u <;> simp
          · cases queued_as_input u <;> simp
          · cases input_location_of u <;> simp [max_location_append]
          · cases color_location_of u <;> simp
          · cases queued_as_color u <;> simp
          · cases color_location_of u <;> simp [max_location_append]
          · cases u.as_depth_stencil <;> simp
          · cases color_location_of u <;> simp
          · cases queued_as_color u <;> simp
          · cases u.as_preserve <;> simp
        · rw [usage_passes_assertions_iff]
          refine ⟨?_, x4⟩
          rintro (hx | hx | hx)
          · exact a1 hx
          · exact a3 hx
          · exact a4 hx
        · intro loc hloc
          have := c1 loc hloc
          rw [count_eq_zero_iff, helper_of_input_keys] at this
          simpa using this
        · intro loc hloc
          have := c2 loc hloc
          rw [e1] at this
          simp only at this
          rw [count_eq_zero_iff, helper_of_color_keys] at this
          simpa using this


theorem usage_as_input_succeeds (k i : Nat) (sp : subpass_desc_helper) (u : subpass_usage_type)
    (hres : u.as_input = true → u.has_resolve = true → u.as_color = true)
    (hloc : ∀ loc, input_location_of u = some loc → sp.mSpecificInputLocations.count loc = 0) :
    ∃ sp1, usage_as_input k i sp u = Except.ok sp1 := by
  unfold usage_as_input
  unfold input_location_of at hloc
  cases hin : u.as_input
  · simp
  · simp only [hin, if_true] at hloc ⊢
    have hr : (!(!u.has_resolve || u.as_color)) = false := by
      have := hres hin
      cases hr : u.has_resolve <;> simp_all
    simp only [hr]
    cases hl : u.mInputLocation with
    | none => simp
    | some loc => simp [hloc loc hl]

theorem usage_as_color_succeeds (k i : Nat) (sp : subpass_desc_helper) (u : subpass_usage_type)
    (hloc : ∀ loc, color_location_of u = some loc → sp.mSpecificColorLocations.count loc = 0) :
    ∃ sp1, usage_as_color k i sp u = Except.ok sp1 := by
  unfold usage_as_color
  unfold color_location_of at hloc
  cases hin : u.as_color
  · simp
  · simp only [hin, if_true] at hloc ⊢
    cases hl : u.mColorLocation with
    | none => simp
    | some loc => simp [hloc loc hl]

theorem usage_as_depth_stencil_succeeds (k : Nat) (sp : subpass_desc_helper)
    (u : subpass_usage_type)
    (hres : u.as_depth_stencil = true → u.has_resolve = true → u.as_color = true) :
    ∃ sp1, usage_as_depth_stencil k sp u = Except.ok sp1 := by
  unfold usage_as_depth_stencil
  cases hin : u.as_depth_stencil
  · simp
  · have hr : (!(!u.has_resolve || u.as_color)) = false := by
      have := hres hin
      cases hr : u.has_resolve <;> simp_all
    simp [hr]

theorem usage_as_preserve_succeeds (k : Nat) (sp : subpass_desc_helper)
    (u : subpass_usage_type)
    (hres : u.as_preserve = true → u.has_resolve = true → u.as_color = true)
    (hexcl : u.as_preserve = true →
      u.as_input = false ∧ u.as_color = false ∧ u.as_depth_stencil = false) :
    ∃ sp1, usage_as_preserve k sp u = Except.ok sp1 := by
  unfold usage_as_preserve
  cases hin : u.as_preserve
  · simp
  · have hr : (!(!u.has_resolve || u.as_color)) = false := by
      have := hres hin
      cases hr : u.has_resolve <;> simp_all
    obtain ⟨x1, x2, x3⟩ := hexcl hin
    have hnr : u.has_resolve = false := by
      cases hh : u.has_resolve
      · rfl
      · have := hres hin hh
        simp [x2] at this
    simp [x1, x2, x3, hnr]

/-- One step of the loop over the subpasses, seen on the column of a subpass: the step
returns when the entry passes the assertions and declares no location already taken. -/
theorem process_usage_helper_of_succeeds (s i k : Nat) (es : List (Nat × subpass_usage_type))
    (u : subpass_usage_type) (hu : usage_passes_assertions u = true)
    (hI : ∀ loc, input_location_of u = some loc → loc ∉ input_locations es)
    (hC : ∀ loc, color_location_of u = some loc → loc ∉ color_locations es) :
    process_usage (to_uint32 k) i (helper_of s es) u
      = Except.ok (helper_of s (es ++ [(k, u)])) := by
  rw [usage_passes_assertions_iff] at hu
  obtain ⟨hres, hexcl⟩ := hu
  obtain ⟨spa, h1⟩ := usage_as_input_succeeds (to_uint32 k) i (helper_of s es) u
    (fun hx => hres (Or.inl hx))
    (fun loc hloc => by
      rw [count_eq_zero_iff, helper_of_input_keys]
      simpa using hI loc hloc)
  obtain ⟨e1, -, -⟩ := usage_as_input_ok h1
  obtain ⟨spb, h2⟩ := usage_as_color_succeeds (to_uint32 k) i spa u
    (fun loc hloc => by
      rw [e1]
      simp only
      rw [count_eq_zero_iff, helper_of_color_keys]
      simpa using hC loc hloc)
  obtain ⟨spc, h3⟩ := usage_as_depth_stencil_succeeds (to_uint32 k) spb u
    (fun hx => hres (Or.inr (Or.inl hx)))
  obtain ⟨spd, h4⟩ := usage_as_preserve_succeeds (to_uint32 k) spc u
    (fun hx => hres (Or.inr (Or.inr hx))) hexcl
  have hall : process_usage (to_uint32 k) i (helper_of s es) u = Except.ok spd := by
    simp only [process_usage, h1, h2, h3, h4]
  rw [hall, (process_usage_helper_of_ok s i k es u spd hall).1]


/-- The loop over the subpasses of one attachment applies the step to every subpass. -/
theorem process_usages_ok (K : Nat) :
    ∀ (us : List subpass_usage_type) (i : Nat) (sps sps1 : List subpass_desc_helper),
      process_usages K i sps us = Except.ok sps1 → sps.length = us.length →
      sps1.length = us.length ∧
      ∀ j sp u, sps[j]? = some sp → us[j]? = some u →
        ∃ sp1, sps1[j]? = some sp1 ∧ process_usage K (i + j) sp u = Except.ok sp1 := by
  intro us
  induction us with
  | nil =>
    intro i sps sps1 h hlen
    simp [process_usages] at h
    subst h
    exact ⟨hlen, by simp⟩
  | cons u rest ih =>
    intro i sps sps1 h hlen
    cases sps with
    | nil => simp at hlen
    | cons sp sprest =>
      simp only [process_usages] at h
      cases h1 : process_usage K i sp u with
      | error e => simp [h1] at h
      | ok spa =>
        simp only [h1] at h
        cases h2 : process_usages K (i + 1) sprest rest with
        | error e => simp [h2] at h
        | ok restres =>
          simp only [h2] at h
          simp at h
          subst h
          have hl : sprest.length = rest.length := by simpa using hlen
          obtain ⟨l1, g1⟩ := ih (i + 1) sprest restres h2 hl
          refine ⟨by simp [l1], ?_⟩
          intro j sp0 u0 hsp hu
          cases j with
          | zero =>
            simp at hsp hu
            subst hsp hu
            exact ⟨spa, by simp, h1⟩
          | succ j =>
            simp at hsp hu
            obtain ⟨sp1, hg, hp⟩ := g1 j sp0 u0 hsp hu
            refine ⟨sp1, by simpa using hg, ?_⟩
            have : i + (j + 1) = i + 1 + j := by omega
            rw [this]
            exact hp

/-- The loop over the subpasses of one attachment returns when every step returns. -/
theorem process_usages_succeeds (K : Nat) :
    ∀ (us : List subpass_usage_type) (i : Nat) (sps : List subpass_desc_helper),
      sps.length = us.length →
      (∀ j sp u, sps[j]? = some sp → us[j]? = some u →
        ∃ sp1, process_usage K (i + j) sp u = Except.ok sp1) →
      ∃ sps1, process_usages K i sps us = Except.ok sps1 := by
  intro us
  induction us with
  | nil =>
    intro i sps _ _
    exact ⟨sps, by simp [process_usages]⟩
  | cons u rest ih =>
    intro i sps hlen hall
    cases sps with
    | nil => simp at hlen
    | cons sp sprest =>
      obtain ⟨spa, h1⟩ := hall 0 sp u (by simp) (by simp)
      have hl : sprest.length = rest.length := by simpa using hlen
      obtain ⟨restres, h2⟩ := ih (i + 1) sprest hl (by
        intro j sp0 u0 hsp hu
        have := hall (j + 1) sp0 u0 (by simpa using hsp) (by simpa using hu)
        have e : i + (j + 1) = i + 1 + j := by omega
        rwa [e] at this)
      refine ⟨spa :: restres, ?_⟩
      simp only [process_usages]
      rw [Nat.add_zero] at h1
      simp only [h1, h2]

/-- The loop that fills `mSubpassData` applies `fill_subpass_data` to every helper. -/
theorem fill_all_subpass_data_ok :
    ∀ (sps : List subpass_desc_helper) (data : List subpass_data),
      fill_all_subpass_data sps = Except.ok data →
      data.length = sps.length ∧
      ∀ (s : Nat) sp, sps[s]? = some sp →
        ∃ b, data[s]? = some b ∧ fill_subpass_data sp = Except.ok b := by
  intro sps
  induction sps with
  | nil =>
    intro data h
    simp [fill_all_subpass_data] at h
    subst h
    simp
  | cons a rest ih =>
    intro data h
    simp only [fill_all_subpass_data] at h
    cases h1 : fill_subpass_data a with
    | error e => simp [h1] at h
    | ok b =>
      simp only [h1] at h
      cases h2 : fill_all_subpass_data rest with
      | error e => simp [h2] at h
      | ok bs =>
        simp only [h2] at h
        simp at h
        subst h
        obtain ⟨l1, g1⟩ := ih bs h2
        refine ⟨by simp [l1], ?_⟩
        intro s sp hsp
        cases s with
        | zero =>
          simp at hsp
          subst hsp
          exact ⟨b, by simp, h1⟩
        | succ s =>
          simp at hsp
          obtain ⟨b1, hb, hf⟩ := g1 s sp hsp
          exact ⟨b1, by simpa using hb, hf⟩

/-- The loop that fills `mSubpassData` returns when every helper can be filled. -/
theorem fill_all_subpass_data_succeeds :
    ∀ (sps : List subpass_desc_helper),
      (∀ sp ∈ sps, ∃ b, fill_subpass_data sp = Except.ok b) →
      ∃ data, fill_all_subpass_data sps = Except.ok data := by
  intro sps
  induction sps with
  | nil =>
    intro _
    exact ⟨[], by simp [fill_all_subpass_data]⟩
  | cons a rest ih =>
    intro hall
    obtain ⟨b, h1⟩ := hall a (by simp)
    obtain ⟨bs, h2⟩ := ih (fun sp hsp => hall sp (by simp [hsp]))
    exact ⟨b :: bs, by simp only [fill_all_subpass_data, h1, h2]⟩


/-! ## Clear values -/

theorem clear_values_loop_length_ge (a : attachment) (n : Nat) :
    ∀ (us : List subpass_usage_type) (cv : List ClearValue),
      cv.length ≤ (clear_values_loop a n us cv).length := by
  intro us
  induction us with
  | nil => intro cv; simp [clear_values_loop]
  | cons u rest ih =>
    intro cv
    simp only [clear_values_loop]
    split
    · refine le_trans ?_ (ih _)
      split <;> split <;> simp
    · exact le_refl _

theorem clear_values_loop_none (a : attachment) (n : Nat) :
    ∀ (us : List subpass_usage_type) (cv : List ClearValue),
      us.find? (fun u => u.as_color || u.as_depth_stencil) = none →
      clear_values_loop a n us cv = cv := by
  intro us
  induction us with
  | nil => intro cv _; simp [clear_values_loop]
  | cons u rest ih =>
    intro cv h
    simp only [List.find?_cons] at h
    cases hu : (u.as_color || u.as_depth_stencil) with
    | true => simp [hu] at h
    | false =>
      simp only [hu] at h
      simp only [Bool.or_eq_false_iff] at hu
      simp only [clear_values_loop, hu.1, hu.2]
      split
      · exact ih cv h
      · rfl

theorem clear_values_loop_some (a : attachment) :
    ∀ (us : List subpass_usage_type) (cv : List ClearValue) (u : subpass_usage_type),
      us.find? (fun u => u.as_color || u.as_depth_stencil) = some u →
      (((u.as_color && u.as_depth_stencil) = false →
          clear_values_loop a (cv.length + 1) us cv
            = cv ++ [if u.as_color then color_clear_value a else depth_stencil_clear_value a]) ∧
        ((u.as_color && u.as_depth_stencil) = true →
          cv.length + 2 ≤ (clear_values_loop a (cv.length + 1) us cv).length)) := by
  intro us
  induction us with
  | nil => intro cv u h; simp at h
  | cons u0 rest ih =>
    intro cv u h
    simp only [List.find?_cons] at h
    have hne : cv.length + 1 ≠ cv.length := by omega
    cases hu : (u0.as_color || u0.as_depth_stencil) with
    | false =>
      simp only [hu] at h
      simp only [Bool.or_eq_false_iff] at hu
      rw [clear_values_loop, if_pos hne]
      simp only [hu.1, hu.2, Bool.false_eq_true, if_false]
      exact ih cv u h
    | true =>
      simp only [hu] at h
      simp at h
      subst h
      rw [clear_values_loop, if_pos hne]
      constructor
      · intro hboth
        cases hc : u0.as_color <;> cases hd : u0.as_depth_stencil <;>
          simp [hc, hd] at hu hboth
        · simp only [Bool.false_eq_true, if_false, if_true]
          cases rest with
          | nil => simp [clear_values_loop, depth_stencil_clear_value]
          | cons x xs => simp [clear_values_loop, depth_stencil_clear_value]
        · simp only [Bool.false_eq_true, if_false, if_true]
          cases rest with
          | nil => simp [clear_values_loop, color_clear_value]
          | cons x xs => simp [clear_values_loop, color_clear_value]
      · intro hboth
        simp only [Bool.and_eq_true] at hboth
        simp only [hboth.1, hboth.2, if_true]
        refine le_trans ?_ (clear_values_loop_length_ge a (cv.length + 1) rest _)
        simp

/-- The clear values after an attachment whose earliest colour or depth/stencil usage is
not both: the clear value of the attachment is appended. -/
theorem fill_clear_values_unambiguous (a : attachment) (cv : List ClearValue) (n : Nat)
    (hlen : cv.length = n) (h : clear_usage_unambiguous a = true) :
    fill_clear_values a (n + 1) cv = cv ++ [clear_value_of a] := by
  unfold clear_usage_unambiguous at h
  unfold fill_clear_values clear_value_of
  unfold first_clear_usage at h ⊢
  cases hf : a.mSubpassUsages.find? (fun u => u.as_color || u.as_depth_stencil) with
  | none =>
    simp only [clear_values_loop_none a (n + 1) _ cv hf]
    simp [hlen]
  | some u =>
    simp only [hf] at h
    have hb : (u.as_color && u.as_depth_stencil) = false := by
      cases hc : u.as_color <;> cases hd : u.as_depth_stencil <;> simp [hc, hd] at h ⊢
    subst hlen
    simp only [(clear_values_loop_some a _ cv u hf).1 hb]
    simp

/-- The clear values after an attachment whose earliest colour or depth/stencil usage is
both: more than one value has been pushed. -/
theorem fill_clear_values_ambiguous (a : attachment) (cv : List ClearValue) (n : Nat)
    (hlen : cv.length = n) (h : clear_usage_unambiguous a = false) :
    n + 2 ≤ (fill_clear_values a (n + 1) cv).length := by
  unfold clear_usage_unambiguous at h
  unfold fill_clear_values
  unfold first_clear_usage at h
  cases hf : a.mSubpassUsages.find? (fun u => u.as_color || u.as_depth_stencil) with
  | none => simp [hf] at h
  | some u =>
    simp only [hf] at h
    have hb : (u.as_color && u.as_depth_stencil) = true := by simpa using h
    subst hlen
    have := (clear_values_loop_some a _ cv u hf).2 hb
    simp only
    split
    · simp
      omega
    · exact this


/-! ## The loop over the attachments -/

theorem usages_from_append (s : Nat) :
    ∀ (l1 l2 : List attachment) (k : Nat),
      usages_from s k (l1 ++ l2) = usages_from s k l1 ++ usages_from s (k + l1.length) l2 := by
  intro l1
  induction l1 with
  | nil => intro l2 k; simp [usages_from]
  | cons a rest ih =>
    intro l2 k
    have e : k + (rest.length + 1) = k + 1 + rest.length := by omega
    simp only [List.cons_append, usages_from, List.length_cons, e]
    cases a.mSubpassUsages[s]? <;> simp [ih]

theorem usages_in_subpass_snoc (done : List attachment) (a : attachment) (s : Nat) :
    usages_in_subpass (done ++ [a]) s = usages_in_subpass done s ++
      (match a.mSubpassUsages[s]? with
        | some u => [(done.length, u)]
        | none => []) := by
  simp only [usages_in_subpass, usages_from_append, usages_from, Nat.zero_add]

theorem input_locations_snoc (es : List (Nat × subpass_usage_type)) (k : Nat)
    (u : subpass_usage_type) :
    input_locations (es ++ [(k, u)]) = input_locations es ++
      (match input_location_of u with
        | some loc => [loc]
        | none => []) := by
  simp only [input_locations, List.filterMap_append, List.filterMap_cons, List.filterMap_nil]
  cases input_location_of u <;> simp

theorem color_locations_snoc (es : List (Nat × subpass_usage_type)) (k : Nat)
    (u : subpass_usage_type) :
    color_locations (es ++ [(k, u)]) = color_locations es ++
      (match color_location_of u with
        | some loc => [loc]
        | none => []) := by
  simp only [color_locations, List.filterMap_append, List.filterMap_cons, List.filterMap_nil]
  cases color_location_of u <;> simp

theorem nodup_snoc_option (l : List Nat) (o : Option Nat) :
    (l ++ (match o with
        | some loc => [loc]
        | none => [])).Nodup ↔ l.Nodup ∧ ∀ loc, o = some loc → loc ∉ l := by
  cases o with
  | none => simp
  | some loc =>
    simp only [List.nodup_append, List.nodup_singleton]
    constructor
    · rintro ⟨h1, -, h3⟩
      refine ⟨h1, ?_⟩
      intro x hx
      simp at hx
      subst hx
      intro hmem
      exact h3 hmem (by simp)
    · rintro ⟨h1, h2⟩
      refine ⟨h1, trivial, ?_⟩
      intro x hx1 hx2
      simp at hx2
      subst hx2
      exact h2 x rfl hx1

/-- The attachments passed stay admissible with one more attachment exactly when that
attachment passes the checks of the loop body. -/
theorem admissible_snoc (S : Nat) (done : List attachment) (a : attachment) :
    admissible S (done ++ [a]) ↔
      admissible S done ∧ a.mSubpassUsages.length = S ∧
      (∀ u ∈ a.mSubpassUsages, usage_passes_assertions u = true) ∧
      clear_usage_unambiguous a = true ∧
      ∀ (s : Nat) u, a.mSubpassUsages[s]? = some u →
        (∀ loc, input_location_of u = some loc →
          loc ∉ input_locations (usages_in_subpass done s)) ∧
        (∀ loc, color_location_of u = some loc →
          loc ∉ color_locations (usages_in_subpass done s)) := by
  unfold admissible
  constructor
  · rintro ⟨hall, hnd⟩
    have ha := hall a (by simp)
    refine ⟨⟨fun x hx => hall x (by simp [hx]), ?_⟩, ha.1, ha.2.1, ha.2.2, ?_⟩
    · intro s hs
      have := hnd s hs
      rw [usages_in_subpass_snoc] at this
      have hlt : s < a.mSubpassUsages.length := by rw [ha.1]; exact hs
      rw [List.getElem?_eq_getElem hlt] at this
      simp only [input_locations_snoc, color_locations_snoc, nodup_snoc_option] at this
      exact ⟨this.1.1, this.2.1⟩
    · intro s u hu
      have hs : s < S := by
        rw [← ha.1]
        exact (List.getElem?_eq_some.mp hu).1
      have := hnd s hs
      rw [usages_in_subpass_snoc, hu] at this
      simp only [input_locations_snoc, color_locations_snoc, nodup_snoc_option] at this
      exact ⟨this.1.2, this.2.2⟩
  · rintro ⟨⟨hall, hnd⟩, hlen, hpass, hclear, hloc⟩
    refine ⟨?_, ?_⟩
    · intro x hx
      simp only [List.mem_append, List.mem_singleton] at hx
      rcases hx with hx | hx
      · exact hall x hx
      · subst hx
        exact ⟨hlen, hpass, hclear⟩
    · intro s hs
      have hlt : s < a.mSubpassUsages.length := by rw [hlen]; exact hs
      have hu := List.getElem?_eq_getElem hlt
      rw [usages_in_subpass_snoc, hu]
      simp only [input_locations_snoc, color_locations_snoc, nodup_snoc_option]
      exact ⟨⟨(hnd s hs).1, (hloc s _ hu).1⟩, ⟨(hnd s hs).2, (hloc s _ hu).2⟩⟩


/-- Line 176: the index of the attachment being processed. -/
theorem attachment_index_eq (ds : List AttachmentDescription) (d : AttachmentDescription) :
    to_uint32 ((ds ++ [d]).length - 1) = to_uint32 ds.length := by
  simp

/-- The body of the loop over the attachments, when it returns: the state is the one
after one more attachment, and that attachment has passed the checks. -/
theorem process_attachment_ok {S : Nat} {done : List attachment} {st st1 : create_state}
    {a : attachment} (h : process_attachment S st a = Except.ok st1)
    (hp : processed S done st) :
    processed S (done ++ [a]) st1 ∧ a.mSubpassUsages.length = S ∧
      (∀ u ∈ a.mSubpassUsages, usage_passes_assertions u = true) ∧
      clear_usage_unambiguous a = true ∧
      ∀ (s : Nat) u, a.mSubpassUsages[s]? = some u →
        (∀ loc, input_location_of u = some loc →
          loc ∉ input_locations (usages_in_subpass done s)) ∧
        (∀ loc, color_location_of u = some loc →
          loc ∉ color_locations (usages_in_subpass done s)) := by
  obtain ⟨hd, hc, hl, hs⟩ := hp
  unfold process_attachment at h
  simp only at h
  split at h
  · simp at h
  rename_i hlen
  simp only [ne_eq, not_not] at hlen
  split at h
  · simp at h
  split at h
  · simp at h
  rename_i hcv
  simp only [ne_eq, not_not] at hcv
  rw [attachment_index_eq] at h
  cases hpu : process_usages (to_uint32 st.mAttachmentDescriptions.length) 0 st.subpasses
      a.mSubpassUsages with
  | error e => simp [hpu] at h
  | ok sps =>
    simp only [hpu] at h
    simp at h
    have hdl : st.mAttachmentDescriptions.length = done.length := by simp [hd]
    have hcl : st.mClearValues.length = done.length := by simp [hc]
    have hunamb : clear_usage_unambiguous a = true := by
      cases hx : clear_usage_unambiguous a
      · have := fill_clear_values_ambiguous a st.mClearValues done.length hcl hx
        simp only [List.length_append, List.length_singleton, hdl] at hcv
        omega
      · rfl
    obtain ⟨l1, g1⟩ := process_usages_ok _ _ 0 _ _ hpu (by rw [hl, hlen])
    have hstep : ∀ (s : Nat) u, a.mSubpassUsages[s]? = some u →
        sps[s]? = some (helper_of s (usages_in_subpass done s ++ [(done.length, u)])) ∧
        usage_passes_assertions u = true ∧
        (∀ loc, input_location_of u = some loc →
          loc ∉ input_locations (usages_in_subpass done s)) ∧
        (∀ loc, color_location_of u = some loc →
          loc ∉ color_locations (usages_in_subpass done s)) := by
      intro s u hu
      have hsS : s < S := by
        rw [← hlen]
        exact (List.getElem?_eq_some.mp hu).1
      obtain ⟨sp1, hg, hpr⟩ := g1 s _ u (hs s hsS) hu
      rw [hdl] at hpr
      obtain ⟨e1, e2, e3, e4⟩ := process_usage_helper_of_ok s _ done.length _ u sp1 hpr
      rw [e1] at hg
      exact ⟨hg, e2, e3, e4⟩
    refine ⟨?_, hlen, ?_, hunamb, ?_⟩
    · subst h
      refine ⟨by simp [hd], ?_, by simp [l1, hlen], ?_⟩
      · simp only [hdl]
        rw [fill_clear_values_unambiguous a _ _ hcl hunamb, hc]
        simp
      · intro s hsS
        have hlt : s < a.mSubpassUsages.length := by rw [hlen]; exact hsS
        have hu := List.getElem?_eq_getElem hlt
        rw [usages_in_subpass_snoc, hu]
        exact (hstep s _ hu).1
    · intro u hu
      obtain ⟨s, hs1⟩ := List.mem_iff_getElem?.mp hu
      exact (hstep s u hs1).2.1
    · intro s u hu
      exact (hstep s u hu).2.2


/-- The body of the loop over the attachments returns for an attachment that passes
its checks. -/
theorem process_attachment_succeeds {S : Nat} {done : List attachment} {st : create_state}
    (a : attachment) (hp : processed S done st) (hlen : a.mSubpassUsages.length = S)
    (hpass : ∀ u ∈ a.mSubpassUsages, usage_passes_assertions u = true)
    (hclear : clear_usage_unambiguous a = true)
    (hloc : ∀ (s : Nat) u, a.mSubpassUsages[s]? = some u →
        (∀ loc, input_location_of u = some loc →
          loc ∉ input_locations (usages_in_subpass done s)) ∧
        (∀ loc, color_location_of u = some loc →
          loc ∉ color_locations (usages_in_subpass done s))) :
    ∃ st1, process_attachment S st a = Except.ok st1 := by
  obtain ⟨hd, hc, hl, hs⟩ := hp
  have hdl : st.mAttachmentDescriptions.length = done.length := by simp [hd]
  have hcl : st.mClearValues.length = done.length := by simp [hc]
  obtain ⟨sps, hpu⟩ := process_usages_succeeds (to_uint32 st.mAttachmentDescriptions.length)
    a.mSubpassUsages 0 st.subpasses (by rw [hl, hlen]) (by
      intro j sp u hsp hu
      have hj : j < S := by
        rw [← hlen]
        exact (List.getElem?_eq_some.mp hu).1
      rw [hs j hj] at hsp
      simp only [Option.some.injEq] at hsp
      subst hsp
      rw [hdl]
      exact ⟨_, process_usage_helper_of_succeeds j (0 + j) done.length _ u
        (hpass u (List.mem_iff_getElem?.mpr ⟨j, hu⟩)) (hloc j u hu).1 (hloc j u hu).2⟩)
  refine ⟨{ mAttachmentDescriptions := st.mAttachmentDescriptions ++ [attachment_description a]
            mClearValues := st.mClearValues ++ [clear_value_of a]
            subpasses := sps }, ?_⟩
  unfold process_attachment
  have hf := fill_clear_values_unambiguous a st.mClearValues done.length hcl hclear
  rw [hdl] at hpu
  simp only [List.length_append, List.length_singleton, hdl, hcl,
    hf, hlen, ne_eq, not_true_eq_false, if_false, Nat.add_sub_cancel, hpu]

theorem processed_nil (S : Nat) :
    processed S []
      { mAttachmentDescriptions := [], mClearValues := [],
        subpasses := (List.range S).map subpass_desc_helper.init } := by
  refine ⟨rfl, rfl, by simp, ?_⟩
  intro s hs
  simp [hs, usages_in_subpass, usages_from]
  rfl

theorem admissible_nil (S : Nat) : admissible S [] := by
  refine ⟨by simp, ?_⟩
  intro s _
  simp [usages_in_subpass, usages_from, input_locations, color_locations]

/-- The loop over the attachments, when it returns: the state is the one after all
attachments, and all of them have passed the checks. -/
theorem process_attachments_ok {S : Nat} :
    ∀ (atts done : List attachment) (st st1 : create_state),
      process_attachments S st atts = Except.ok st1 → processed S done st →
      admissible S done →
      processed S (done ++ atts) st1 ∧ admissible S (done ++ atts) := by
  intro atts
  induction atts with
  | nil =>
    intro done st st1 h hp ha
    simp [process_attachments] at h
    subst h
    simpa using ⟨hp, ha⟩
  | cons a rest ih =>
    intro done st st1 h hp ha
    simp only [process_attachments] at h
    cases h1 : process_attachment S st a with
    | error e => simp [h1] at h
    | ok sta =>
      simp only [h1] at h
      obtain ⟨p1, c1, c2, c3, c4⟩ := process_attachment_ok h1 hp
      have ha1 : admissible S (done ++ [a]) :=
        (admissible_snoc S done a).mpr ⟨ha, c1, c2, c3, c4⟩
      have := ih (done ++ [a]) sta st1 h p1 ha1
      simpa using this

theorem admissible_of_append (S : Nat) (l1 : List attachment) :
    ∀ (l2 : List attachment), admissible S (l1 ++ l2) → admissible S l1 := by
  intro l2
  induction l2 using List.reverseRecOn with
  | nil => intro h; simpa using h
  | append_singleton rest a ih =>
    intro h
    rw [← List.append_assoc] at h
    exact ih ((admissible_snoc S (l1 ++ rest) a).mp h).1

/-- The loop over the attachments returns when all attachments pass the checks. -/
theorem process_attachments_succeeds {S : Nat} :
    ∀ (atts done : List attachment) (st : create_state),
      processed S done st → admissible S (done ++ atts) →
      ∃ st1, process_attachments S st atts = Except.ok st1 := by
  intro atts
  induction atts with
  | nil =>
    intro done st _ _
    exact ⟨st, by simp [process_attachments]⟩
  | cons a rest ih =>
    intro done st hp ha
    have ha2 : admissible S ((done ++ [a]) ++ rest) := by simpa using ha
    have ha1 := admissible_of_append S (done ++ [a]) rest ha2
    obtain ⟨-, c1, c2, c3, c4⟩ := (admissible_snoc S done a).mp ha1
    obtain ⟨sta, h1⟩ := process_attachment_succeeds a hp c1 c2 c3 c4
    obtain ⟨p1, -⟩ := process_attachment_ok h1 hp
    obtain ⟨st1, h2⟩ := ih (done ++ [a]) sta p1 ha2
    exact ⟨st1, by simp only [process_attachments, h1, h2]⟩


/-! ## The loops that order the references -/

theorem count_le_one (m : location_map) (loc : Nat) : m.count loc = 0 ∨ m.count loc = 1 := by
  unfold location_map.count
  split <;> simp

theorem free_below_succ (specific : location_map) (p : Nat) :
    free_below specific (p + 1)
      = free_below specific p + (if specific.count p = 0 then 1 else 0) := by
  unfold free_below
  rw [List.range_succ, List.filter_append, List.length_append]
  by_cases h : specific.count p = 0
  · simp [h]
  · simp [h]

theorem expected_ref_range_succ (specific : location_map) (q : List AttachmentReference)
    (loc : Nat) :
    (List.range (loc + 1)).map (expected_ref specific q)
      = (List.range loc).map (expected_ref specific q) ++ [expected_ref specific q loc] := by
  rw [List.range_succ, List.map_append]
  rfl

/-- The loop of `fill_ordered`, started at position `loc` with the references of the
positions below `loc` already pushed: when it returns, every position of the result holds
the expected reference, and the loop has stopped at the first position that is above the
maximum and finds the queue empty. -/
theorem fill_ordered_spec (line : Nat) (specific : location_map) (maxLoc : Int)
    (q : List AttachmentReference) :
    ∀ (fuel loc : Nat) (qr out res : List AttachmentReference),
      qr = q.drop (free_below specific loc) →
      out = (List.range loc).map (expected_ref specific q) →
      fill_ordered line specific maxLoc fuel loc qr out = Except.ok res →
      res = (List.range res.length).map (expected_ref specific q) ∧ loc ≤ res.length ∧
        maxLoc < (res.length : Int) ∧ q.length ≤ free_below specific res.length ∧
        ∀ p, loc ≤ p → p < res.length →
          ((p : Int) ≤ maxLoc ∨ free_below specific p < q.length) := by
  intro fuel
  induction fuel with
  | zero =>
    intro loc qr out res _ _ h
    simp [fill_ordered] at h
  | succ fuel ih =>
    intro loc qr out res hq hout h
    simp only [fill_ordered] at h
    split at h
    · rename_i hcond
      have hhere : (loc : Int) ≤ maxLoc ∨ free_below specific loc < q.length := by
        rcases hcond with hc | hc
        · exact Or.inl hc
        · right
          rw [hq] at hc
          by_contra hge
          exact hc (List.drop_eq_nil_of_le (by omega))
      have extend : ∀ (qr1 out1 : List AttachmentReference),
          qr1 = q.drop (free_below specific (loc + 1)) →
          out1 = out ++ [expected_ref specific q loc] →
          fill_ordered line specific maxLoc fuel (loc + 1) qr1 out1 = Except.ok res →
          res = (List.range res.length).map (expected_ref specific q) ∧ loc ≤ res.length ∧
            maxLoc < (res.length : Int) ∧ q.length ≤ free_below specific res.length ∧
            ∀ p, loc ≤ p → p < res.length →
              ((p : Int) ≤ maxLoc ∨ free_below specific p < q.length) := by
        intro qr1 out1 hq1 hout1 h1
        obtain ⟨r1, r2, r3, r4, r5⟩ := ih (loc + 1) qr1 out1 res hq1
          (by rw [hout1, hout, expected_ref_range_succ]) h1
        refine ⟨r1, by omega, r3, r4, ?_⟩
        intro p hp1 hp2
        rcases Nat.eq_or_lt_of_le hp1 with he | hl
        · subst he
          exact hhere
        · exact r5 p hl hp2
      split at h
      · rename_i hpos
        have hone : specific.count loc = 1 := by
          rcases count_le_one specific loc with h0 | h1
          · omega
          · exact h1
        rw [if_neg (by simp [hone])] at h
        refine extend _ _ ?_ ?_ h
        · rw [free_below_succ, hq]
          simp [hone]
        · simp [expected_ref, hpos]
      · rename_i hzero
        have hz : specific.count loc = 0 := by omega
        have hfb : free_below specific (loc + 1) = free_below specific loc + 1 := by
          rw [free_below_succ]
          simp [hz]
        cases qr with
        | nil =>
          simp only at h
          have hge : q.length ≤ free_below specific loc := by
            have := hq.symm
            rw [List.drop_eq_nil_iff] at this
            exact this
          refine extend _ _ ?_ ?_ h
          · rw [hfb]
            exact (List.drop_eq_nil_of_le (by omega)).symm
          · simp only [expected_ref, hz, gt_iff_lt, lt_self_iff_false, if_false]
            rw [List.getD_eq_default _ _ hge]
        | cons r rest =>
          simp only at h
          have hlt : free_below specific loc < q.length := by
            by_contra hge
            have hnil : q.drop (free_below specific loc) = [] :=
              List.drop_eq_nil_iff.mpr (by omega)
            rw [hnil] at hq
            simp at hq
          have hget : q[free_below specific loc]? = some r := by
            have := congrArg List.head? hq
            simpa [List.head?_drop] using this.symm
          refine extend _ _ ?_ ?_ h
          · rw [hfb, ← List.drop_drop]
            rw [← hq]
            rfl
          · simp only [expected_ref, hz, gt_iff_lt, lt_self_iff_false, if_false]
            rw [List.getD_eq_getElem?_getD, hget]
            rfl
    · rename_i hcond
      simp at h
      subst h
      have hlen : out.length = loc := by simp [hout]
      simp only [not_or, not_le, ne_eq, not_not] at hcond
      refine ⟨by rw [hlen]; exact hout, by omega, by rw [hlen]; exact hcond.1, ?_, ?_⟩
      · rw [hlen]
        have := hcond.2
        rw [hq, List.drop_eq_nil_iff] at this
        exact this
      · intro p hp1 hp2
        omega


/-- The loop of `fill_ordered` returns when no location above the maximum is claimed and
the supply of iterations exceeds the positions up to the maximum plus the queue. -/
theorem fill_ordered_succeeds (line : Nat) (specific : location_map) (maxLoc : Int)
    (hmax : ∀ p, specific.count p > 0 → (p : Int) ≤ maxLoc) :
    ∀ (fuel loc : Nat) (qr out : List AttachmentReference),
      (maxLoc + 1 - (loc : Int)).toNat + qr.length < fuel →
      ∃ res, fill_ordered line specific maxLoc fuel loc qr out = Except.ok res := by
  intro fuel
  induction fuel with
  | zero => intro loc qr out h; omega
  | succ fuel ih =>
    intro loc qr out hfuel
    simp only [fill_ordered]
    split
    · rename_i hcond
      split
      · rename_i hpos
        have hone : specific.count loc = 1 := by
          rcases count_le_one specific loc with h0 | h1
          · omega
          · exact h1
        have hle := hmax loc hpos
        rw [if_neg (by simp [hone])]
        exact ih _ _ _ (by omega)
      · cases qr with
        | nil =>
          have hle : (loc : Int) ≤ maxLoc := by
            rcases hcond with hc | hc
            · exact hc
            · exact absurd rfl hc
          simp only
          exact ih _ _ _ (by simp at hfuel ⊢; omega)
        | cons r rest =>
          simp only
          exact ih _ _ _ (by simp at hfuel ⊢; omega)
    · exact ⟨out, rfl⟩

/-- The colour references of `fill_ordered_color` are those of `fill_ordered` on the
colour map and the colour queue. -/
theorem fill_ordered_color_fst (sc sr : location_map) (maxLoc : Int) :
    ∀ (fuel loc : Nat) (uc ur oc ors c r : List AttachmentReference),
      fill_ordered_color sc sr maxLoc fuel loc uc ur oc ors = Except.ok (c, r) →
      fill_ordered 282 sc maxLoc fuel loc uc oc = Except.ok c := by
  intro fuel
  induction fuel with
  | zero => intro loc uc ur oc ors c r h; simp [fill_ordered_color] at h
  | succ fuel ih =>
    intro loc uc ur oc ors c r h
    simp only [fill_ordered_color] at h
    simp only [fill_ordered]
    split at h
    · rename_i hcond
      rw [if_pos hcond]
      split at h
      · rename_i hpos
        rw [if_pos hpos]
        split at h
        · simp at h
        · rename_i hone
          rw [if_neg hone]
          split at h
          · simp at h
          · exact ih _ _ _ _ _ _ _ h
      · rename_i hzero
        rw [if_neg hzero]
        split at h
        · split at h
          · simp at h
          · exact ih _ _ _ _ _ _ _ h
        · simp at h
        · exact ih _ _ _ _ _ _ _ h
    · rename_i hcond
      rw [if_neg hcond]
      simp at h
      simp [h.1]

/-- The loop of `fill_ordered_color` pushes as many resolve references as colour
references. -/
theorem fill_ordered_color_length (sc sr : location_map) (maxLoc : Int) :
    ∀ (fuel loc : Nat) (uc ur oc ors c r : List AttachmentReference),
      fill_ordered_color sc sr maxLoc fuel loc uc ur oc ors = Except.ok (c, r) →
      oc.length = ors.length → c.length = r.length := by
  intro fuel
  induction fuel with
  | zero => intro loc uc ur oc ors c r h; simp [fill_ordered_color] at h
  | succ fuel ih =>
    intro loc uc ur oc ors c r h hlen
    simp only [fill_ordered_color] at h
    split at h
    · split at h
      · split at h
        · simp at h
        · split at h
          · simp at h
          · exact ih _ _ _ _ _ _ _ h (by simp [hlen])
      · split at h
        · split at h
          · simp at h
          · exact ih _ _ _ _ _ _ _ h (by simp [hlen])
        · simp at h
        · exact ih _ _ _ _ _ _ _ h (by simp [hlen])
    · simp at h
      rw [← h.1, ← h.2]
      exact hlen

/-- The loop of `fill_ordered_color` returns whenever `fill_ordered` does on the colour
side, provided the resolve map has the keys of the colour map and the two queues are
equally long. -/
theorem fill_ordered_color_succeeds (sc sr : location_map) (maxLoc : Int)
    (hkeys : ∀ p, sc.count p > 0 → sr.count p = 1) :
    ∀ (fuel loc : Nat) (uc ur oc ors c : List AttachmentReference),
      uc.length = ur.length →
      fill_ordered 282 sc maxLoc fuel loc uc oc = Except.ok c →
      ∃ r, fill_ordered_color sc sr maxLoc fuel loc uc ur oc ors = Except.ok (c, r) := by
  intro fuel
  induction fuel with
  | zero => intro loc uc ur oc ors c _ h; simp [fill_ordered] at h
  | succ fuel ih =>
    intro loc uc ur oc ors c hlen h
    simp only [fill_ordered] at h
    simp only [fill_ordered_color]
    split at h
    · rename_i hcond
      rw [if_pos hcond]
      split at h
      · rename_i hpos
        rw [if_pos hpos]
        split at h
        · simp at h
        · rename_i hone
          rw [if_neg hone, if_neg (by simp [hkeys loc hpos])]
          exact ih _ _ _ _ _ _ hlen h
      · rename_i hzero
        rw [if_neg hzero]
        cases uc with
        | nil =>
          simp only at h ⊢
          cases ur with
          | nil => exact ih _ _ _ _ _ _ rfl h
          | cons x xs => simp at hlen
        | cons x xs =>
          cases ur with
          | nil => simp at hlen
          | cons y ys =>
            simp only at h ⊢
            have hl : xs.length = ys.length := by simpa using hlen
            rw [if_neg (by simp [hl])]
            exact ih _ _ _ _ _ _ hl h
    · rename_i hcond
      rw [if_neg hcond]
      simp at h
      exact ⟨ors, by simp [h]⟩


/-- What `fill_subpass_data` has computed and checked when it returns. -/
theorem fill_subpass_data_ok {a : subpass_desc_helper} {b : subpass_data}
    (h : fill_subpass_data a = Except.ok b) :
    fill_ordered 266 a.mSpecificInputLocations a.mInputMaxLoc
        (loop_fuel a.mSpecificInputLocations a.mUnspecifiedInputLocations a.mInputMaxLoc)
        0 a.mUnspecifiedInputLocations [] = Except.ok b.mOrderedInputAttachmentRefs ∧
      fill_ordered_color a.mSpecificColorLocations a.mSpecificResolveLocations a.mColorMaxLoc
        (loop_fuel a.mSpecificColorLocations a.mUnspecifiedColorLocations a.mColorMaxLoc)
        0 a.mUnspecifiedColorLocations a.mUnspecifiedResolveLocations [] []
        = Except.ok (b.mOrderedColorAttachmentRefs, b.mOrderedResolveAttachmentRefs) ∧
      fill_ordered 304 a.mSpecificDepthStencilLocations a.mDepthStencilMaxLoc
        (loop_fuel a.mSpecificDepthStencilLocations a.mUnspecifiedDepthStencilLocations
          a.mDepthStencilMaxLoc)
        0 a.mUnspecifiedDepthStencilLocations []
        = Except.ok b.mOrderedDepthStencilAttachmentRefs ∧
      (b.mOrderedResolveAttachmentRefs = [] ∨
        b.mOrderedResolveAttachmentRefs.length = b.mOrderedColorAttachmentRefs.length) ∧
      b.mOrderedDepthStencilAttachmentRefs.length ≤ 1 ∧
      b.mPreserveAttachments = a.mPreserveAttachments := by
  unfold fill_subpass_data at h
  cases h1 : fill_ordered 266 a.mSpecificInputLocations a.mInputMaxLoc
      (loop_fuel a.mSpecificInputLocations a.mUnspecifiedInputLocations a.mInputMaxLoc)
      0 a.mUnspecifiedInputLocations [] with
  | error e => simp [h1] at h
  | ok inputRefs =>
    simp only [h1] at h
    cases h2 : fill_ordered_color a.mSpecificColorLocations a.mSpecificResolveLocations
        a.mColorMaxLoc
        (loop_fuel a.mSpecificColorLocations a.mUnspecifiedColorLocations a.mColorMaxLoc)
        0 a.mUnspecifiedColorLocations a.mUnspecifiedResolveLocations [] [] with
    | error e => simp [h2] at h
    | ok cr =>
      obtain ⟨colorRefs, resolveRefs⟩ := cr
      simp only [h2] at h
      cases h3 : fill_ordered 304 a.mSpecificDepthStencilLocations a.mDepthStencilMaxLoc
          (loop_fuel a.mSpecificDepthStencilLocations a.mUnspecifiedDepthStencilLocations
            a.mDepthStencilMaxLoc)
          0 a.mUnspecifiedDepthStencilLocations [] with
      | error e => simp [h3] at h
      | ok dsRefs =>
        simp only [h3] at h
        split at h
        · simp at h
        · rename_i hres
          split at h
          · simp at h
          · rename_i hds
            simp at h
            subst h
            simp at hres hds
            refine ⟨rfl, rfl, rfl, ?_, hds, rfl⟩
            by_cases hnil : resolveRefs = []
            · exact Or.inl hnil
            · exact Or.inr (hres hnil)

/-- The function `fill_subpass_data` returns when its three loops return and the
depth/stencil queue holds at most one reference. -/
theorem fill_subpass_data_succeeds (a : subpass_desc_helper)
    (inputRefs colorRefs resolveRefs dsRefs : List AttachmentReference)
    (h1 : fill_ordered 266 a.mSpecificInputLocations a.mInputMaxLoc
        (loop_fuel a.mSpecificInputLocations a.mUnspecifiedInputLocations a.mInputMaxLoc)
        0 a.mUnspecifiedInputLocations [] = Except.ok inputRefs)
    (h2 : fill_ordered_color a.mSpecificColorLocations a.mSpecificResolveLocations
        a.mColorMaxLoc
        (loop_fuel a.mSpecificColorLocations a.mUnspecifiedColorLocations a.mColorMaxLoc)
        0 a.mUnspecifiedColorLocations a.mUnspecifiedResolveLocations [] []
        = Except.ok (colorRefs, resolveRefs))
    (h3 : fill_ordered 304 a.mSpecificDepthStencilLocations a.mDepthStencilMaxLoc
        (loop_fuel a.mSpecificDepthStencilLocations a.mUnspecifiedDepthStencilLocations
          a.mDepthStencilMaxLoc)
        0 a.mUnspecifiedDepthStencilLocations [] = Except.ok dsRefs)
    (hds : dsRefs.length ≤ 1) :
    ∃ b, fill_subpass_data a = Except.ok b := by
  have hlen := fill_ordered_color_length _ _ _ _ _ _ _ _ _ _ _ h2 rfl
  unfold fill_subpass_data
  simp only [h1, h2, h3]
  rw [if_neg (by simp [hlen]), if_neg (by simp [hds])]
  exact ⟨_, rfl⟩


theorem foldl_max_ge (l : List Nat) :
    ∀ (init : Int), init ≤ l.foldl (fun m loc => max m (loc : Int)) init ∧
      ∀ loc ∈ l, (loc : Int) ≤ l.foldl (fun m loc => max m (loc : Int)) init := by
  induction l with
  | nil => intro init; simp
  | cons x rest ih =>
    intro init
    obtain ⟨h1, h2⟩ := ih (max init (x : Int))
    refine ⟨le_trans (le_max_left _ _) h1, ?_⟩
    intro loc hloc
    simp only [List.mem_cons] at hloc
    rcases hloc with he | hm
    · subst he
      exact le_trans (le_max_right _ _) h1
    · exact h2 loc hm

theorem max_location_ge (locs : List Nat) :
    ∀ loc ∈ locs, (loc : Int) ≤ max_location locs :=
  (foldl_max_ge locs (-1)).2

theorem max_location_ge_neg_one (locs : List Nat) : -1 ≤ max_location locs :=
  (foldl_max_ge locs (-1)).1

/-- The positions below `p` split into the claimed and the free ones. -/
theorem free_below_add_length (specific : location_map) (locs : List Nat)
    (hk : ∀ i, specific.count i > 0 ↔ i ∈ locs) (hnd : locs.Nodup) (p : Nat)
    (hp : ∀ i ∈ locs, i < p) : free_below specific p + locs.length = p := by
  have hsplit := @List.length_eq_length_filter_add _ (List.range p)
    (fun i => decide (specific.count i = 0))
  have hperm : ((List.range p).filter (fun i => !decide (specific.count i = 0))).Perm locs := by
    rw [List.perm_ext_iff_of_nodup ((List.nodup_range p).filter _) hnd]
    intro i
    simp only [List.mem_filter, List.mem_range, Bool.not_eq_true', decide_eq_false_iff_not]
    constructor
    · rintro ⟨-, h⟩
      exact (hk i).mp (Nat.pos_of_ne_zero h)
    · intro h
      exact ⟨hp i h, Nat.pos_iff_ne_zero.mp ((hk i).mpr h)⟩
  rw [List.length_range] at hsplit
  rw [hperm.length_eq] at hsplit
  unfold free_below
  omega

/-- The length of an ordered sequence: the positions up to the maximum explicit location,
or all explicit and queued entries if these are more. -/
theorem fill_ordered_length (line : Nat) (specific : location_map)
    (q : List AttachmentReference) (locs : List Nat)
    (hk : ∀ i, specific.count i > 0 ↔ i ∈ locs) (hnd : locs.Nodup)
    (fuel : Nat) (res : List AttachmentReference)
    (h : fill_ordered line specific (max_location locs) fuel 0 q [] = Except.ok res) :
    (res.length : Int) = max (max_location locs + 1) ((locs.length : Int) + q.length) := by
  obtain ⟨-, -, h3, h4, h5⟩ := fill_ordered_spec line specific (max_location locs) q fuel 0 q []
    res (by simp [free_below]) (by simp) h
  have hfree : ∀ p : Nat, max_location locs < (p : Int) →
      free_below specific p + locs.length = p := by
    intro p hp
    apply free_below_add_length specific locs hk hnd
    intro i hi
    have := max_location_ge locs i hi
    omega
  have hn := hfree res.length h3
  have hm1 := max_location_ge_neg_one locs
  by_cases hbig : (res.length : Int) = max_location locs + 1
  · rw [max_eq_left (by omega)]
    exact hbig
  · have hpos : 0 < res.length := by omega
    have hprev := hfree (res.length - 1) (by omega)
    rcases h5 (res.length - 1) (Nat.zero_le _) (by omega) with hcase | hcase
    · omega
    · rw [max_eq_right (by omega)]
      omega


/-! ## The whole of `create` -/

/-- What `create` without a configuration hook has computed and checked when it returns
an object. -/
theorem create_ok {atts : List attachment} {aSync : Option (renderpass_sync → renderpass_sync)}
    {r : renderpass_t} (h : create atts aSync none = Except.ok r) :
    atts ≠ [] ∧ admissible (num_subpasses_first atts) atts ∧
      r.mAttachmentDescriptions = atts.map attachment_description ∧
      r.mClearValues = atts.map clear_value_of ∧
      r.mSubpasses = r.mSubpassData.map subpass_description ∧
      subpass_dependencies (num_subpasses_first atts) aSync = Except.ok r.mSubpassDependencies ∧
      r.mSubpassData.length = num_subpasses_first atts ∧
      r.mRenderPass = some (create_info { r with mRenderPass := none }) ∧
      ∀ s, s < num_subpasses_first atts →
        ∃ b, r.mSubpassData[s]? = some b ∧
          fill_subpass_data (helper_of s (usages_in_subpass atts s)) = Except.ok b := by
  cases atts with
  | nil => simp [create] at h
  | cons front rest =>
    simp only [create] at h
    simp only [num_subpasses_first]
    cases h1 : process_attachments front.mSubpassUsages.length
        { mAttachmentDescriptions := [], mClearValues := [],
          subpasses := (List.range front.mSubpassUsages.length).map subpass_desc_helper.init }
        (front :: rest) with
    | error e => simp [h1] at h
    | ok st =>
      simp only [h1] at h
      cases h2 : fill_all_subpass_data st.subpasses with
      | error e => simp [h2] at h
      | ok data =>
        simp only [h2] at h
        cases h3 : subpass_dependencies front.mSubpassUsages.length aSync with
        | error e => simp [h3] at h
        | ok deps =>
          simp only [h3] at h
          simp at h
          subst h
          obtain ⟨⟨p1, p2, p3, p4⟩, hadm⟩ := process_attachments_ok (front :: rest) [] _ st h1
            (processed_nil _) (admissible_nil _)
          simp only [List.nil_append] at p1 p2 p4 hadm
          obtain ⟨f1, f2⟩ := fill_all_subpass_data_ok _ _ h2
          refine ⟨by simp, hadm, p1, p2, rfl, rfl, by simp [f1, p3], rfl, ?_⟩
          intro s hs
          exact f2 s _ (p4 s hs)

/-- An object returned with a configuration hook has passed the same checks as the
object returned without one. -/
theorem create_ok_of_hook {atts : List attachment}
    {aSync : Option (renderpass_sync → renderpass_sync)}
    {aAlter : Option (renderpass_t → renderpass_t)} {r : renderpass_t}
    (h : create atts aSync aAlter = Except.ok r) :
    ∃ r0, create atts aSync none = Except.ok r0 := by
  cases atts with
  | nil => simp [create] at h
  | cons front rest =>
    simp only [create] at h ⊢
    cases h1 : process_attachments front.mSubpassUsages.length
        { mAttachmentDescriptions := [], mClearValues := [],
          subpasses := (List.range front.mSubpassUsages.length).map subpass_desc_helper.init }
        (front :: rest) with
    | error e => simp [h1] at h
    | ok st =>
      simp only [h1] at h ⊢
      cases h2 : fill_all_subpass_data st.subpasses with
      | error e => simp [h2] at h
      | ok data =>
        simp only [h2] at h ⊢
        cases h3 : subpass_dependencies front.mSubpassUsages.length aSync with
        | error e => simp [h3] at h
        | ok deps => exact ⟨_, rfl⟩

theorem helper_of_input_count (s : Nat) (es : List (Nat × subpass_usage_type)) (i : Nat) :
    (helper_of s es).mSpecificInputLocations.count i > 0 ↔ i ∈ input_locations es := by
  rw [count_pos_iff, helper_of_input_keys, List.mem_reverse]

theorem helper_of_color_count (s : Nat) (es : List (Nat × subpass_usage_type)) (i : Nat) :
    (helper_of s es).mSpecificColorLocations.count i > 0 ↔ i ∈ color_locations es := by
  rw [count_pos_iff, helper_of_color_keys, List.mem_reverse]

theorem helper_of_resolve_count (s : Nat) (es : List (Nat × subpass_usage_type)) (i : Nat) :
    (helper_of s es).mSpecificResolveLocations.count i = 1 ↔ i ∈ color_locations es := by
  rw [count_eq_one_iff, helper_of_resolve_keys, List.mem_reverse]

theorem helper_of_depth_stencil_count (s : Nat) (es : List (Nat × subpass_usage_type))
    (i : Nat) :
    (helper_of s es).mSpecificDepthStencilLocations.count i > 0 ↔ i ∈ ([] : List Nat) := by
  simp [helper_of, location_map.count]

theorem queued_resolve_refs_length (es : List (Nat × subpass_usage_type)) :
    (queued_color_refs es).length = (queued_resolve_refs es).length := by
  induction es with
  | nil => rfl
  | cons e rest ih =>
    simp only [queued_color_refs, queued_resolve_refs, List.filterMap_cons] at ih ⊢
    cases queued_as_color e.2 <;> simp [ih]


theorem split_at_index {α : Type} :
    ∀ (l : List α) (i : Nat) (a : α), l[i]? = some a →
      ∃ pre post, l = pre ++ a :: post ∧ pre.length = i := by
  intro l
  induction l with
  | nil => intro i a h; simp at h
  | cons x rest ih =>
    intro i a h
    cases i with
    | zero =>
      simp at h
      subst h
      exact ⟨[], rest, rfl, rfl⟩
    | succ i =>
      simp at h
      obtain ⟨pre, post, e1, e2⟩ := ih i a h
      exact ⟨x :: pre, post, by simp [e1], by simp [e2]⟩

theorem split_at_two_indices {α : Type} (l : List α) (i j : Nat) (a b : α) (hij : i < j)
    (hi : l[i]? = some a) (hj : l[j]? = some b) :
    ∃ pre mid post, l = pre ++ a :: (mid ++ b :: post) ∧ pre.length = i := by
  obtain ⟨pre, post, e1, e2⟩ := split_at_index l i a hi
  subst e1
  rw [List.getElem?_append_right (by omega)] at hj
  have hsub : j - pre.length = (j - pre.length - 1) + 1 := by omega
  rw [hsub, List.getElem?_cons_succ] at hj
  obtain ⟨mid, post2, e3, -⟩ := split_at_index post _ b hj
  exact ⟨pre, mid, post2, by rw [e3], e2⟩

/-- The usage entries of a subpass, for an attachment list split at one attachment. -/
theorem usages_in_subpass_split (pre post : List attachment) (a : attachment) (s : Nat)
    (u : subpass_usage_type) (hu : a.mSubpassUsages[s]? = some u) :
    usages_in_subpass (pre ++ a :: post) s
      = usages_in_subpass pre s ++ (pre.length, u) :: usages_from s (pre.length + 1) post := by
  simp only [usages_in_subpass, usages_from_append, usages_from, hu, Nat.zero_add]

theorem usages_from_split (pre post : List attachment) (a : attachment) (s k : Nat)
    (u : subpass_usage_type) (hu : a.mSubpassUsages[s]? = some u) :
    usages_from s k (pre ++ a :: post)
      = usages_from s k pre ++ (k + pre.length, u) :: usages_from s (k + pre.length + 1) post := by
  simp only [usages_from_append, usages_from, hu]

/-- The usage entry of attachment `k` at subpass `s` is in the column of subpass `s`. -/
theorem mem_usages_in_subpass {atts : List attachment} {k s : Nat} {a : attachment}
    {u : subpass_usage_type} (ha : atts[k]? = some a) (hu : a.mSubpassUsages[s]? = some u) :
    (k, u) ∈ usages_in_subpass atts s := by
  obtain ⟨pre, post, e1, e2⟩ := split_at_index atts k a ha
  subst e1
  rw [usages_in_subpass_split pre post a s u hu, e2]
  simp

/-- A subpass in which some attachment has a usage entry is one of the subpasses of the
first attachment, once all attachments have equally many. -/
theorem subpass_lt_of_usage {atts : List attachment} {k s : Nat} {a : attachment}
    {u : subpass_usage_type} (hadm : admissible (num_subpasses_first atts) atts)
    (ha : atts[k]? = some a) (hu : a.mSubpassUsages[s]? = some u) :
    s < num_subpasses_first atts := by
  have hmem : a ∈ atts := List.mem_iff_getElem?.mpr ⟨k, ha⟩
  rw [← (hadm.1 a hmem).1]
  exact (List.getElem?_eq_some.mp hu).1


/-- The reference tables of a subpass can be filled when no explicit location is declared
twice and at most one depth/stencil usage is queued. -/
theorem fill_subpass_data_helper_of_succeeds (s : Nat) (es : List (Nat × subpass_usage_type))
    (hds : (depth_stencil_refs es).length ≤ 1) :
    ∃ b, fill_subpass_data (helper_of s es) = Except.ok b := by
  obtain ⟨inputRefs, h1⟩ := fill_ordered_succeeds 266
    (helper_of s es).mSpecificInputLocations (helper_of s es).mInputMaxLoc
    (fun p hp => max_location_ge _ p ((helper_of_input_count s es p).mp hp))
    (loop_fuel (helper_of s es).mSpecificInputLocations
      (helper_of s es).mUnspecifiedInputLocations (helper_of s es).mInputMaxLoc)
    0 (helper_of s es).mUnspecifiedInputLocations [] (by
      unfold loop_fuel
      simp only [Nat.cast_zero, sub_zero]
      omega)
  obtain ⟨colorRefs, h2⟩ := fill_ordered_succeeds 282
    (helper_of s es).mSpecificColorLocations (helper_of s es).mColorMaxLoc
    (fun p hp => max_location_ge _ p ((helper_of_color_count s es p).mp hp))
    (loop_fuel (helper_of s es).mSpecificColorLocations
      (helper_of s es).mUnspecifiedColorLocations (helper_of s es).mColorMaxLoc)
    0 (helper_of s es).mUnspecifiedColorLocations [] (by
      unfold loop_fuel
      simp only [Nat.cast_zero, sub_zero]
      omega)
  obtain ⟨resolveRefs, h2r⟩ := fill_ordered_color_succeeds
    (helper_of s es).mSpecificColorLocations (helper_of s es).mSpecificResolveLocations
    (helper_of s es).mColorMaxLoc
    (fun p hp => (helper_of_resolve_count s es p).mpr ((helper_of_color_count s es p).mp hp))
    _ 0 _ (helper_of s es).mUnspecifiedResolveLocations [] [] colorRefs
    (queued_resolve_refs_length es) h2
  obtain ⟨dsRefs, h3⟩ := fill_ordered_succeeds 304
    (helper_of s es).mSpecificDepthStencilLocations (helper_of s es).mDepthStencilMaxLoc
    (fun p hp => absurd ((helper_of_depth_stencil_count s es p).mp hp) (by simp))
    (loop_fuel (helper_of s es).mSpecificDepthStencilLocations
      (helper_of s es).mUnspecifiedDepthStencilLocations (helper_of s es).mDepthStencilMaxLoc)
    0 (helper_of s es).mUnspecifiedDepthStencilLocations [] (by
      unfold loop_fuel
      simp only [Nat.cast_zero, sub_zero]
      omega)
  have hlen : dsRefs.length = (depth_stencil_refs es).length := by
    have hmax : (helper_of s es).mDepthStencilMaxLoc = max_location [] := rfl
    have h3b := h3
    rw [hmax] at h3b
    have := fill_ordered_length 304 _ _ [] (helper_of_depth_stencil_count s es)
      List.nodup_nil _ _ h3b
    have hq : (helper_of s es).mUnspecifiedDepthStencilLocations = depth_stencil_refs es := rfl
    rw [hq] at this
    have hm : max_location [] = -1 := rfl
    rw [hm] at this
    simp at this
    omega
  exact fill_subpass_data_succeeds (helper_of s es) inputRefs colorRefs resolveRefs dsRefs
    h1 h2r h3 (by omega)

/-! ## The kinds of error of `create` -/

theorem usage_as_input_error {k i : Nat} {sp : subpass_desc_helper} {u : subpass_usage_type}
    {e : create_error} (h : usage_as_input k i sp u = Except.error e) :
    e.is_throw_or_assertion = true := by
  unfold usage_as_input at h
  split at h
  · split at h
    · simp at h
      subst h
      rfl
    · split at h
      · split at h
        · simp at h
          subst h
          rfl
        · simp at h
      · simp at h
  · simp at h

theorem usage_as_color_error {k i : Nat} {sp : subpass_desc_helper} {u : subpass_usage_type}
    {e : create_error} (h : usage_as_color k i sp u = Except.error e) :
    e.is_throw_or_assertion = true := by
  unfold usage_as_color at h
  split at h
  · split at h
    · split at h
      · simp at h
        subst h
        rfl
      · simp at h
    · simp at h
  · simp at h

theorem usage_as_depth_stencil_error {k : Nat} {sp : subpass_desc_helper}
    {u : subpass_usage_type} {e : create_error}
    (h : usage_as_depth_stencil k sp u = Except.error e) :
    e.is_throw_or_assertion = true := by
  unfold usage_as_depth_stencil at h
  split at h
  · split at h
    · simp at h
      subst h
      rfl
    · simp at h
  · simp at h

theorem usage_as_preserve_error {k : Nat} {sp : subpass_desc_helper}
    {u : subpass_usage_type} {e : create_error}
    (h : usage_as_preserve k sp u = Except.error e) :
    e.is_throw_or_assertion = true := by
  unfold usage_as_preserve at h
  split at h
  · split at h
    · simp at h
      subst h
      rfl
    · split at h
      · simp at h
        subst h
        rfl
      · simp at h
  · simp at h

theorem process_usage_error {k i : Nat} {sp : subpass_desc_helper} {u : subpass_usage_type}
    {e : create_error} (h : process_usage k i sp u = Except.error e) :
    e.is_throw_or_assertion = true := by
  unfold process_usage at h
  cases h1 : usage_as_input k i sp u with
  | error e1 =>
    simp only [h1] at h
    simp at h
    subst h
    exact usage_as_input_error h1
  | ok spa =>
    simp only [h1] at h
    cases h2 : usage_as_color k i spa u with
    | error e2 =>
      simp only [h2] at h
      simp at h
      subst h
      exact usage_as_color_error h2
    | ok spb =>
      simp only [h2] at h
      cases h3 : usage_as_depth_stencil k spb u with
      | error e3 =>
        simp only [h3] at h
        simp at h
        subst h
        exact usage_as_depth_stencil_error h3
      | ok spc =>
        simp only [h3] at h
        exact usage_as_preserve_error h

theorem process_usages_error (K : Nat) :
    ∀ (us : List subpass_usage_type) (i : Nat) (sps : List subpass_desc_helper)
      (e : create_error), process_usages K i sps us = Except.error e →
      e.is_throw_or_assertion = true := by
  intro us
  induction us with
  | nil => intro i sps e h; simp [process_usages] at h
  | cons u rest ih =>
    intro i sps e h
    cases sps with
    | nil => simp [process_usages] at h
    | cons sp sprest =>
      simp only [process_usages] at h
      cases h1 : process_usage K i sp u with
      | error e1 =>
        simp only [h1] at h
        simp at h
        subst h
        exact process_usage_error h1
      | ok spa =>
        simp only [h1] at h
        cases h2 : process_usages K (i + 1) sprest rest with
        | error e2 =>
          simp only [h2] at h
          simp at h
          subst h
          exact ih _ _ _ h2
        | ok restres =>
          simp only [h2] at h
          simp at h

theorem process_attachment_error {S : Nat} {st : create_state} {a : attachment}
    {e : create_error} (h : process_attachment S st a = Except.error e) :
    e.is_throw_or_assertion = true := by
  unfold process_attachment at h
  simp only at h
  split at h
  · simp at h
    subst h
    rfl
  split at h
  · simp at h
    subst h
    rfl
  split at h
  · simp at h
    subst h
    rfl
  cases hpu : process_usages (to_uint32 ((st.mAttachmentDescriptions ++
      [attachment_description a]).length - 1)) 0 st.subpasses a.mSubpassUsages with
  | error e1 =>
    simp only [hpu] at h
    simp at h
    subst h
    exact process_usages_error _ _ _ _ _ hpu
  | ok sps =>
    simp only [hpu] at h
    simp at h

theorem process_attachments_error {S : Nat} :
    ∀ (atts : List attachment) (st : create_state) (e : create_error),
      process_attachments S st atts = Except.error e → e.is_throw_or_assertion = true := by
  intro atts
  induction atts with
  | nil => intro st e h; simp [process_attachments] at h
  | cons a rest ih =>
    intro st e h
    simp only [process_attachments] at h
    cases h1 : process_attachment S st a with
    | error e1 =>
      simp only [h1] at h
      simp at h
      subst h
      exact process_attachment_error h1
    | ok sta =>
      simp only [h1] at h
      exact ih _ _ h

/-! ## Claims on the reference tables -/

theorem subpass_data_of_mem {atts : List attachment}
    {aSync : Option (renderpass_sync → renderpass_sync)} {r : renderpass_t}
    (h : create atts aSync none = Except.ok r) {b : subpass_data} (hb : b ∈ r.mSubpassData) :
    ∃ s, s < num_subpasses_first atts ∧ r.mSubpassData[s]? = some b ∧
      fill_subpass_data (helper_of s (usages_in_subpass atts s)) = Except.ok b := by
  obtain ⟨-, -, -, -, -, -, hlen, -, hs⟩ := create_ok h
  obtain ⟨s, hsb⟩ := List.mem_iff_getElem?.mp hb
  have hlt : s < num_subpasses_first atts := by
    rw [← hlen]
    exact (List.getElem?_eq_some.mp hsb).1
  obtain ⟨b1, e1, e2⟩ := hs s hlt
  rw [hsb] at e1
  simp only [Option.some.injEq] at e1
  subst e1
  exact ⟨s, hlt, hsb, e2⟩

theorem subpass_data_of_index {atts : List attachment}
    {aSync : Option (renderpass_sync → renderpass_sync)} {r : renderpass_t}
    (h : create atts aSync none = Except.ok r) {s : Nat} {b : subpass_data}
    (hb : r.mSubpassData[s]? = some b) :
    s < num_subpasses_first atts ∧
      fill_subpass_data (helper_of s (usages_in_subpass atts s)) = Except.ok b := by
  obtain ⟨-, -, -, -, -, -, hlen, -, hs⟩ := create_ok h
  have hlt : s < num_subpasses_first atts := by
    rw [← hlen]
    exact (List.getElem?_eq_some.mp hb).1
  obtain ⟨b1, e1, e2⟩ := hs s hlt
  rw [hb] at e1
  simp only [Option.some.injEq] at e1
  subst e1
  exact ⟨hlt, e2⟩

/-- C3: in every subpass of an object that `create` returns, the resolve references are
none at all or as many as the colour references. -/
theorem C3_resolve_refs_empty_or_aligned (atts : List attachment)
    (aSync : Option (renderpass_sync → renderpass_sync)) (r : renderpass_t)
    (h : create atts aSync none = Except.ok r) :
    ∀ b ∈ r.mSubpassData,
      b.mOrderedResolveAttachmentRefs.length = 0 ∨
      b.mOrderedResolveAttachmentRefs.length = b.mOrderedColorAttachmentRefs.length := by
  intro b hb
  obtain ⟨s, -, -, hfill⟩ := subpass_data_of_mem h hb
  obtain ⟨-, hcolor, -, -, -, -⟩ := fill_subpass_data_ok hfill
  exact Or.inr (fill_ordered_color_length _ _ _ _ _ _ _ _ _ _ _ hcolor rfl).symm

/-- C3, on the sample declarations. -/
theorem C3_resolve_refs_empty_or_aligned_witness :
    sample_subpass_data.mOrderedResolveAttachmentRefs.length = 0 ∨
      sample_subpass_data.mOrderedResolveAttachmentRefs.length
        = sample_subpass_data.mOrderedColorAttachmentRefs.length :=
  C3_resolve_refs_empty_or_aligned sample_attachments none
    (compiled (create sample_attachments none none)) (by decide) sample_subpass_data
    (by decide)


/-- The depth/stencil references of a subpass are as many as its depth/stencil usages. -/
theorem depth_stencil_length_of_fill {s : Nat} {es : List (Nat × subpass_usage_type)}
    {b : subpass_data} (h : fill_subpass_data (helper_of s es) = Except.ok b) :
    b.mOrderedDepthStencilAttachmentRefs.length = (depth_stencil_refs es).length := by
  obtain ⟨-, -, hds, -, -, -⟩ := fill_subpass_data_ok h
  have hmax : (helper_of s es).mDepthStencilMaxLoc = max_location [] := rfl
  rw [hmax] at hds
  have := fill_ordered_length 304 _ _ [] (helper_of_depth_stencil_count s es) List.nodup_nil
    _ _ hds
  have hq : (helper_of s es).mUnspecifiedDepthStencilLocations = depth_stencil_refs es := rfl
  rw [hq] at this
  have hm : max_location [] = -1 := rfl
  rw [hm] at this
  simp at this
  omega

theorem two_depth_stencil_usages {atts : List attachment} {i j s : Nat} {ai aj : attachment}
    {ui uj : subpass_usage_type} (hij : i < j) (hai : atts[i]? = some ai)
    (haj : atts[j]? = some aj) (hui : ai.mSubpassUsages[s]? = some ui)
    (huj : aj.mSubpassUsages[s]? = some uj) (hdi : ui.as_depth_stencil = true)
    (hdj : uj.as_depth_stencil = true) :
    2 ≤ (depth_stencil_refs (usages_in_subpass atts s)).length := by
  obtain ⟨pre, mid, post, e1, -⟩ := split_at_two_indices atts i j ai aj hij hai haj
  subst e1
  rw [usages_in_subpass_split pre _ ai s ui hui, usages_from_split mid post aj s _ uj huj]
  simp only [depth_stencil_refs, List.filterMap_append, List.filterMap_cons, hdi, hdj, if_true,
    List.length_append, List.length_cons]
  omega

/-- The only check that can fail while the reference tables of a subpass are filled is
the assertion of line 323 on the depth/stencil references. -/
theorem fill_subpass_data_helper_of_error {s : Nat} {es : List (Nat × subpass_usage_type)}
    {e : create_error} (h : fill_subpass_data (helper_of s es) = Except.error e) :
    e = create_error.assertion_failed 323 ∧ 2 ≤ (depth_stencil_refs es).length := by
  by_cases hds : (depth_stencil_refs es).length ≤ 1
  · obtain ⟨b, hb⟩ := fill_subpass_data_helper_of_succeeds s es hds
    rw [hb] at h
    cases h
  · refine ⟨?_, by omega⟩
    obtain ⟨inputRefs, h1⟩ := fill_ordered_succeeds 266
      (helper_of s es).mSpecificInputLocations (helper_of s es).mInputMaxLoc
      (fun p hp => max_location_ge _ p ((helper_of_input_count s es p).mp hp))
      (loop_fuel (helper_of s es).mSpecificInputLocations
        (helper_of s es).mUnspecifiedInputLocations (helper_of s es).mInputMaxLoc)
      0 (helper_of s es).mUnspecifiedInputLocations [] (by
        unfold loop_fuel
        simp only [Nat.cast_zero, sub_zero]
        omega)
    obtain ⟨colorRefs, h2⟩ := fill_ordered_succeeds 282
      (helper_of s es).mSpecificColorLocations (helper_of s es).mColorMaxLoc
      (fun p hp => max_location_ge _ p ((helper_of_color_count s es p).mp hp))
      (loop_fuel (helper_of s es).mSpecificColorLocations
        (helper_of s es).mUnspecifiedColorLocations (helper_of s es).mColorMaxLoc)
      0 (helper_of s es).mUnspecifiedColorLocations [] (by
        unfold loop_fuel
        simp only [Nat.cast_zero, sub_zero]
        omega)
    obtain ⟨resolveRefs, h2r⟩ := fill_ordered_color_succeeds
      (helper_of s es).mSpecificColorLocations (helper_of s es).mSpecificResolveLocations
      (helper_of s es).mColorMaxLoc
      (fun p hp => (helper_of_resolve_count s es p).mpr ((helper_of_color_count s es p).mp hp))
      _ 0 _ (helper_of s es).mUnspecifiedResolveLocations [] [] colorRefs
      (queued_resolve_refs_length es) h2
    obtain ⟨dsRefs, h3⟩ := fill_ordered_succeeds 304
      (helper_of s es).mSpecificDepthStencilLocations (helper_of s es).mDepthStencilMaxLoc
      (fun p hp => absurd ((helper_of_depth_stencil_count s es p).mp hp) (by simp))
      (loop_fuel (helper_of s es).mSpecificDepthStencilLocations
        (helper_of s es).mUnspecifiedDepthStencilLocations (helper_of s es).mDepthStencilMaxLoc)
      0 (helper_of s es).mUnspecifiedDepthStencilLocations [] (by
        unfold loop_fuel
        simp only [Nat.cast_zero, sub_zero]
        omega)
    have hlen := fill_ordered_color_length _ _ _ _ _ _ _ _ _ _ _ h2r rfl
    have h2s : fill_ordered_color (helper_of s es).mSpecificColorLocations
        (helper_of s es).mSpecificResolveLocations (helper_of s es).mColorMaxLoc
        (loop_fuel (helper_of s es).mSpecificColorLocations
          (helper_of s es).mUnspecifiedColorLocations (helper_of s es).mColorMaxLoc)
        0 (helper_of s es).mUnspecifiedColorLocations
        (helper_of s es).mUnspecifiedResolveLocations [] []
        = Except.ok (colorRefs, resolveRefs) := h2r
    have hdl : dsRefs.length = (depth_stencil_refs es).length := by
      have hmax : (helper_of s es).mDepthStencilMaxLoc = max_location [] := rfl
      have h3b := h3
      rw [hmax] at h3b
      have := fill_ordered_length 304 _ _ [] (helper_of_depth_stencil_count s es)
        List.nodup_nil _ _ h3b
      have hq : (helper_of s es).mUnspecifiedDepthStencilLocations = depth_stencil_refs es :=
        rfl
      rw [hq] at this
      have hm : max_location [] = -1 := rfl
      rw [hm] at this
      simp at this
      omega
    unfold fill_subpass_data at h
    simp only [h1, h2s, h3] at h
    rw [if_neg (by simp [hlen])] at h
    split at h
    · simp at h
      exact h.symm
    · simp at h

theorem fill_all_subpass_data_error :
    ∀ (sps : List subpass_desc_helper) (e : create_error),
      fill_all_subpass_data sps = Except.error e →
      ∃ sp ∈ sps, fill_subpass_data sp = Except.error e := by
  intro sps
  induction sps with
  | nil => intro e h; simp [fill_all_subpass_data] at h
  | cons a rest ih =>
    intro e h
    simp only [fill_all_subpass_data] at h
    cases h1 : fill_subpass_data a with
    | error e1 =>
      simp only [h1] at h
      simp at h
      subst h
      exact ⟨a, by simp, h1⟩
    | ok b =>
      simp only [h1] at h
      cases h2 : fill_all_subpass_data rest with
      | error e2 =>
        simp only [h2] at h
        simp at h
        subst h
        obtain ⟨sp, hsp, hf⟩ := ih _ h2
        exact ⟨sp, by simp [hsp], hf⟩
      | ok bs =>
        simp only [h2] at h
        simp at h

theorem dependencies_between_error (aSync : Option (renderpass_sync → renderpass_sync)) :
    ∀ (l : List Nat) (deps : List SubpassDependency) (e : create_error),
      dependencies_between aSync l deps = Except.error e →
      e.is_throw_or_assertion = true := by
  intro l
  induction l with
  | nil => intro deps e h; simp [dependencies_between] at h
  | cons i rest ih =>
    intro deps e h
    simp only [dependencies_between] at h
    split at h
    · simp at h
      subst h
      rfl
    · split at h
      · simp at h
        subst h
        rfl
      · exact ih _ _ h

/-- The dependency synthesis ends without dependencies only by a failed assertion on a
sync description or by the loop that does not end. -/
theorem subpass_dependencies_upto_error (S last : Nat)
    (aSync : Option (renderpass_sync → renderpass_sync)) :
    match subpass_dependencies_upto S last aSync with
    | Except.ok _ => True
    | Except.error e =>
      e.is_throw_or_assertion = true ∨ e = create_error.loop_does_not_terminate := by
  unfold subpass_dependencies_upto
  simp only
  by_cases c1 : (apply_sync aSync (syncBefore 0)).source_vk_subpass_id ≠ VK_SUBPASS_EXTERNAL
  · rw [if_pos c1]
    exact Or.inl rfl
  rw [if_neg c1]
  by_cases c2 : (apply_sync aSync (syncBefore 0)).destination_vk_subpass_id ≠ 0
  · rw [if_pos c2]
    exact Or.inl rfl
  rw [if_neg c2]
  by_cases c3 : last = 4294967295
  · rw [if_pos c3]
    exact Or.inr rfl
  rw [if_neg c3]
  cases hd : dependencies_between aSync ((List.range last).map (fun k => k + 1))
      [addDependency (apply_sync aSync (syncBefore 0))] with
  | error e => exact Or.inl (dependencies_between_error aSync _ _ _ hd)
  | ok ds =>
    simp only
    by_cases c4 : (apply_sync aSync (syncAfter last)).source_vk_subpass_id ≠ last
    · rw [if_pos c4]
      exact Or.inl rfl
    rw [if_neg c4]
    by_cases c5 : (apply_sync aSync (syncAfter last)).destination_vk_subpass_id
        ≠ VK_SUBPASS_EXTERNAL
    · rw [if_pos c5]
      exact Or.inl rfl
    rw [if_neg c5]
    by_cases c6 : (ds ++ [addDependency (apply_sync aSync (syncAfter last))]).length ≠ S + 1
    · rw [if_pos c6]
      exact Or.inl rfl
    rw [if_neg c6]
    trivial

theorem subpass_dependencies_error {S : Nat}
    {aSync : Option (renderpass_sync → renderpass_sync)} {e : create_error}
    (h : subpass_dependencies S aSync = Except.error e) :
    e.is_throw_or_assertion = true ∨ e = create_error.loop_does_not_terminate := by
  have := subpass_dependencies_upto_error S (to_uint32 (size_t_sub S 1)) aSync
  unfold subpass_dependencies at h
  rw [h] at this
  exact this

/-- An error of `create` is a `throw` or a failed assertion of the source, unless it is
the loop of line 389 that does not end; the latter only after the loop over the
attachments and the loop that fills the reference tables have passed all their checks. In
particular the supply of iterations of the model never runs out. -/
theorem create_error_kind {atts : List attachment}
    {aSync : Option (renderpass_sync → renderpass_sync)}
    {aAlter : Option (renderpass_t → renderpass_t)} {e : create_error}
    (h : create atts aSync aAlter = Except.error e) :
    e.is_throw_or_assertion = true ∨
    (e = create_error.loop_does_not_terminate ∧ atts ≠ [] ∧
      admissible (num_subpasses_first atts) atts ∧
      ∀ s, s < num_subpasses_first atts →
        (depth_stencil_refs (usages_in_subpass atts s)).length ≤ 1) := by
  cases atts with
  | nil =>
    simp [create] at h
    subst h
    exact Or.inl rfl
  | cons front rest =>
    simp only [create] at h
    simp only [num_subpasses_first]
    cases h1 : process_attachments front.mSubpassUsages.length
        { mAttachmentDescriptions := [], mClearValues := [],
          subpasses := (List.range front.mSubpassUsages.length).map subpass_desc_helper.init }
        (front :: rest) with
    | error e1 =>
      simp only [h1] at h
      simp at h
      subst h
      exact Or.inl (process_attachments_error _ _ _ h1)
    | ok st =>
      simp only [h1] at h
      obtain ⟨⟨-, -, p3, p4⟩, hadm⟩ := process_attachments_ok (front :: rest) [] _ st h1
        (processed_nil _) (admissible_nil _)
      simp only [List.nil_append] at p4 hadm
      cases h2 : fill_all_subpass_data st.subpasses with
      | error e2 =>
        simp only [h2] at h
        simp at h
        subst h
        obtain ⟨sp, hsp, hf⟩ := fill_all_subpass_data_error _ _ h2
        obtain ⟨s, hs1⟩ := List.mem_iff_getElem?.mp hsp
        have hlt : s < front.mSubpassUsages.length := by
          rw [← p3]
          exact (List.getElem?_eq_some.mp hs1).1
        rw [p4 s hlt] at hs1
        simp only [Option.some.injEq] at hs1
        subst hs1
        rw [(fill_subpass_data_helper_of_error hf).1]
        exact Or.inl rfl
      | ok data =>
        simp only [h2] at h
        cases h3 : subpass_dependencies front.mSubpassUsages.length aSync with
        | error e3 =>
          simp only [h3] at h
          simp at h
          subst h
          rcases subpass_dependencies_error h3 with hk | hk
          · exact Or.inl hk
          · refine Or.inr ⟨hk, by simp, hadm, ?_⟩
            intro s hs
            obtain ⟨-, f2⟩ := fill_all_subpass_data_ok _ _ h2
            obtain ⟨b, -, hb⟩ := f2 s _ (p4 s hs)
            rw [← depth_stencil_length_of_fill hb]
            exact (fill_subpass_data_ok hb).2.2.2.2.1
        | ok deps =>
          simp only [h3] at h
          simp at h

/-- The supply of iterations that the model grants to the loops of `create` never runs
out. -/
theorem create_ne_out_of_fuel (atts : List attachment)
    (aSync : Option (renderpass_sync → renderpass_sync))
    (aAlter : Option (renderpass_t → renderpass_t)) :
    create atts aSync aAlter ≠ Except.error create_error.out_of_fuel := by
  intro h
  rcases create_error_kind h with hk | ⟨hk, -⟩
  · simp [create_error.is_throw_or_assertion] at hk
  · cases hk

theorem create_rejects_two_depth_stencil {atts : List attachment}
    {aSync : Option (renderpass_sync → renderpass_sync)}
    {aAlter : Option (renderpass_t → renderpass_t)} {i j s : Nat} {ai aj : attachment}
    {ui uj : subpass_usage_type} (hij : i < j) (hai : atts[i]? = some ai)
    (haj : atts[j]? = some aj) (hui : ai.mSubpassUsages[s]? = some ui)
    (huj : aj.mSubpassUsages[s]? = some uj) (hdi : ui.as_depth_stencil = true)
    (hdj : uj.as_depth_stencil = true) :
    ∃ e, create atts aSync aAlter = Except.error e ∧ e.is_throw_or_assertion = true := by
  cases hc : create atts aSync aAlter with
  | error e =>
    refine ⟨e, rfl, ?_⟩
    rcases create_error_kind hc with hk | ⟨-, -, hadm, hds⟩
    · exact hk
    · have h2 := hds s (subpass_lt_of_usage hadm hai hui)
      have h3 := two_depth_stencil_usages hij hai haj hui huj hdi hdj
      omega
  | ok r =>
    exfalso
    obtain ⟨r0, h0⟩ := create_ok_of_hook hc
    obtain ⟨-, hadm, -, -, -, -, -, -, hs⟩ := create_ok h0
    obtain ⟨b, -, hfill⟩ := hs s (subpass_lt_of_usage hadm hai hui)
    have h1 := depth_stencil_length_of_fill hfill
    have h2 := (fill_subpass_data_ok hfill).2.2.2.2.1
    have h3 := two_depth_stencil_usages hij hai haj hui huj hdi hdj
    omega

/-- C4: in every subpass of an object that `create` returns there is at most one
depth/stencil reference; and when two different attachments are used as depth/stencil in
the same subpass, `create` ends with an error, a `throw` or a failed assertion, instead of
an object, whatever the hooks. -/
theorem C4_depth_stencil_at_most_one (atts : List attachment)
    (aSync : Option (renderpass_sync → renderpass_sync)) :
    (∀ r, create atts aSync none = Except.ok r →
      ∀ b ∈ r.mSubpassData, b.mOrderedDepthStencilAttachmentRefs.length ≤ 1) ∧
    (∀ (aAlter : Option (renderpass_t → renderpass_t)) (i j s : Nat) (ai aj : attachment)
      (ui uj : subpass_usage_type), i ≠ j → atts[i]? = some ai → atts[j]? = some aj →
      ai.mSubpassUsages[s]? = some ui → aj.mSubpassUsages[s]? = some uj →
      ui.as_depth_stencil = true → uj.as_depth_stencil = true →
      ∃ e, create atts aSync aAlter = Except.error e ∧ e.is_throw_or_assertion = true) := by
  constructor
  · intro r h b hb
    obtain ⟨s, -, -, hfill⟩ := subpass_data_of_mem h hb
    exact (fill_subpass_data_ok hfill).2.2.2.2.1
  · intro aAlter i j s ai aj ui uj hne hai haj hui huj hdi hdj
    rcases Nat.lt_or_gt_of_ne hne with hlt | hgt
    · exact create_rejects_two_depth_stencil hlt hai haj hui huj hdi hdj
    · exact create_rejects_two_depth_stencil hgt haj hai huj hui hdj hdi

/-- C4, on the sample declarations and on two depth/stencil attachments in one subpass. -/
theorem C4_depth_stencil_at_most_one_witness :
    sample_subpass_data.mOrderedDepthStencilAttachmentRefs.length ≤ 1 ∧
    (∃ e, create [sample_attachment [depth_stencil_usage],
      sample_attachment [depth_stencil_usage]] none none = Except.error e ∧
        e.is_throw_or_assertion = true) :=
  ⟨(C4_depth_stencil_at_most_one sample_attachments none).1
      (compiled (create sample_attachments none none)) (by decide) sample_subpass_data
      (by decide),
    (C4_depth_stencil_at_most_one [sample_attachment [depth_stencil_usage],
      sample_attachment [depth_stencil_usage]] none).2 none 0 1 0
      (sample_attachment [depth_stencil_usage]) (sample_attachment [depth_stencil_usage])
      depth_stencil_usage depth_stencil_usage (by decide) rfl rfl rfl rfl rfl rfl⟩


theorem color_location_twice {atts : List attachment} {i j s loc : Nat} {ai aj : attachment}
    {ui uj : subpass_usage_type} (hij : i < j) (hai : atts[i]? = some ai)
    (haj : atts[j]? = some aj) (hui : ai.mSubpassUsages[s]? = some ui)
    (huj : aj.mSubpassUsages[s]? = some uj) (hli : color_location_of ui = some loc)
    (hlj : color_location_of uj = some loc) :
    ¬ (color_locations (usages_in_subpass atts s)).Nodup := by
  obtain ⟨pre, mid, post, e1, -⟩ := split_at_two_indices atts i j ai aj hij hai haj
  subst e1
  rw [usages_in_subpass_split pre _ ai s ui hui, usages_from_split mid post aj s _ uj huj]
  simp only [color_locations, List.filterMap_append, List.filterMap_cons, hli, hlj]
  intro hnd
  rw [List.nodup_append] at hnd
  have := hnd.2.1
  simp at this

theorem input_location_twice {atts : List attachment} {i j s loc : Nat} {ai aj : attachment}
    {ui uj : subpass_usage_type} (hij : i < j) (hai : atts[i]? = some ai)
    (haj : atts[j]? = some aj) (hui : ai.mSubpassUsages[s]? = some ui)
    (huj : aj.mSubpassUsages[s]? = some uj) (hli : input_location_of ui = some loc)
    (hlj : input_location_of uj = some loc) :
    ¬ (input_locations (usages_in_subpass atts s)).Nodup := by
  obtain ⟨pre, mid, post, e1, -⟩ := split_at_two_indices atts i j ai aj hij hai haj
  subst e1
  rw [usages_in_subpass_split pre _ ai s ui hui, usages_from_split mid post aj s _ uj huj]
  simp only [input_locations, List.filterMap_append, List.filterMap_cons, hli, hlj]
  intro hnd
  rw [List.nodup_append] at hnd
  have := hnd.2.1
  simp at this

theorem create_rejects_location_twice {atts : List attachment}
    {aSync : Option (renderpass_sync → renderpass_sync)}
    {aAlter : Option (renderpass_t → renderpass_t)} {i j s loc : Nat} {ai aj : attachment}
    {ui uj : subpass_usage_type} (hij : i < j) (hai : atts[i]? = some ai)
    (haj : atts[j]? = some aj) (hui : ai.mSubpassUsages[s]? = some ui)
    (huj : aj.mSubpassUsages[s]? = some uj)
    (hloc : (color_location_of ui = some loc ∧ color_location_of uj = some loc) ∨
      (input_location_of ui = some loc ∧ input_location_of uj = some loc)) :
    ∃ e, create atts aSync aAlter = Except.error e ∧ e.is_throw_or_assertion = true := by
  cases hc : create atts aSync aAlter with
  | error e =>
    refine ⟨e, rfl, ?_⟩
    rcases create_error_kind hc with hk | ⟨-, -, hadm, -⟩
    · exact hk
    · exfalso
      have hnd := hadm.2 s (subpass_lt_of_usage hadm hai hui)
      rcases hloc with ⟨h1, h2⟩ | ⟨h1, h2⟩
      · exact color_location_twice hij hai haj hui huj h1 h2 hnd.2
      · exact input_location_twice hij hai haj hui huj h1 h2 hnd.1
  | ok r =>
    exfalso
    obtain ⟨r0, h0⟩ := create_ok_of_hook hc
    obtain ⟨-, hadm, -⟩ := create_ok h0
    have hnd := hadm.2 s (subpass_lt_of_usage hadm hai hui)
    rcases hloc with ⟨h1, h2⟩ | ⟨h1, h2⟩
    · exact color_location_twice hij hai haj hui huj h1 h2 hnd.2
    · exact input_location_twice hij hai haj hui huj h1 h2 hnd.1

/-- C5: when two different attachments declare the same explicit location for the same
category (both colour, or both input) in the same subpass, `create` ends with an error, a
`throw` or a failed assertion, instead of an object, whatever the hooks. -/
theorem C5_duplicate_location_rejected (atts : List attachment)
    (aSync : Option (renderpass_sync → renderpass_sync))
    (aAlter : Option (renderpass_t → renderpass_t)) (i j s loc : Nat) (ai aj : attachment)
    (ui uj : subpass_usage_type) (hne : i ≠ j) (hai : atts[i]? = some ai)
    (haj : atts[j]? = some aj) (hui : ai.mSubpassUsages[s]? = some ui)
    (huj : aj.mSubpassUsages[s]? = some uj)
    (hloc : (ui.as_color = true ∧ ui.mColorLocation = some loc ∧
        uj.as_color = true ∧ uj.mColorLocation = some loc) ∨
      (ui.as_input = true ∧ ui.mInputLocation = some loc ∧
        uj.as_input = true ∧ uj.mInputLocation = some loc)) :
    ∃ e, create atts aSync aAlter = Except.error e ∧ e.is_throw_or_assertion = true := by
  have hloc1 : (color_location_of ui = some loc ∧ color_location_of uj = some loc) ∨
      (input_location_of ui = some loc ∧ input_location_of uj = some loc) := by
    rcases hloc with ⟨h1, h2, h3, h4⟩ | ⟨h1, h2, h3, h4⟩
    · exact Or.inl ⟨by simp [color_location_of, h1, h2], by simp [color_location_of, h3, h4]⟩
    · exact Or.inr ⟨by simp [input_location_of, h1, h2], by simp [input_location_of, h3, h4]⟩
  rcases Nat.lt_or_gt_of_ne hne with hlt | hgt
  · exact create_rejects_location_twice hlt hai haj hui huj hloc1
  · have hloc2 : (color_location_of uj = some loc ∧ color_location_of ui = some loc) ∨
        (input_location_of uj = some loc ∧ input_location_of ui = some loc) := by
      rcases hloc1 with ⟨h1, h2⟩ | ⟨h1, h2⟩
      · exact Or.inl ⟨h2, h1⟩
      · exact Or.inr ⟨h2, h1⟩
    exact create_rejects_location_twice hgt haj hai huj hui hloc2

/-- C5, on two colour usages in one subpass that both declare location 2. -/
theorem C5_duplicate_location_rejected_witness :
    ∃ e, create [sample_attachment [color_usage (some 2)],
      sample_attachment [color_usage (some 2)]] none none = Except.error e ∧
        e.is_throw_or_assertion = true :=
  C5_duplicate_location_rejected
    [sample_attachment [color_usage (some 2)], sample_attachment [color_usage (some 2)]]
    none none 0 1 0 2 (sample_attachment [color_usage (some 2)])
    (sample_attachment [color_usage (some 2)]) (color_usage (some 2)) (color_usage (some 2))
    (by decide) rfl rfl rfl rfl (Or.inl ⟨rfl, rfl, rfl, rfl⟩)


theorem lookup_of_mem_nodup :
    ∀ (m : location_map) (loc : Nat) (v : AttachmentReference),
      (m.map Prod.fst).Nodup → (loc, v) ∈ m → m.lookup loc = some v := by
  intro m
  induction m with
  | nil => intro loc v _ h; simp at h
  | cons e rest ih =>
    intro loc v hnd hmem
    obtain ⟨k, w⟩ := e
    simp only [List.map_cons, List.nodup_cons] at hnd
    simp only [List.mem_cons, Prod.mk.injEq] at hmem
    rcases hmem with ⟨h1, h2⟩ | hmem
    · subst h1 h2
      simp [List.lookup]
    · have hne : loc ≠ k := by
        intro he
        subst he
        exact hnd.1 (List.mem_map.mpr ⟨(loc, v), hmem, rfl⟩)
      have hb : (loc == k) = false := by simpa using hne
      simp only [List.lookup, hb]
      exact ih loc v hnd.2 hmem

theorem free_below_mono (specific : location_map) (p : Nat) :
    ∀ d, free_below specific p ≤ free_below specific (p + d) := by
  intro d
  induction d with
  | zero => simp
  | succ d ih =>
    have : p + (d + 1) = (p + d) + 1 := by omega
    rw [this, free_below_succ]
    omega

theorem free_below_eq_free_positions_below (specific : location_map) (locs : List Nat)
    (hk : ∀ i, specific.count i > 0 ↔ i ∈ locs) (p : Nat) :
    free_below specific p = free_positions_below locs p := by
  unfold free_below free_positions_below
  congr 1
  apply List.filter_congr
  intro i _
  have := hk i
  by_cases hi : i ∈ locs
  · have hpos := this.mpr hi
    simp [hi]
    omega
  · have hz : ¬ specific.count i > 0 := fun hx => hi (this.mp hx)
    simp [hi]
    omega

/-- The references at the positions of an ordered sequence, as the loop leaves them. -/
theorem fill_ordered_getElem (line : Nat) (specific : location_map)
    (q : List AttachmentReference) (locs : List Nat)
    (hk : ∀ i, specific.count i > 0 ↔ i ∈ locs)
    (fuel : Nat) (res : List AttachmentReference)
    (h : fill_ordered line specific (max_location locs) fuel 0 q [] = Except.ok res) :
    (∀ p, p ∈ locs → res[p]? = some (specific.get p)) ∧
    (∀ p, p ∉ locs → free_positions_below locs p < q.length →
      res[p]? = q[free_positions_below locs p]?) ∧
    (∀ p, p ∉ locs → q.length ≤ free_positions_below locs p → (p : Int) ≤ max_location locs →
      res[p]? = some unusedAttachmentRef) ∧
    q.length ≤ free_positions_below locs res.length := by
  obtain ⟨h1, -, h3, h4, -⟩ := fill_ordered_spec line specific (max_location locs) q fuel 0 q []
    res (by simp [free_below]) (by simp) h
  have hfb := free_below_eq_free_positions_below specific locs hk
  have hget : ∀ p, p < res.length → res[p]? = some (expected_ref specific q p) := by
    intro p hp
    rw [h1]
    simp only [List.getElem?_map, List.length_map, List.length_range]
    rw [List.getElem?_range (by simpa using hp)]
    rfl
  refine ⟨?_, ?_, ?_, ?_⟩
  · intro p hp
    have hle := max_location_ge locs p hp
    rw [hget p (by omega)]
    simp [expected_ref, (hk p).mpr hp]
  · intro p hp hrank
    have hlt : p < res.length := by
      by_contra hge
      have hmono := free_below_mono specific res.length (p - res.length)
      have e : res.length + (p - res.length) = p := by omega
      rw [e, hfb, hfb] at hmono
      rw [hfb] at h4
      omega
    have hz : ¬ specific.count p > 0 := fun hx => hp ((hk p).mp hx)
    rw [hget p hlt]
    simp only [expected_ref, hz, if_false, hfb]
    rw [List.getD_eq_getElem?_getD, List.getElem?_eq_getElem hrank]
    rfl
  · intro p hp hrank hle
    have hz : ¬ specific.count p > 0 := fun hx => hp ((hk p).mp hx)
    rw [hget p (by omega)]
    simp only [expected_ref, hz, if_false, hfb]
    rw [List.getD_eq_default _ _ hrank]
  · rw [← hfb]
    exact h4


theorem helper_of_input_get {s k loc : Nat} {es : List (Nat × subpass_usage_type)}
    {u : subpass_usage_type} (hnd : (input_locations es).Nodup) (hmem : (k, u) ∈ es)
    (hloc : input_location_of u = some loc) :
    (helper_of s es).mSpecificInputLocations.get loc = input_ref k := by
  unfold location_map.get
  rw [lookup_of_mem_nodup _ loc (input_ref k)]
  · rfl
  · rw [helper_of_input_keys]
    exact List.nodup_reverse.mpr hnd
  · simp only [helper_of, List.mem_reverse, List.mem_filterMap]
    exact ⟨(k, u), hmem, by simp [hloc]⟩

theorem helper_of_color_get {s k loc : Nat} {es : List (Nat × subpass_usage_type)}
    {u : subpass_usage_type} (hnd : (color_locations es).Nodup) (hmem : (k, u) ∈ es)
    (hloc : color_location_of u = some loc) :
    (helper_of s es).mSpecificColorLocations.get loc = color_ref k := by
  unfold location_map.get
  rw [lookup_of_mem_nodup _ loc (color_ref k)]
  · rfl
  · rw [helper_of_color_keys]
    exact List.nodup_reverse.mpr hnd
  · simp only [helper_of, List.mem_reverse, List.mem_filterMap]
    exact ⟨(k, u), hmem, by simp [hloc]⟩

/-- The two loops behind the input and the colour references of a subpass of an object
that `create` returns. -/
theorem ordered_refs_of_create {atts : List attachment}
    {aSync : Option (renderpass_sync → renderpass_sync)} {r : renderpass_t}
    (h : create atts aSync none = Except.ok r) {s : Nat} {b : subpass_data}
    (hb : r.mSubpassData[s]? = some b) :
    (input_locations (usages_in_subpass atts s)).Nodup ∧
    (color_locations (usages_in_subpass atts s)).Nodup ∧
    (∃ fuel, fill_ordered 266
      (helper_of s (usages_in_subpass atts s)).mSpecificInputLocations
      (max_location (input_locations (usages_in_subpass atts s))) fuel 0
      (queued_input_refs (usages_in_subpass atts s)) []
        = Except.ok b.mOrderedInputAttachmentRefs) ∧
    (∃ fuel, fill_ordered 282
      (helper_of s (usages_in_subpass atts s)).mSpecificColorLocations
      (max_location (color_locations (usages_in_subpass atts s))) fuel 0
      (queued_color_refs (usages_in_subpass atts s)) []
        = Except.ok b.mOrderedColorAttachmentRefs) := by
  obtain ⟨hlt, hfill⟩ := subpass_data_of_index h hb
  obtain ⟨-, hadm, -⟩ := create_ok h
  obtain ⟨hin, hcol, -⟩ := fill_subpass_data_ok hfill
  exact ⟨(hadm.2 s hlt).1, (hadm.2 s hlt).2, ⟨_, hin⟩,
    ⟨_, fill_ordered_color_fst _ _ _ _ _ _ _ _ _ _ _ hcol⟩⟩

/-- C6: in an object that `create` returns, an attachment whose usage in a subpass
declares the explicit input (colour) location `loc` is referenced at index `loc` of the
input (colour) references of that subpass. -/
theorem C6_explicit_location_kept (atts : List attachment)
    (aSync : Option (renderpass_sync → renderpass_sync)) (r : renderpass_t)
    (h : create atts aSync none = Except.ok r) (k s loc : Nat) (a : attachment)
    (u : subpass_usage_type) (b : subpass_data) (ha : atts[k]? = some a)
    (hu : a.mSubpassUsages[s]? = some u) (hb : r.mSubpassData[s]? = some b) :
    (u.as_input = true → u.mInputLocation = some loc →
      b.mOrderedInputAttachmentRefs[loc]? = some (input_ref k)) ∧
    (u.as_color = true → u.mColorLocation = some loc →
      b.mOrderedColorAttachmentRefs[loc]? = some (color_ref k)) := by
  obtain ⟨ndi, ndc, ⟨fi, hi⟩, ⟨fc, hc⟩⟩ := ordered_refs_of_create h hb
  have hmem := mem_usages_in_subpass ha hu
  constructor
  · intro h1 h2
    have hloc : input_location_of u = some loc := by simp [input_location_of, h1, h2]
    have hin : loc ∈ input_locations (usages_in_subpass atts s) :=
      List.mem_filterMap.mpr ⟨(k, u), hmem, hloc⟩
    rw [(fill_ordered_getElem 266 _ _ _ (helper_of_input_count s _) fi _ hi).1 loc hin,
      helper_of_input_get ndi hmem hloc]
  · intro h1 h2
    have hloc : color_location_of u = some loc := by simp [color_location_of, h1, h2]
    have hin : loc ∈ color_locations (usages_in_subpass atts s) :=
      List.mem_filterMap.mpr ⟨(k, u), hmem, hloc⟩
    rw [(fill_ordered_getElem 282 _ _ _ (helper_of_color_count s _) fc _ hc).1 loc hin,
      helper_of_color_get ndc hmem hloc]

/-- C6, on the sample declarations: attachment 1 declares colour location 0 and is
referenced at index 0, although attachment 0 comes first without a location. -/
theorem C6_explicit_location_kept_witness :
    sample_subpass_data.mOrderedColorAttachmentRefs[0]? = some (color_ref 1) :=
  (C6_explicit_location_kept sample_attachments none
    (compiled (create sample_attachments none none)) (by decide) 1 0 0
    (sample_attachment [color_usage (some 0)]) (color_usage (some 0))
    sample_subpass_data rfl rfl (by decide)).2 rfl rfl

/-- C7: in an object that `create` returns, the input references and the colour references
of a subpass are `max (M + 1) (e + u)` many, which is `M + 1` plus the overflow
`max 0 (u - ((M + 1) - e))`; here `e` is the number of explicit locations of the category
in the subpass, `M` their maximum (`-1` without any) and `u` the number of usages of the
category without a location. -/
theorem C7_ordered_refs_length (atts : List attachment)
    (aSync : Option (renderpass_sync → renderpass_sync)) (r : renderpass_t)
    (h : create atts aSync none = Except.ok r) (s : Nat) (b : subpass_data)
    (hb : r.mSubpassData[s]? = some b) :
    ((b.mOrderedInputAttachmentRefs.length : Int)
        = max (max_location (input_locations (usages_in_subpass atts s)) + 1)
            (((input_locations (usages_in_subpass atts s)).length : Int)
              + (queued_input_refs (usages_in_subpass atts s)).length) ∧
      (b.mOrderedInputAttachmentRefs.length : Int)
        = (max_location (input_locations (usages_in_subpass atts s)) + 1)
          + max 0 (((queued_input_refs (usages_in_subpass atts s)).length : Int)
            - ((max_location (input_locations (usages_in_subpass atts s)) + 1)
              - (input_locations (usages_in_subpass atts s)).length))) ∧
    ((b.mOrderedColorAttachmentRefs.length : Int)
        = max (max_location (color_locations (usages_in_subpass atts s)) + 1)
            (((color_locations (usages_in_subpass atts s)).length : Int)
              + (queued_color_refs (usages_in_subpass atts s)).length) ∧
      (b.mOrderedColorAttachmentRefs.length : Int)
        = (max_location (color_locations (usages_in_subpass atts s)) + 1)
          + max 0 (((queued_color_refs (usages_in_subpass atts s)).length : Int)
            - ((max_location (color_locations (usages_in_subpass atts s)) + 1)
              - (color_locations (usages_in_subpass atts s)).length))) := by
  obtain ⟨ndi, ndc, ⟨fi, hi⟩, ⟨fc, hc⟩⟩ := ordered_refs_of_create h hb
  have li := fill_ordered_length 266 _ _ _ (helper_of_input_count s _) ndi fi _ hi
  have lc := fill_ordered_length 282 _ _ _ (helper_of_color_count s _) ndc fc _ hc
  refine ⟨⟨li, ?_⟩, ⟨lc, ?_⟩⟩
  · rw [li]
    rcases le_total (max_location (input_locations (usages_in_subpass atts s)) + 1)
      (((input_locations (usages_in_subpass atts s)).length : Int)
        + (queued_input_refs (usages_in_subpass atts s)).length) with hle | hle
    · rw [max_eq_right hle, max_eq_right (by omega)]
      omega
    · rw [max_eq_left hle, max_eq_left (by omega)]
      omega
  · rw [lc]
    rcases le_total (max_location (color_locations (usages_in_subpass atts s)) + 1)
      (((color_locations (usages_in_subpass atts s)).length : Int)
        + (queued_color_refs (usages_in_subpass atts s)).length) with hle | hle
    · rw [max_eq_right hle, max_eq_right (by omega)]
      omega
    · rw [max_eq_left hle, max_eq_left (by omega)]
      omega


/-- C7, on the sample declarations: one explicit colour location, 0, and one colour usage
without a location give two colour references. -/
theorem C7_ordered_refs_length_witness :
    (sample_subpass_data.mOrderedColorAttachmentRefs.length : Int)
      = max (max_location (color_locations (usages_in_subpass sample_attachments 0)) + 1)
          (((color_locations (usages_in_subpass sample_attachments 0)).length : Int)
            + (queued_color_refs (usages_in_subpass sample_attachments 0)).length) :=
  (C7_ordered_refs_length sample_attachments none
    (compiled (create sample_attachments none none)) (by decide) 0 sample_subpass_data
    (by decide)).2.1

/-- C8: in an object that `create` returns, for the input and for the colour references of
a subpass: the usages without a location are all placed; a position that no explicit
location claims and that has fewer free positions below it than there are such usages
holds the reference of the usage with that rank in attachment order; any other position
up to the maximum explicit location that no explicit location claims holds the "unused"
reference. -/
theorem C8_queued_take_lowest_free (atts : List attachment)
    (aSync : Option (renderpass_sync → renderpass_sync)) (r : renderpass_t)
    (h : create atts aSync none = Except.ok r) (s : Nat) (b : subpass_data)
    (hb : r.mSubpassData[s]? = some b) :
    ((queued_input_refs (usages_in_subpass atts s)).length
        ≤ free_positions_below (input_locations (usages_in_subpass atts s))
            b.mOrderedInputAttachmentRefs.length ∧
      (∀ p, p ∉ input_locations (usages_in_subpass atts s) →
        free_positions_below (input_locations (usages_in_subpass atts s)) p
          < (queued_input_refs (usages_in_subpass atts s)).length →
        b.mOrderedInputAttachmentRefs[p]?
          = (queued_input_refs (usages_in_subpass atts s))[free_positions_below
              (input_locations (usages_in_subpass atts s)) p]?) ∧
      (∀ p, p ∉ input_locations (usages_in_subpass atts s) →
        (queued_input_refs (usages_in_subpass atts s)).length
          ≤ free_positions_below (input_locations (usages_in_subpass atts s)) p →
        (p : Int) ≤ max_location (input_locations (usages_in_subpass atts s)) →
        b.mOrderedInputAttachmentRefs[p]? = some unusedAttachmentRef)) ∧
    ((queued_color_refs (usages_in_subpass atts s)).length
        ≤ free_positions_below (color_locations (usages_in_subpass atts s))
            b.mOrderedColorAttachmentRefs.length ∧
      (∀ p, p ∉ color_locations (usages_in_subpass atts s) →
        free_positions_below (color_locations (usages_in_subpass atts s)) p
          < (queued_color_refs (usages_in_subpass atts s)).length →
        b.mOrderedColorAttachmentRefs[p]?
          = (queued_color_refs (usages_in_subpass atts s))[free_positions_below
              (color_locations (usages_in_subpass atts s)) p]?) ∧
      (∀ p, p ∉ color_locations (usages_in_subpass atts s) →
        (queued_color_refs (usages_in_subpass atts s)).length
          ≤ free_positions_below (color_locations (usages_in_subpass atts s)) p →
        (p : Int) ≤ max_location (color_locations (usages_in_subpass atts s)) →
        b.mOrderedColorAttachmentRefs[p]? = some unusedAttachmentRef)) := by
  obtain ⟨-, -, ⟨fi, hi⟩, ⟨fc, hc⟩⟩ := ordered_refs_of_create h hb
  obtain ⟨-, i2, i3, i4⟩ :=
    fill_ordered_getElem 266 _ _ _ (helper_of_input_count s _) fi _ hi
  obtain ⟨-, c2, c3, c4⟩ :=
    fill_ordered_getElem 282 _ _ _ (helper_of_color_count s _) fc _ hc
  exact ⟨⟨i4, i2, i3⟩, ⟨c4, c2, c3⟩⟩

/-- C8, on the sample declarations: position 1 is the lowest position that no explicit
colour location claims, and it holds the first colour usage without a location. -/
theorem C8_queued_take_lowest_free_witness :
    sample_subpass_data.mOrderedColorAttachmentRefs[1]?
      = (queued_color_refs (usages_in_subpass sample_attachments 0))[free_positions_below
          (color_locations (usages_in_subpass sample_attachments 0)) 1]? :=
  (C8_queued_take_lowest_free sample_attachments none
    (compiled (create sample_attachments none none)) (by decide) 0 sample_subpass_data
    (by decide)).2.2.1 1 (by decide) (by decide)

/-! ## Claims on the layouts -/

theorem final_layout_presentable (a : attachment)
    (h : a.mStoreOperation = on_store.store_in_presentable_format) :
    final_layout a = ImageLayout.ePresentSrcKHR := by
  simp [final_layout, attachment.shall_be_presentable, h]

/-- C9: in an object that `create` returns, the description of an attachment whose store
operation is store-as-presentable has the presentation layout as its final layout,
whatever its usages and usage hints. -/
theorem C9_presentable_final_layout (atts : List attachment)
    (aSync : Option (renderpass_sync → renderpass_sync)) (r : renderpass_t)
    (h : create atts aSync none = Except.ok r) (k : Nat) (a : attachment)
    (ha : atts[k]? = some a)
    (hs : a.mStoreOperation = on_store.store_in_presentable_format) :
    ∃ d, r.mAttachmentDescriptions[k]? = some d ∧
      d.finalLayout = ImageLayout.ePresentSrcKHR := by
  obtain ⟨-, -, hd, -⟩ := create_ok h
  refine ⟨attachment_description a, ?_, ?_⟩
  · rw [hd, List.getElem?_map, ha]
    rfl
  · exact final_layout_presentable a hs

/-- C9, on an attachment that is stored as presentable and whose usage hint after the pass
names both sampled and storage usage. -/
theorem C9_presentable_final_layout_witness :
    ∃ d, (compiled (create [sample_presentable_attachment] none none)).mAttachmentDescriptions[0]?
        = some d ∧
      d.finalLayout = ImageLayout.ePresentSrcKHR :=
  C9_presentable_final_layout [sample_presentable_attachment] none
    (compiled (create [sample_presentable_attachment] none none)) (by decide) 0
    sample_presentable_attachment rfl rfl


/-! ## The subpass dependencies -/

/-- A 32-bit subpass index survives the round trip through `int` that `create` makes. -/
theorem vk_id_of_to_int (u : Nat) (hu : u < 4294967296) :
    (if to_int u = renderpass_sync.sExternal then VK_SUBPASS_EXTERNAL
      else int_to_uint32 (to_int u)) = u := by
  unfold to_int int_to_uint32 renderpass_sync.sExternal VK_SUBPASS_EXTERNAL
  split <;> split <;> omega

theorem syncBetween_ids (p n : Nat) (hp : p < 4294967296) (hn : n < 4294967296) :
    (syncBetween p n).source_vk_subpass_id = p ∧
      (syncBetween p n).destination_vk_subpass_id = n :=
  ⟨vk_id_of_to_int p hp, vk_id_of_to_int n hn⟩

theorem syncBefore_ids :
    (syncBefore 0).source_vk_subpass_id = VK_SUBPASS_EXTERNAL ∧
      (syncBefore 0).destination_vk_subpass_id = 0 := by
  decide

theorem syncAfter_ids (l : Nat) (hl : l < 4294967296) :
    (syncAfter l).source_vk_subpass_id = l ∧
      (syncAfter l).destination_vk_subpass_id = VK_SUBPASS_EXTERNAL :=
  ⟨vk_id_of_to_int l hl, rfl⟩

/-- The loop over the inner edges returns one more dependency per subpass pair when the
hook keeps the subpass identifiers. -/
theorem dependencies_between_succeeds (aSync : Option (renderpass_sync → renderpass_sync))
    (hs : sync_keeps_subpass_ids aSync) :
    ∀ (l : List Nat) (deps : List SubpassDependency),
      (∀ i ∈ l, 1 ≤ i ∧ i < 4294967296) →
      ∃ res, dependencies_between aSync l deps = Except.ok res ∧
        res.length = deps.length + l.length := by
  intro l
  induction l with
  | nil => intro deps _; exact ⟨deps, rfl, by simp⟩
  | cons i rest ih =>
    intro deps hl
    obtain ⟨h1, h2⟩ := hl i (by simp)
    obtain ⟨e1, e2⟩ := syncBetween_ids (i - 1) i (by omega) h2
    obtain ⟨k1, k2⟩ := hs (syncBetween (i - 1) i)
    obtain ⟨res, hr, hlen⟩ := ih (deps ++ [addDependency (apply_sync aSync
      (syncBetween (i - 1) i))]) (fun j hj => hl j (by simp [hj]))
    refine ⟨res, ?_, by simp at hlen ⊢; omega⟩
    simp only [dependencies_between]
    rw [if_neg (by rw [k1, e1]; simp), if_neg (by rw [k2, e2]; simp)]
    exact hr

/-- The dependencies are synthesized for every subpass count from 1 up to the largest
32-bit value when the hook keeps the subpass identifiers. -/
theorem subpass_dependencies_succeeds (S : Nat)
    (aSync : Option (renderpass_sync → renderpass_sync)) (h1 : 1 ≤ S) (h2 : S < 4294967296)
    (hs : sync_keeps_subpass_ids aSync) :
    ∃ deps, subpass_dependencies S aSync = Except.ok deps := by
  have hlast : to_uint32 (size_t_sub S 1) = S - 1 := by
    unfold to_uint32 size_t_sub
    omega
  obtain ⟨b1, b2⟩ := hs (syncBefore 0)
  obtain ⟨a1, a2⟩ := hs (syncAfter (S - 1))
  obtain ⟨res, hr, hlen⟩ := dependencies_between_succeeds aSync hs
    ((List.range (S - 1)).map (fun k => k + 1))
    [addDependency (apply_sync aSync (syncBefore 0))] (by
      intro i hi
      simp only [List.mem_map, List.mem_range] at hi
      obtain ⟨k, hk, rfl⟩ := hi
      omega)
  refine ⟨res ++ [addDependency (apply_sync aSync (syncAfter (S - 1)))], ?_⟩
  unfold subpass_dependencies
  rw [hlast]
  unfold subpass_dependencies_upto
  simp only
  rw [if_neg (by rw [b1, syncBefore_ids.1]; simp), if_neg (by rw [b2, syncBefore_ids.2]; simp),
    if_neg (by omega)]
  simp only [hr]
  rw [if_neg (by rw [a1, (syncAfter_ids (S - 1) (by omega)).1]; simp),
    if_neg (by rw [a2, (syncAfter_ids (S - 1) (by omega)).2]; simp),
    if_neg (by simp at hlen ⊢; omega)]

/-- The dependencies that `create` synthesizes are one more than the subpasses. -/
theorem subpass_dependencies_upto_length (S last : Nat)
    (aSync : Option (renderpass_sync → renderpass_sync)) :
    match subpass_dependencies_upto S last aSync with
    | Except.ok deps => deps.length = S + 1
    | Except.error _ => True := by
  unfold subpass_dependencies_upto
  simp only
  by_cases c1 : (apply_sync aSync (syncBefore 0)).source_vk_subpass_id ≠ VK_SUBPASS_EXTERNAL
  · rw [if_pos c1]
    trivial
  rw [if_neg c1]
  by_cases c2 : (apply_sync aSync (syncBefore 0)).destination_vk_subpass_id ≠ 0
  · rw [if_pos c2]
    trivial
  rw [if_neg c2]
  by_cases c3 : last = 4294967295
  · rw [if_pos c3]
    trivial
  rw [if_neg c3]
  cases hd : dependencies_between aSync ((List.range last).map (fun k => k + 1))
      [addDependency (apply_sync aSync (syncBefore 0))] with
  | error e => trivial
  | ok ds =>
    simp only
    by_cases c4 : (apply_sync aSync (syncAfter last)).source_vk_subpass_id ≠ last
    · rw [if_pos c4]
      trivial
    rw [if_neg c4]
    by_cases c5 : (apply_sync aSync (syncAfter last)).destination_vk_subpass_id
        ≠ VK_SUBPASS_EXTERNAL
    · rw [if_pos c5]
      trivial
    rw [if_neg c5]
    by_cases c6 : (ds ++ [addDependency (apply_sync aSync (syncAfter last))]).length ≠ S + 1
    · rw [if_pos c6]
      trivial
    rw [if_neg c6]
    exact not_not.mp c6

theorem subpass_dependencies_length {S : Nat}
    {aSync : Option (renderpass_sync → renderpass_sync)} {deps : List SubpassDependency}
    (h : subpass_dependencies S aSync = Except.ok deps) : deps.length = S + 1 := by
  have := subpass_dependencies_upto_length S (to_uint32 (size_t_sub S 1)) aSync
  unfold subpass_dependencies at h
  rw [h] at this
  exact this


/-! ## Creation succeeds on valid attachment lists -/

/-- C1: for every valid attachment list, whose attachments all have the subpass count S
of the first one, and every sync hook that keeps the subpass identifiers, `create`
returns an object with exactly S subpass descriptions, S per-subpass reference tables and
S + 1 dependency edges. -/
theorem C1_subpass_and_dependency_counts (atts : List attachment)
    (aSync : Option (renderpass_sync → renderpass_sync)) (hv : valid_attachments atts)
    (hs : sync_keeps_subpass_ids aSync) :
    ∃ r, create atts aSync none = Except.ok r ∧
      r.mSubpasses.length = num_subpasses_first atts ∧
      r.mSubpassData.length = num_subpasses_first atts ∧
      r.mSubpassDependencies.length = num_subpasses_first atts + 1 := by
  obtain ⟨hne, h1, h2, hadm, hds⟩ := hv
  have hex : ∃ r, create atts aSync none = Except.ok r := by
    cases atts with
    | nil => exact absurd rfl hne
    | cons front rest =>
      simp only [num_subpasses_first] at h1 h2 hadm hds
      obtain ⟨st, hst⟩ := process_attachments_succeeds (front :: rest) []
        { mAttachmentDescriptions := [], mClearValues := [],
          subpasses := (List.range front.mSubpassUsages.length).map subpass_desc_helper.init }
        (processed_nil _) (by simpa using hadm)
      obtain ⟨⟨-, -, p3, p4⟩, -⟩ := process_attachments_ok (front :: rest) [] _ st hst
        (processed_nil _) (admissible_nil _)
      obtain ⟨data, hdata⟩ := fill_all_subpass_data_succeeds st.subpasses (by
        intro sp hsp
        obtain ⟨s, hs1⟩ := List.mem_iff_getElem?.mp hsp
        have hlt : s < front.mSubpassUsages.length := by
          rw [← p3]
          exact (List.getElem?_eq_some.mp hs1).1
        rw [p4 s hlt] at hs1
        simp only [Option.some.injEq] at hs1
        subst hs1
        exact fill_subpass_data_helper_of_succeeds s _ (hds s hlt))
      obtain ⟨deps, hdeps⟩ := subpass_dependencies_succeeds front.mSubpassUsages.length aSync
        h1 h2 hs
      cases hc : create (front :: rest) aSync none with
      | ok r => exact ⟨r, rfl⟩
      | error e => simp [create, hst, hdata, hdeps] at hc
  obtain ⟨r, hr⟩ := hex
  obtain ⟨-, -, -, -, e5, e6, e7, -, -⟩ := create_ok hr
  exact ⟨r, hr, by rw [e5, List.length_map, e7], e7, subpass_dependencies_length e6⟩


/-- C1, on the sample declarations without a sync hook. -/
theorem C1_subpass_and_dependency_counts_witness :
    ∃ r, create sample_attachments none none = Except.ok r ∧
      r.mSubpasses.length = num_subpasses_first sample_attachments ∧
      r.mSubpassData.length = num_subpasses_first sample_attachments ∧
      r.mSubpassDependencies.length = num_subpasses_first sample_attachments + 1 :=
  C1_subpass_and_dependency_counts sample_attachments none (by decide)
    (fun _ => ⟨rfl, rfl⟩)

/-! ## The clear values of a usage that is colour and depth/stencil at once -/

/-- C2, at one attachment whose only usage entry is colour and depth/stencil at once:
the loop of lines 187-196 pushes a colour and a depth/stencil clear value, line 198 a
third one, and the assertion of line 200 ends the call. -/
theorem C2_clear_values_not_aligned :
    (fill_clear_values (sample_attachment [color_and_depth_stencil_usage]) 1 []).length = 3 ∧
    create [sample_attachment [color_and_depth_stencil_usage]] none none
      = Except.error (create_error.assertion_failed 200) := by
  decide

/-! ## Device queues: sharing one queue, failure, and the ledger -/

theorem find_in_family_single (ledger : List device_queue) (familyIndex : Nat)
    (qis : List Nat) :
    find_in_family device_queue_selection_strategy.prefer_everything_on_single_queue ledger
        familyIndex qis
      = ((qis.map (fun qi => (familyIndex, qi))).find?
          (fun p => already_in_use ledger p.1 p.2)).map (fun p => (p.1, 0)) := by
  induction qis with
  | nil => simp [find_in_family]
  | cons qi rest ih =>
    simp only [find_in_family, List.map_cons, List.find?_cons]
    by_cases h : already_in_use ledger familyIndex qi = true
    · simp [h]
    · simp [h, ih]

theorem find_indices_single (ledger : List device_queue) (families : List queue_family) :
    find_indices device_queue_selection_strategy.prefer_everything_on_single_queue ledger
        families
      = ((enumerate_pairs families).find?
          (fun p => already_in_use ledger p.1 p.2)).map (fun p => (p.1, 0)) := by
  induction families with
  | nil => simp [find_indices, enumerate_pairs]
  | cons family rest ih =>
    simp only [find_indices, enumerate_pairs, List.find?_append, find_in_family_single, ih]
    cases ((List.range family.queueCount).map (fun qi => (family.index, qi))).find?
      (fun p => already_in_use ledger p.1 p.2) <;> simp

/-- C11: under prefer_everything_on_single_queue, when the list of families is not empty
and some enumerated (family, queue index) pair is already in the ledger, `prepare`
succeeds and binds the family of the first such pair in enumeration order together with
queue index 0; and whenever `prepare` binds a queue under this strategy, its queue index
is 0. -/
theorem C11_prepare_single_queue (families : List queue_family)
    (ledger : List device_queue) :
    (families ≠ [] →
      (∃ p ∈ enumerate_pairs families, already_in_use ledger p.1 p.2 = true) →
      ∃ q ledger1 p,
        device_queue.prepare families
          device_queue_selection_strategy.prefer_everything_on_single_queue ledger
            = some (q, ledger1) ∧
        (enumerate_pairs families).find? (fun p => already_in_use ledger p.1 p.2) = some p ∧
        q.mQueueFamilyIndex = p.1 ∧ q.mQueueIndex = 0) ∧
    (∀ q ledger1,
      device_queue.prepare families
        device_queue_selection_strategy.prefer_everything_on_single_queue ledger
          = some (q, ledger1) → q.mQueueIndex = 0) := by
  constructor
  · intro hne hused
    obtain ⟨p0, hp0, hp0used⟩ := hused
    have hsome : ((enumerate_pairs families).find?
        (fun p => already_in_use ledger p.1 p.2)).isSome = true := by
      rw [List.find?_isSome]
      exact ⟨p0, hp0, hp0used⟩
    obtain ⟨p, hp⟩ := Option.isSome_iff_exists.mp hsome
    cases families with
    | nil => exact absurd rfl hne
    | cons first rest =>
      refine ⟨⟨p.1, 0, float32.half, none⟩, ledger ++ [⟨p.1, 0, float32.half, none⟩], p,
        ?_, hp, rfl, rfl⟩
      simp only [device_queue.prepare, find_indices_single, hp, Option.map_some',
        Option.getD_some]
  · intro q ledger1 h
    cases families with
    | nil => simp [device_queue.prepare] at h
    | cons first rest =>
      simp only [device_queue.prepare, find_indices_single, Option.some.injEq,
        Prod.mk.injEq] at h
      rw [← h.1]
      cases (enumerate_pairs (first :: rest)).find?
        (fun p => already_in_use ledger p.1 p.2) <;> rfl

/-- C11, at the ledger {(1,1)} and the families 0 and 1 with two queues each: the pair
(1,1) is the first enumerated pair in the ledger, and family 1 is bound with index 0. -/
theorem C11_prepare_single_queue_witness :
    (∃ q ledger1 p,
      device_queue.prepare [⟨0, 2⟩, ⟨1, 2⟩]
        device_queue_selection_strategy.prefer_everything_on_single_queue
        [⟨1, 1, float32.half, none⟩] = some (q, ledger1) ∧
      (enumerate_pairs [⟨0, 2⟩, ⟨1, 2⟩]).find?
        (fun p => already_in_use [⟨1, 1, float32.half, none⟩] p.1 p.2) = some p ∧
      q.mQueueFamilyIndex = p.1 ∧ q.mQueueIndex = 0) ∧
    (⟨1, 0, float32.half, none⟩ : device_queue).mQueueIndex = 0 :=
  ⟨(C11_prepare_single_queue [⟨0, 2⟩, ⟨1, 2⟩] [⟨1, 1, float32.half, none⟩]).1 (by decide)
      ⟨(1, 1), by decide, by decide⟩,
    (C11_prepare_single_queue [⟨0, 2⟩, ⟨1, 2⟩] [⟨1, 1, float32.half, none⟩]).2
      ⟨1, 0, float32.half, none⟩
      [⟨1, 1, float32.half, none⟩, ⟨1, 0, float32.half, none⟩] (by decide)⟩

/-- C12: `prepare` ends with the `throw` of line 14 exactly when the list of matching
families is empty, and the ledger after such a call is the ledger before it. -/
theorem C12_prepare_fails_iff_no_family (families : List queue_family)
    (aSelectionStrategy : device_queue_selection_strategy) (ledger : List device_queue) :
    (device_queue.prepare families aSelectionStrategy ledger = none ↔ families = []) ∧
    (families = [] →
      device_queue.ledger_after families aSelectionStrategy ledger = ledger) := by
  constructor
  · cases families with
    | nil => simp [device_queue.prepare]
    | cons first rest => simp [device_queue.prepare]
  · intro h
    subst h
    rfl

/-- C12, at an empty list of families and the ledger {(0,0)}, and at one family. -/
theorem C12_prepare_fails_iff_no_family_witness :
    device_queue.prepare [] device_queue_selection_strategy.prefer_separate_queues
      [⟨0, 0, float32.half, none⟩] = none ∧
    device_queue.ledger_after [] device_queue_selection_strategy.prefer_separate_queues
      [⟨0, 0, float32.half, none⟩] = [⟨0, 0, float32.half, none⟩] ∧
    device_queue.prepare [⟨0, 1⟩] device_queue_selection_strategy.prefer_separate_queues
      [⟨0, 0, float32.half, none⟩] ≠ none :=
  ⟨(C12_prepare_fails_iff_no_family [] device_queue_selection_strategy.prefer_separate_queues
      [⟨0, 0, float32.half, none⟩]).1.mpr rfl,
    (C12_prepare_fails_iff_no_family [] device_queue_selection_strategy.prefer_separate_queues
      [⟨0, 0, float32.half, none⟩]).2 rfl,
    fun h => absurd ((C12_prepare_fails_iff_no_family [⟨0, 1⟩]
      device_queue_selection_strategy.prefer_separate_queues
      [⟨0, 0, float32.half, none⟩]).1.mp h) (by decide)⟩

/-- C13: a call of `prepare` that returns a queue leaves the ledger as it was and appends
exactly one entry, the returned queue, with priority 0.5 and no resolved handle; and after
any call, failed or not, the ledger before the call is a prefix of the ledger after it,
which is longer by at most one entry. -/
theorem C13_ledger_append_only (families : List queue_family)
    (aSelectionStrategy : device_queue_selection_strategy) (ledger : List device_queue) :
    (∀ q ledger1, device_queue.prepare families aSelectionStrategy ledger = some (q, ledger1) →
      ledger1 = ledger ++ [q] ∧ q.mPriority = float32.half ∧ q.mQueue = none ∧
      device_queue.ledger_after families aSelectionStrategy ledger = ledger ++ [q]) ∧
    ledger <+: device_queue.ledger_after families aSelectionStrategy ledger ∧
    (device_queue.ledger_after families aSelectionStrategy ledger).length
      ≤ ledger.length + 1 := by
  cases families with
  | nil =>
    refine ⟨?_, ?_, ?_⟩
    · intro q ledger1 h
      simp [device_queue.prepare] at h
    · exact List.prefix_refl _
    · simp [device_queue.ledger_after, device_queue.prepare]
  | cons first rest =>
    refine ⟨?_, ?_, ?_⟩
    · intro q ledger1 h
      simp only [device_queue.prepare, Option.some.injEq, Prod.mk.injEq] at h
      obtain ⟨h1, h2⟩ := h
      subst h1
      refine ⟨h2.symm, rfl, rfl, ?_⟩
      simp [device_queue.ledger_after, device_queue.prepare]
    · simp [device_queue.ledger_after, device_queue.prepare]
    · simp [device_queue.ledger_after, device_queue.prepare]

/-- C13, at the ledger {(0,0)} and one family 0 with two queues. -/
theorem C13_ledger_append_only_witness :
    ([⟨0, 0, float32.half, none⟩, ⟨0, 1, float32.half, none⟩] : List device_queue)
        = [⟨0, 0, float32.half, none⟩] ++ [⟨0, 1, float32.half, none⟩] ∧
      (⟨0, 1, float32.half, none⟩ : device_queue).mPriority = float32.half ∧
      (⟨0, 1, float32.half, none⟩ : device_queue).mQueue = none ∧
      device_queue.ledger_after [⟨0, 2⟩] device_queue_selection_strategy.prefer_separate_queues
        [⟨0, 0, float32.half, none⟩]
        = [⟨0, 0, float32.half, none⟩] ++ [⟨0, 1, float32.half, none⟩] :=
  (C13_ledger_append_only [⟨0, 2⟩] device_queue_selection_strategy.prefer_separate_queues
    [⟨0, 0, float32.half, none⟩]).1 ⟨0, 1, float32.half, none⟩
    [⟨0, 0, float32.half, none⟩, ⟨0, 1, float32.half, none⟩] (by decide)

/-! ## Rejected attachment lists -/

theorem usage_as_preserve_rejects (k : Nat) (sp : subpass_desc_helper) (u : subpass_usage_type)
    (hp : u.as_preserve = true)
    (ho : u.as_input = true ∨ u.as_color = true ∨ u.as_depth_stencil = true) :
    usage_as_preserve k sp u = Except.error (create_error.assertion_failed 249) ∨
      usage_as_preserve k sp u = Except.error (create_error.assertion_failed 250) := by
  unfold usage_as_preserve
  rw [if_pos hp]
  by_cases h1 : (!(!u.has_resolve || u.as_color)) = true
  · rw [if_pos h1]
    exact Or.inl rfl
  · rw [if_neg h1]
    have h2 : (!(!u.as_input && !u.as_color && !u.as_depth_stencil)) = true := by
      rcases ho with h | h | h <;> simp [h]
    rw [if_pos h2]
    exact Or.inr rfl

/-- The body of the loop over the subpasses ends with an error on a usage entry that is
preserve and something else, whatever the helper it is given. -/
theorem process_usage_rejects_preserve_with_other (k i : Nat) (sp : subpass_desc_helper)
    (u : subpass_usage_type) (hp : u.as_preserve = true)
    (ho : u.as_input = true ∨ u.as_color = true ∨ u.as_depth_stencil = true) :
    ∃ e, process_usage k i sp u = Except.error e := by
  unfold process_usage
  cases usage_as_input k i sp u with
  | error e1 => exact ⟨e1, rfl⟩
  | ok spa =>
    simp only
    cases usage_as_color k i spa u with
    | error e2 => exact ⟨e2, rfl⟩
    | ok spb =>
      simp only
      cases usage_as_depth_stencil k spb u with
      | error e3 => exact ⟨e3, rfl⟩
      | ok spc =>
        simp only
        rcases usage_as_preserve_rejects k spc u hp ho with h | h
        · exact ⟨_, h⟩
        · exact ⟨_, h⟩

theorem usage_passes_assertions_preserve {u : subpass_usage_type}
    (hp : u.as_preserve = true)
    (ho : u.as_input = true ∨ u.as_color = true ∨ u.as_depth_stencil = true) :
    usage_passes_assertions u = false := by
  unfold usage_passes_assertions
  rcases ho with h | h | h <;> simp [hp, h]

/-- An attachment list that does not pass the checks of the loop over the attachments is
rejected with a `throw` or a failed assertion, whatever the hooks. -/
theorem create_rejects_inadmissible {atts : List attachment}
    (aSync : Option (renderpass_sync → renderpass_sync))
    (aAlter : Option (renderpass_t → renderpass_t))
    (h : ¬ admissible (num_subpasses_first atts) atts) :
    ∃ e, create atts aSync aAlter = Except.error e ∧ e.is_throw_or_assertion = true := by
  cases hc : create atts aSync aAlter with
  | error e =>
    refine ⟨e, rfl, ?_⟩
    rcases create_error_kind hc with hk | ⟨-, -, hadm, -⟩
    · exact hk
    · exact absurd hadm h
  | ok r =>
    exfalso
    obtain ⟨r0, h0⟩ := create_ok_of_hook hc
    obtain ⟨-, hadm, -⟩ := create_ok h0
    exact h hadm

/-- C14: when the usage entry of some attachment at some subpass sets the preserve flag
together with the input, the colour or the depth/stencil flag, `create` ends with an
error, a `throw` or a failed assertion, instead of an object, whatever the hooks; and the
loop body that processes such an entry (lines 203-252) ends with an error on it in every
state. -/
theorem C14_preserve_with_other_usage_rejected (atts : List attachment)
    (aSync : Option (renderpass_sync → renderpass_sync))
    (aAlter : Option (renderpass_t → renderpass_t)) (k s : Nat) (a : attachment)
    (u : subpass_usage_type) (ha : atts[k]? = some a) (hu : a.mSubpassUsages[s]? = some u)
    (hp : u.as_preserve = true)
    (ho : u.as_input = true ∨ u.as_color = true ∨ u.as_depth_stencil = true) :
    (∃ e, create atts aSync aAlter = Except.error e ∧ e.is_throw_or_assertion = true) ∧
    ∀ (attachmentIndex i : Nat) (sp : subpass_desc_helper),
      ∃ e, process_usage attachmentIndex i sp u = Except.error e := by
  refine ⟨create_rejects_inadmissible aSync aAlter ?_,
    fun attachmentIndex i sp => process_usage_rejects_preserve_with_other _ _ _ u hp ho⟩
  intro hadm
  have h1 := (hadm.1 a (List.getElem?_mem ha)).2.1 u (List.getElem?_mem hu)
  rw [usage_passes_assertions_preserve hp ho] at h1
  exact absurd h1 (by decide)

/-- C14, on one attachment whose only usage entry is depth/stencil and preserve. -/
theorem C14_preserve_with_other_usage_rejected_witness :
    (∃ e, create [sample_attachment [depth_stencil_and_preserve_usage]] none none
        = Except.error e ∧ e.is_throw_or_assertion = true) ∧
    ∀ (attachmentIndex i : Nat) (sp : subpass_desc_helper),
      ∃ e, process_usage attachmentIndex i sp depth_stencil_and_preserve_usage
        = Except.error e :=
  C14_preserve_with_other_usage_rejected [sample_attachment [depth_stencil_and_preserve_usage]]
    none none 0 0 (sample_attachment [depth_stencil_and_preserve_usage])
    depth_stencil_and_preserve_usage rfl rfl rfl (Or.inr (Or.inr rfl))

/-- C15: `create` throws on an empty attachment list; the loop body throws on an attachment
whose number of usage entries differs from that of the first attachment; and an attachment
list with such an attachment makes `create` end with an error, a `throw` or a failed
assertion, instead of an object, whatever the hooks. -/
theorem C15_empty_or_count_mismatch_rejected
    (aSync : Option (renderpass_sync → renderpass_sync))
    (aAlter : Option (renderpass_t → renderpass_t)) :
    create [] aSync aAlter = Except.error create_error.no_attachments ∧
    (∀ (S : Nat) (st : create_state) (a : attachment), a.mSubpassUsages.length ≠ S →
      process_attachment S st a = Except.error create_error.subpass_count_mismatch) ∧
    (∀ (atts : List attachment) (a : attachment), a ∈ atts →
      a.mSubpassUsages.length ≠ num_subpasses_first atts →
      ∃ e, create atts aSync aAlter = Except.error e ∧ e.is_throw_or_assertion = true) := by
  refine ⟨rfl, ?_, ?_⟩
  · intro S st a h
    unfold process_attachment
    simp only
    rw [if_pos h]
  · intro atts a ha hlen
    apply create_rejects_inadmissible
    intro hadm
    exact hlen (hadm.1 a ha).1

/-- C15, on an attachment with one usage entry followed by one with two. -/
theorem C15_empty_or_count_mismatch_rejected_witness :
    ∃ e, create [sample_attachment [color_usage none],
        sample_attachment [color_usage none, color_usage none]] none none = Except.error e ∧
      e.is_throw_or_assertion = true :=
  (C15_empty_or_count_mismatch_rejected none none).2.2
    [sample_attachment [color_usage none],
      sample_attachment [color_usage none, color_usage none]]
    (sample_attachment [color_usage none, color_usage none]) (by decide) (by decide)

/-! ## The inferred layouts -/

/-- The descriptions of an object that `create` returns are those of the attachments, in
order. -/
theorem description_of_create {atts : List attachment}
    {aSync : Option (renderpass_sync → renderpass_sync)} {r : renderpass_t}
    (h : create atts aSync none = Except.ok r) {k : Nat} {a : attachment}
    (ha : atts[k]? = some a) :
    r.mAttachmentDescriptions[k]? = some (attachment_description a) := by
  obtain ⟨-, -, hd, -⟩ := create_ok h
  rw [hd, List.getElem?_map, ha]
  rfl

/-- Lines 63-99 and 159-161 for a loaded attachment whose first usage is an input usage:
the colour flag of that usage overwrites the layout of the input flag, the depth/stencil
flag overwrites both. -/
theorem initial_layout_first_usage_input (a : attachment)
    (hl : a.mLoadOperation = on_load.load)
    (hi : a.get_first_color_depth_input.as_input = true) :
    initial_layout a =
      if a.get_first_color_depth_input.as_depth_stencil then
        ImageLayout.eDepthStencilAttachmentOptimal
      else if a.get_first_color_depth_input.as_color then ImageLayout.eColorAttachmentOptimal
      else ImageLayout.eShaderReadOnlyOptimal := by
  unfold initial_layout initial_layout_before_final initial_layout_from_first_usage
  simp only [hl, hi]
  cases a.get_first_color_depth_input.as_color <;>
    cases a.get_first_color_depth_input.as_depth_stencil <;> simp

/-- C17, as amended: for an attachment whose load operation is load and whose first
chronological colour/depth-stencil/input usage has the input flag set, the initial layout
in the description that `create` returns is depth-stencil-attachment-optimal when that
usage also has the depth/stencil flag, else colour-attachment-optimal when it also has the
colour flag, and shader-read-only when it has neither. -/
theorem C17_initial_layout_first_usage_input (atts : List attachment)
    (aSync : Option (renderpass_sync → renderpass_sync)) (r : renderpass_t)
    (h : create atts aSync none = Except.ok r) (k : Nat) (a : attachment)
    (ha : atts[k]? = some a) (hl : a.mLoadOperation = on_load.load)
    (hi : a.get_first_color_depth_input.as_input = true) :
    ∃ d, r.mAttachmentDescriptions[k]? = some d ∧
      d.initialLayout =
        if a.get_first_color_depth_input.as_depth_stencil then
          ImageLayout.eDepthStencilAttachmentOptimal
        else if a.get_first_color_depth_input.as_color then
          ImageLayout.eColorAttachmentOptimal
        else ImageLayout.eShaderReadOnlyOptimal :=
  ⟨attachment_description a, description_of_create h ha,
    initial_layout_first_usage_input a hl hi⟩

/-- C17 as amended, on a loaded attachment whose only usage is an input usage. -/
theorem C17_initial_layout_first_usage_input_witness :
    ∃ d, (compiled (create [sample_loaded_attachment [input_usage none]] none
        none)).mAttachmentDescriptions[0]? = some d ∧
      d.initialLayout =
        if (sample_loaded_attachment
            [input_usage none]).get_first_color_depth_input.as_depth_stencil then
          ImageLayout.eDepthStencilAttachmentOptimal
        else if (sample_loaded_attachment
            [input_usage none]).get_first_color_depth_input.as_color then
          ImageLayout.eColorAttachmentOptimal
        else ImageLayout.eShaderReadOnlyOptimal :=
  C17_initial_layout_first_usage_input [sample_loaded_attachment [input_usage none]] none
    (compiled (create [sample_loaded_attachment [input_usage none]] none none)) (by decide) 0
    (sample_loaded_attachment [input_usage none]) rfl rfl rfl

/-- C17 as stated fails: the attachment is loaded, its first (and only) usage has the input
flag and the colour flag, `create` returns an object, and the initial layout of its
description is colour-attachment-optimal, not shader-read-only. -/
theorem C17_counterexample :
    (sample_loaded_attachment [input_and_color_usage]).mLoadOperation = on_load.load ∧
    (sample_loaded_attachment [input_and_color_usage]).get_first_color_depth_input.as_input
      = true ∧
    ∃ r d, create [sample_loaded_attachment [input_and_color_usage]] none none = Except.ok r ∧
      r.mAttachmentDescriptions[0]? = some d ∧
      d.initialLayout = ImageLayout.eColorAttachmentOptimal ∧
      d.initialLayout ≠ ImageLayout.eShaderReadOnlyOptimal :=
  ⟨rfl, rfl, compiled (create [sample_loaded_attachment [input_and_color_usage]] none none),
    attachment_description (sample_loaded_attachment [input_and_color_usage]),
    by decide, by decide, by decide, by decide⟩

/-- Lines 112-157 for an attachment that is not presentable and has no usage hint after
the pass, in terms of the flags of its last usage. -/
theorem final_layout_last_usage (a : attachment) (hp : a.shall_be_presentable = false)
    (hh : a.mImageUsageHintAfter = none) :
    (a.get_last_color_depth_input.as_depth_stencil = true →
      final_layout a = ImageLayout.eDepthStencilAttachmentOptimal) ∧
    (a.get_last_color_depth_input.as_depth_stencil = false →
      a.get_last_color_depth_input.as_color = true →
      final_layout a = ImageLayout.eColorAttachmentOptimal) ∧
    (a.get_last_color_depth_input.as_depth_stencil = false →
      a.get_last_color_depth_input.as_color = false →
      a.get_last_color_depth_input.as_input = true →
      final_layout a = ImageLayout.eShaderReadOnlyOptimal) := by
  unfold final_layout
  simp only [hp, hh]
  refine ⟨?_, ?_, ?_⟩
  · intro h1
    simp [h1]
  · intro h1 h2
    simp [h1, h2]
  · intro h1 h2 h3
    simp [h1, h2, h3]

/-- C18: for an attachment that is not presentable and has no usage hint after the pass,
the final layout in the description that `create` returns follows the last chronological
colour/depth-stencil/input usage: depth-stencil-attachment-optimal if that usage is
depth/stencil; otherwise colour-attachment-optimal if it is colour; otherwise
shader-read-only if it is input. -/
theorem C18_final_layout_last_usage (atts : List attachment)
    (aSync : Option (renderpass_sync → renderpass_sync)) (r : renderpass_t)
    (h : create atts aSync none = Except.ok r) (k : Nat) (a : attachment)
    (ha : atts[k]? = some a) (hp : a.shall_be_presentable = false)
    (hh : a.mImageUsageHintAfter = none) :
    ∃ d, r.mAttachmentDescriptions[k]? = some d ∧
      (a.get_last_color_depth_input.as_depth_stencil = true →
        d.finalLayout = ImageLayout.eDepthStencilAttachmentOptimal) ∧
      (a.get_last_color_depth_input.as_depth_stencil = false →
        a.get_last_color_depth_input.as_color = true →
        d.finalLayout = ImageLayout.eColorAttachmentOptimal) ∧
      (a.get_last_color_depth_input.as_depth_stencil = false →
        a.get_last_color_depth_input.as_color = false →
        a.get_last_color_depth_input.as_input = true →
        d.finalLayout = ImageLayout.eShaderReadOnlyOptimal) :=
  ⟨attachment_description a, description_of_create h ha, final_layout_last_usage a hp hh⟩

/-- C18, on the depth/stencil attachment and on the first colour attachment of the sample
declarations, and on an attachment whose only usage is an input usage. -/
theorem C18_final_layout_last_usage_witness :
    (∃ d, (compiled (create sample_attachments none none)).mAttachmentDescriptions[2]? = some d ∧
      d.finalLayout = ImageLayout.eDepthStencilAttachmentOptimal) ∧
    (∃ d, (compiled (create sample_attachments none none)).mAttachmentDescriptions[0]? = some d ∧
      d.finalLayout = ImageLayout.eColorAttachmentOptimal) ∧
    (∃ d, (compiled (create [sample_attachment [input_usage none]] none
        none)).mAttachmentDescriptions[0]? = some d ∧
      d.finalLayout = ImageLayout.eShaderReadOnlyOptimal) := by
  obtain ⟨d2, e2, f2, -, -⟩ := C18_final_layout_last_usage sample_attachments none
    (compiled (create sample_attachments none none)) (by decide) 2
    (sample_attachment [depth_stencil_usage]) rfl rfl rfl
  obtain ⟨d0, e0, -, f0, -⟩ := C18_final_layout_last_usage sample_attachments none
    (compiled (create sample_attachments none none)) (by decide) 0
    (sample_attachment [color_usage none]) rfl rfl rfl
  obtain ⟨d1, e1, -, -, f1⟩ := C18_final_layout_last_usage
    [sample_attachment [input_usage none]] none
    (compiled (create [sample_attachment [input_usage none]] none none)) (by decide) 0
    (sample_attachment [input_usage none]) rfl rfl rfl
  exact ⟨⟨d2, e2, f2 rfl⟩, ⟨d0, e0, f0 rfl rfl⟩, ⟨d1, e1, f1 rfl rfl rfl⟩⟩

/-- Lines 141-157 for an attachment that is not presentable and has a usage hint after the
pass. -/
theorem final_layout_hint_after (a : attachment) (hint : image_usage)
    (hp : a.shall_be_presentable = false) (hh : a.mImageUsageHintAfter = some hint) :
    (hint.shader_storage = true → final_layout a = ImageLayout.eGeneral) ∧
    (hint.sampled = true → hint.shader_storage = false →
      final_layout a = ImageLayout.eShaderReadOnlyOptimal) := by
  unfold final_layout
  simp only [hp, hh]
  constructor
  · intro h1
    simp [h1]
  · intro h1 h2
    simp [h1, h2]

/-- C19: for an attachment that is not presentable and has a usage hint after the pass,
the final layout in the description that `create` returns is the general layout when the
hint names storage usage, and shader-read-only when it names sampled but not storage
usage, whatever the usages and the store operation of the attachment. -/
theorem C19_usage_hint_after_overrides (atts : List attachment)
    (aSync : Option (renderpass_sync → renderpass_sync)) (r : renderpass_t)
    (h : create atts aSync none = Except.ok r) (k : Nat) (a : attachment)
    (ha : atts[k]? = some a) (hint : image_usage) (hp : a.shall_be_presentable = false)
    (hh : a.mImageUsageHintAfter = some hint) :
    ∃ d, r.mAttachmentDescriptions[k]? = some d ∧
      (hint.shader_storage = true → d.finalLayout = ImageLayout.eGeneral) ∧
      (hint.sampled = true → hint.shader_storage = false →
        d.finalLayout = ImageLayout.eShaderReadOnlyOptimal) :=
  ⟨attachment_description a, description_of_create h ha, final_layout_hint_after a hint hp hh⟩

/-- C19, on a stored colour attachment with a hint that names sampled and storage usage,
and on one with a hint that names sampled usage only. -/
theorem C19_usage_hint_after_overrides_witness :
    (∃ d, (compiled (create [sample_hinted_attachment true true] none
        none)).mAttachmentDescriptions[0]? = some d ∧
      d.finalLayout = ImageLayout.eGeneral) ∧
    (∃ d, (compiled (create [sample_hinted_attachment true false] none
        none)).mAttachmentDescriptions[0]? = some d ∧
      d.finalLayout = ImageLayout.eShaderReadOnlyOptimal) := by
  obtain ⟨d1, e1, f1, -⟩ := C19_usage_hint_after_overrides
    [sample_hinted_attachment true true] none
    (compiled (create [sample_hinted_attachment true true] none none)) (by decide) 0
    (sample_hinted_attachment true true) rfl ⟨true, true⟩ rfl rfl
  obtain ⟨d2, e2, -, f2⟩ := C19_usage_hint_after_overrides
    [sample_hinted_attachment true false] none
    (compiled (create [sample_hinted_attachment true false] none none)) (by decide) 0
    (sample_hinted_attachment true false) rfl ⟨true, false⟩ rfl rfl
  exact ⟨⟨d1, e1, f1 rfl⟩, ⟨d2, e2, f2 rfl rfl⟩⟩

/-- Lines 150-157: the final layout is never left undefined. -/
theorem final_layout_ne_undefined (a : attachment) :
    final_layout a ≠ ImageLayout.eUndefined := by
  have key : ∀ (p : Bool) (x : ImageLayout),
      (if p then ImageLayout.ePresentSrcKHR
        else if ImageLayout.eUndefined = x then ImageLayout.eShaderReadOnlyOptimal else x)
        ≠ ImageLayout.eUndefined := by
    intro p x
    cases p <;> cases x <;> decide
  exact key _ _

/-- Lines 112-157 when nothing selects a layout: the guess of line 152. -/
theorem final_layout_default (a : attachment)
    (hlast : a.get_last_color_depth_input.as_input = false ∧
      a.get_last_color_depth_input.as_color = false ∧
      a.get_last_color_depth_input.as_depth_stencil = false)
    (hstore : a.mStoreOperation = on_store.dont_care ∨
      (a.is_used_as_color_attachment = false ∧ a.is_used_as_depth_stencil_attachment = false ∧
        a.is_used_as_input_attachment = false))
    (hhint : ∀ hint, a.mImageUsageHintAfter = some hint →
      hint.sampled = false ∧ hint.shader_storage = false)
    (hp : a.shall_be_presentable = false) :
    final_layout a = ImageLayout.eShaderReadOnlyOptimal := by
  obtain ⟨l1, l2, l3⟩ := hlast
  cases hh : a.mImageUsageHintAfter with
  | none =>
    rcases hstore with hs | ⟨u1, u2, u3⟩
    · simp [final_layout, hp, l1, l2, l3, hs, hh]
    · simp [final_layout, hp, l1, l2, l3, u1, u2, u3, hh]
  | some hint =>
    obtain ⟨g1, g2⟩ := hhint hint hh
    rcases hstore with hs | ⟨u1, u2, u3⟩
    · simp [final_layout, hp, l1, l2, l3, hs, hh, g1, g2]
    · simp [final_layout, hp, l1, l2, l3, u1, u2, u3, hh, g1, g2]

/-- C20: in an object that `create` returns, no description has the undefined layout as
its final layout; and the final layout of an attachment is shader-read-only when its last
usage has none of the input, colour and depth/stencil flags, the store fallback selects
nothing (nothing is stored, or the attachment is used in none of the three categories), the
usage hint after the pass is absent or names neither sampled nor storage usage, and the
attachment is not presentable. -/
theorem C20_final_layout_never_undefined (atts : List attachment)
    (aSync : Option (renderpass_sync → renderpass_sync)) (r : renderpass_t)
    (h : create atts aSync none = Except.ok r) :
    r.mAttachmentDescriptions.length = atts.length ∧
    (∀ d ∈ r.mAttachmentDescriptions, d.finalLayout ≠ ImageLayout.eUndefined) ∧
    ∀ (k : Nat) (a : attachment), atts[k]? = some a →
      (a.get_last_color_depth_input.as_input = false ∧
        a.get_last_color_depth_input.as_color = false ∧
        a.get_last_color_depth_input.as_depth_stencil = false) →
      (a.mStoreOperation = on_store.dont_care ∨
        (a.is_used_as_color_attachment = false ∧
          a.is_used_as_depth_stencil_attachment = false ∧
          a.is_used_as_input_attachment = false)) →
      (∀ hint, a.mImageUsageHintAfter = some hint →
        hint.sampled = false ∧ hint.shader_storage = false) →
      a.shall_be_presentable = false →
      ∃ d, r.mAttachmentDescriptions[k]? = some d ∧
        d.finalLayout = ImageLayout.eShaderReadOnlyOptimal := by
  obtain ⟨-, -, hd, -⟩ := create_ok h
  refine ⟨by rw [hd, List.length_map], ?_, ?_⟩
  · intro d hmem
    rw [hd, List.mem_map] at hmem
    obtain ⟨a, -, rfl⟩ := hmem
    exact final_layout_ne_undefined a
  · intro k a ha hlast hstore hhint hp
    exact ⟨attachment_description a, description_of_create h ha,
      final_layout_default a hlast hstore hhint hp⟩

/-- C20, on the sample declarations and on a stored attachment that no subpass uses. -/
theorem C20_final_layout_never_undefined_witness :
    (∀ d ∈ (compiled (create sample_attachments none none)).mAttachmentDescriptions,
      d.finalLayout ≠ ImageLayout.eUndefined) ∧
    (∃ d, (compiled (create [sample_attachment [subpass_usage_type.unused]] none
        none)).mAttachmentDescriptions[0]? = some d ∧
      d.finalLayout = ImageLayout.eShaderReadOnlyOptimal) :=
  ⟨(C20_final_layout_never_undefined sample_attachments none
      (compiled (create sample_attachments none none)) (by decide)).2.1,
    (C20_final_layout_never_undefined [sample_attachment [subpass_usage_type.unused]] none
      (compiled (create [sample_attachment [subpass_usage_type.unused]] none none))
      (by decide)).2.2 0 (sample_attachment [subpass_usage_type.unused]) rfl
      ⟨rfl, rfl, rfl⟩ (Or.inr ⟨rfl, rfl, rfl⟩) (by intro hint hh; cases hh) rfl⟩

/-! ## The order of the dependency edges -/

/-- What the loop over the inner edges has pushed and checked when it ends normally. -/
theorem dependencies_between_ok (aSync : Option (renderpass_sync → renderpass_sync)) :
    ∀ (l : List Nat) (deps res : List SubpassDependency),
      dependencies_between aSync l deps = Except.ok res →
      res = deps ++ l.map (fun i => addDependency (apply_sync aSync (syncBetween (i - 1) i))) ∧
      ∀ i ∈ l, (apply_sync aSync (syncBetween (i - 1) i)).source_vk_subpass_id = i - 1 ∧
        (apply_sync aSync (syncBetween (i - 1) i)).destination_vk_subpass_id = i := by
  intro l
  induction l with
  | nil =>
    intro deps res h
    simp [dependencies_between] at h
    subst h
    simp
  | cons i rest ih =>
    intro deps res h
    simp only [dependencies_between] at h
    split at h
    · simp at h
    · split at h
      · simp at h
      · rename_i c1 c2
        obtain ⟨e1, e2⟩ := ih _ _ h
        refine ⟨by rw [e1]; simp, ?_⟩
        intro j hj
        rcases List.mem_cons.mp hj with rfl | hj
        · exact ⟨not_not.mp c1, not_not.mp c2⟩
        · exact e2 j hj

/-- What the dependency synthesis has pushed and checked when it returns dependencies. -/
theorem subpass_dependencies_upto_ok (S last : Nat)
    (aSync : Option (renderpass_sync → renderpass_sync)) :
    match subpass_dependencies_upto S last aSync with
    | Except.ok deps =>
      last ≠ 4294967295 ∧ S = last + 1 ∧
      deps = addDependency (apply_sync aSync (syncBefore 0)) ::
        ((List.range last).map
            (fun k => addDependency (apply_sync aSync (syncBetween k (k + 1))))
          ++ [addDependency (apply_sync aSync (syncAfter last))]) ∧
      ((apply_sync aSync (syncBefore 0)).source_vk_subpass_id = VK_SUBPASS_EXTERNAL ∧
        (apply_sync aSync (syncBefore 0)).destination_vk_subpass_id = 0) ∧
      (∀ k, k < last →
        (apply_sync aSync (syncBetween k (k + 1))).source_vk_subpass_id = k ∧
        (apply_sync aSync (syncBetween k (k + 1))).destination_vk_subpass_id = k + 1) ∧
      ((apply_sync aSync (syncAfter last)).source_vk_subpass_id = last ∧
        (apply_sync aSync (syncAfter last)).destination_vk_subpass_id = VK_SUBPASS_EXTERNAL)
    | Except.error _ => True := by
  unfold subpass_dependencies_upto
  simp only
  by_cases c1 : (apply_sync aSync (syncBefore 0)).source_vk_subpass_id ≠ VK_SUBPASS_EXTERNAL
  · rw [if_pos c1]
    trivial
  rw [if_neg c1]
  by_cases c2 : (apply_sync aSync (syncBefore 0)).destination_vk_subpass_id ≠ 0
  · rw [if_pos c2]
    trivial
  rw [if_neg c2]
  by_cases c3 : last = 4294967295
  · rw [if_pos c3]
    trivial
  rw [if_neg c3]
  cases hd : dependencies_between aSync ((List.range last).map (fun k => k + 1))
      [addDependency (apply_sync aSync (syncBefore 0))] with
  | error e => trivial
  | ok ds =>
    simp only
    by_cases c4 : (apply_sync aSync (syncAfter last)).source_vk_subpass_id ≠ last
    · rw [if_pos c4]
      trivial
    rw [if_neg c4]
    by_cases c5 : (apply_sync aSync (syncAfter last)).destination_vk_subpass_id
        ≠ VK_SUBPASS_EXTERNAL
    · rw [if_pos c5]
      trivial
    rw [if_neg c5]
    by_cases c6 : (ds ++ [addDependency (apply_sync aSync (syncAfter last))]).length ≠ S + 1
    · rw [if_pos c6]
      trivial
    rw [if_neg c6]
    obtain ⟨e1, e2⟩ := dependencies_between_ok aSync _ _ _ hd
    have hds : ds = addDependency (apply_sync aSync (syncBefore 0)) ::
        (List.range last).map
          (fun k => addDependency (apply_sync aSync (syncBetween k (k + 1)))) := by
      rw [e1]
      simp [List.map_map, Function.comp_def]
    refine ⟨c3, ?_, ?_, ⟨not_not.mp c1, not_not.mp c2⟩, ?_, ⟨not_not.mp c4, not_not.mp c5⟩⟩
    · have hl := not_not.mp c6
      rw [hds] at hl
      simp at hl
      omega
    · rw [hds]
      simp
    · intro k hk
      have := e2 (k + 1) (by simp; exact hk)
      simpa using this

/-- The dependencies that `create` synthesizes for `S` subpasses: `S` lies between 1 and
the largest 32-bit value, the edges are the sync descriptions after the hook, in order, and
the hook has left their subpass identifiers as they were. -/
theorem subpass_dependencies_ok {S : Nat}
    {aSync : Option (renderpass_sync → renderpass_sync)} {deps : List SubpassDependency}
    (h : subpass_dependencies S aSync = Except.ok deps) :
    1 ≤ S ∧ S < 4294967296 ∧
    deps = (sync_descriptions S).map (fun s => addDependency (apply_sync aSync s)) ∧
    deps.map (fun d => (d.srcSubpass, d.dstSubpass)) = edge_ids S ∧
    ∀ s ∈ sync_descriptions S, ¬ sync_alters_subpass_ids aSync s := by
  have key := subpass_dependencies_upto_ok S (to_uint32 (size_t_sub S 1)) aSync
  unfold subpass_dependencies at h
  rw [h] at key
  obtain ⟨k1, k2, k3, ⟨b1, b2⟩, k5, ⟨a1, a2⟩⟩ := key
  have hlt : to_uint32 (size_t_sub S 1) < 4294967296 := Nat.mod_lt _ (by decide)
  have hS1 : 1 ≤ S := by omega
  have hS2 : S < 4294967296 := by omega
  have hlast : to_uint32 (size_t_sub S 1) = S - 1 := by omega
  rw [hlast] at k3 k5 a1 a2
  refine ⟨hS1, hS2, ?_, ?_, ?_⟩
  · rw [k3]
    simp [sync_descriptions, List.map_map, Function.comp_def]
  · have hmid : ((List.range (S - 1)).map
          (fun k => addDependency (apply_sync aSync (syncBetween k (k + 1))))).map
          (fun d => (d.srcSubpass, d.dstSubpass))
        = (List.range (S - 1)).map (fun k => (k, k + 1)) := by
      rw [List.map_map]
      apply List.map_congr_left
      intro k hk
      obtain ⟨c1, c2⟩ := k5 k (List.mem_range.mp hk)
      simp only [Function.comp_def, addDependency, c1, c2]
    rw [k3]
    simp only [List.map_cons, List.map_append, List.map_nil, hmid]
    simp only [edge_ids, addDependency, b1, b2, a1, a2]
  · intro s hs
    simp only [sync_descriptions, List.mem_cons, List.mem_append, List.mem_map, List.mem_range,
      List.not_mem_nil, or_false] at hs
    unfold sync_alters_subpass_ids
    rcases hs with rfl | ⟨k, hk, rfl⟩ | rfl
    · rw [b1, b2, syncBefore_ids.1, syncBefore_ids.2]
      simp
    · obtain ⟨c1, c2⟩ := k5 k hk
      obtain ⟨d1, d2⟩ := syncBetween_ids k (k + 1) (by omega) (by omega)
      rw [c1, c2, d1, d2]
      simp
    · obtain ⟨d1, d2⟩ := syncAfter_ids (S - 1) (by omega)
      rw [a1, a2, d1, d2]
      simp

/-- Unless `lastSubpassId` is the largest 32-bit value, the dependency synthesis ends
without dependencies only by a failed assertion. -/
theorem subpass_dependencies_upto_terminates (S last : Nat)
    (aSync : Option (renderpass_sync → renderpass_sync)) (hl : last ≠ 4294967295) :
    match subpass_dependencies_upto S last aSync with
    | Except.ok _ => True
    | Except.error e => e.is_throw_or_assertion = true := by
  unfold subpass_dependencies_upto
  simp only
  by_cases c1 : (apply_sync aSync (syncBefore 0)).source_vk_subpass_id ≠ VK_SUBPASS_EXTERNAL
  · rw [if_pos c1]
    rfl
  rw [if_neg c1]
  by_cases c2 : (apply_sync aSync (syncBefore 0)).destination_vk_subpass_id ≠ 0
  · rw [if_pos c2]
    rfl
  rw [if_neg c2, if_neg hl]
  cases hd : dependencies_between aSync ((List.range last).map (fun k => k + 1))
      [addDependency (apply_sync aSync (syncBefore 0))] with
  | error e => exact dependencies_between_error aSync _ _ _ hd
  | ok ds =>
    simp only
    by_cases c4 : (apply_sync aSync (syncAfter last)).source_vk_subpass_id ≠ last
    · rw [if_pos c4]
      rfl
    rw [if_neg c4]
    by_cases c5 : (apply_sync aSync (syncAfter last)).destination_vk_subpass_id
        ≠ VK_SUBPASS_EXTERNAL
    · rw [if_pos c5]
      rfl
    rw [if_neg c5]
    by_cases c6 : (ds ++ [addDependency (apply_sync aSync (syncAfter last))]).length ≠ S + 1
    · rw [if_pos c6]
      rfl
    rw [if_neg c6]
    trivial

theorem subpass_dependencies_error_in_range {S : Nat}
    {aSync : Option (renderpass_sync → renderpass_sync)} {e : create_error}
    (h1 : 1 ≤ S) (h2 : S < 4294967296) (h : subpass_dependencies S aSync = Except.error e) :
    e.is_throw_or_assertion = true := by
  have hlast : to_uint32 (size_t_sub S 1) ≠ 4294967295 := by
    unfold to_uint32 size_t_sub
    omega
  have key := subpass_dependencies_upto_terminates S (to_uint32 (size_t_sub S 1)) aSync hlast
  unfold subpass_dependencies at h
  rw [h] at key
  exact key

/-- An attachment list that passes the checks of the first two loops reaches the
dependency synthesis. -/
theorem create_reaches_dependencies {front : attachment} {rest : List attachment}
    (hadm : admissible front.mSubpassUsages.length (front :: rest))
    (hds : ∀ s, s < front.mSubpassUsages.length →
      (depth_stencil_refs (usages_in_subpass (front :: rest) s)).length ≤ 1) :
    ∃ st data,
      process_attachments front.mSubpassUsages.length
        { mAttachmentDescriptions := [], mClearValues := [],
          subpasses := (List.range front.mSubpassUsages.length).map subpass_desc_helper.init }
        (front :: rest) = Except.ok st ∧
      fill_all_subpass_data st.subpasses = Except.ok data := by
  obtain ⟨st, hst⟩ := process_attachments_succeeds (front :: rest) []
    { mAttachmentDescriptions := [], mClearValues := [],
      subpasses := (List.range front.mSubpassUsages.length).map subpass_desc_helper.init }
    (processed_nil _) (by simpa using hadm)
  obtain ⟨⟨-, -, p3, p4⟩, -⟩ := process_attachments_ok (front :: rest) [] _ st hst
    (processed_nil _) (admissible_nil _)
  obtain ⟨data, hdata⟩ := fill_all_subpass_data_succeeds st.subpasses (by
    intro sp hsp
    obtain ⟨s, hs1⟩ := List.mem_iff_getElem?.mp hsp
    have hlt : s < front.mSubpassUsages.length := by
      rw [← p3]
      exact (List.getElem?_eq_some.mp hs1).1
    rw [p4 s hlt] at hs1
    simp only [Option.some.injEq] at hs1
    subst hs1
    exact fill_subpass_data_helper_of_succeeds s _ (hds s hlt))
  exact ⟨st, data, hst, hdata⟩

/-- For a subpass count between 1 and the largest 32-bit value, `create` ends without an
object only by a `throw` or a failed assertion. -/
theorem create_error_in_range {atts : List attachment}
    {aSync : Option (renderpass_sync → renderpass_sync)}
    {aAlter : Option (renderpass_t → renderpass_t)} {e : create_error}
    (h1 : 1 ≤ num_subpasses_first atts) (h2 : num_subpasses_first atts < 4294967296)
    (hc : create atts aSync aAlter = Except.error e) :
    e.is_throw_or_assertion = true := by
  rcases create_error_kind hc with hk | ⟨-, hne, hadm, hds⟩
  · exact hk
  · cases atts with
    | nil => exact absurd rfl hne
    | cons front rest =>
      simp only [num_subpasses_first] at h1 h2 hadm hds
      obtain ⟨st, data, hst, hdata⟩ := create_reaches_dependencies hadm hds
      cases hdeps : subpass_dependencies front.mSubpassUsages.length aSync with
      | ok deps => simp [create, hst, hdata, hdeps] at hc
      | error e1 =>
        simp [create, hst, hdata, hdeps] at hc
        subst hc
        exact subpass_dependencies_error_in_range h1 h2 hdeps

/-- C16: in an object that `create` returns for an attachment list with S subpasses and
any sync hook, the dependency edges are the sync descriptions after the hook, in order,
and their (source, destination) identifiers are: "external" to subpass 0, then subpass k-1
to subpass k for 1 <= k <= S-1, then subpass S-1 to "external". When the hook changes the
source or the destination identifier of one of these sync descriptions, `create` ends with
an error instead of an object, whatever the configuration hook; for S between 1 and the
largest 32-bit value the error is a `throw` or a failed assertion. -/
theorem C16_dependency_edges_in_order (atts : List attachment)
    (aSync : Option (renderpass_sync → renderpass_sync)) :
    (∀ r, create atts aSync none = Except.ok r →
      1 ≤ num_subpasses_first atts ∧
      r.mSubpassDependencies.length = num_subpasses_first atts + 1 ∧
      r.mSubpassDependencies = (sync_descriptions (num_subpasses_first atts)).map
        (fun s => addDependency (apply_sync aSync s)) ∧
      r.mSubpassDependencies.map (fun d => (d.srcSubpass, d.dstSubpass))
        = edge_ids (num_subpasses_first atts)) ∧
    (∀ (aAlter : Option (renderpass_t → renderpass_t)) (s : renderpass_sync),
      s ∈ sync_descriptions (num_subpasses_first atts) → sync_alters_subpass_ids aSync s →
      ∃ e, create atts aSync aAlter = Except.error e ∧
        (1 ≤ num_subpasses_first atts → num_subpasses_first atts < 4294967296 →
          e.is_throw_or_assertion = true)) := by
  constructor
  · intro r h
    obtain ⟨-, -, -, -, -, e6, -⟩ := create_ok h
    obtain ⟨d1, -, d3, d4, -⟩ := subpass_dependencies_ok e6
    exact ⟨d1, subpass_dependencies_length e6, d3, d4⟩
  · intro aAlter s hs halt
    cases hc : create atts aSync aAlter with
    | error e => exact ⟨e, rfl, fun h1 h2 => create_error_in_range h1 h2 hc⟩
    | ok r =>
      exfalso
      obtain ⟨r0, h0⟩ := create_ok_of_hook hc
      obtain ⟨-, -, -, -, -, e6, -⟩ := create_ok h0
      exact (subpass_dependencies_ok e6).2.2.2.2 s hs halt

/-- C16, on one attachment with two subpasses: with a hook that keeps the identifiers the
edges are external to 0, 0 to 1, 1 to external; with a hook that redirects the leading
edge to subpass 7 there is no object. -/
theorem C16_dependency_edges_in_order_witness :
    (compiled (create sample_two_subpasses (some sample_widening_sync)
        none)).mSubpassDependencies.map (fun d => (d.srcSubpass, d.dstSubpass))
      = edge_ids (num_subpasses_first sample_two_subpasses) ∧
    ∃ e, create sample_two_subpasses (some sample_redirecting_sync) none = Except.error e ∧
      (1 ≤ num_subpasses_first sample_two_subpasses →
        num_subpasses_first sample_two_subpasses < 4294967296 →
        e.is_throw_or_assertion = true) :=
  ⟨((C16_dependency_edges_in_order sample_two_subpasses (some sample_widening_sync)).1
      (compiled (create sample_two_subpasses (some sample_widening_sync) none))
      (by decide)).2.2.2,
    (C16_dependency_edges_in_order sample_two_subpasses (some sample_redirecting_sync)).2
      none (syncBefore 0) (by decide) (Or.inr (by decide))⟩

/-! ## The edges as the defaults after the hook -/

theorem sync_descriptions_length (S : Nat) (h : 1 ≤ S) : (sync_descriptions S).length = S + 1 := by
  simp [sync_descriptions]
  omega

/-- C21: in an object that `create` returns for S subpasses, the dependency edges are the
S + 1 default sync descriptions (leading, inter-subpass in ascending order, trailing), each
after one application of the sync hook, in that order; without a hook they are the
defaults themselves, and two attachment lists with the same S get the same edges. -/
theorem C21_edges_are_hooked_defaults (atts : List attachment)
    (aSync : Option (renderpass_sync → renderpass_sync)) (r : renderpass_t)
    (h : create atts aSync none = Except.ok r) :
    (sync_descriptions (num_subpasses_first atts)).length = num_subpasses_first atts + 1 ∧
    r.mSubpassDependencies = (sync_descriptions (num_subpasses_first atts)).map
      (fun s => addDependency (apply_sync aSync s)) ∧
    (aSync = none → r.mSubpassDependencies
      = (sync_descriptions (num_subpasses_first atts)).map addDependency) ∧
    (aSync = none → ∀ (atts1 : List attachment) (r1 : renderpass_t),
      create atts1 none none = Except.ok r1 →
      num_subpasses_first atts1 = num_subpasses_first atts →
      r1.mSubpassDependencies = r.mSubpassDependencies) := by
  obtain ⟨-, -, -, -, -, e6, -⟩ := create_ok h
  obtain ⟨d1, -, d3, -, -⟩ := subpass_dependencies_ok e6
  refine ⟨sync_descriptions_length _ d1, d3, ?_, ?_⟩
  · intro hn
    subst hn
    rw [d3]
    rfl
  · intro hn atts1 r1 h1 hS
    subst hn
    obtain ⟨-, -, -, -, -, e61, -⟩ := create_ok h1
    rw [hS, e6] at e61
    simp only [Except.ok.injEq] at e61
    exact e61.symm

/-- C21, on one attachment with two subpasses: without a hook the three edges are the
defaults, and with the widening hook each default is widened once. -/
theorem C21_edges_are_hooked_defaults_witness :
    (compiled (create sample_two_subpasses none none)).mSubpassDependencies
      = (sync_descriptions (num_subpasses_first sample_two_subpasses)).map addDependency ∧
    (compiled (create sample_two_subpasses (some sample_widening_sync)
        none)).mSubpassDependencies
      = (sync_descriptions (num_subpasses_first sample_two_subpasses)).map
          (fun s => addDependency (apply_sync (some sample_widening_sync) s)) :=
  ⟨(C21_edges_are_hooked_defaults sample_two_subpasses none
      (compiled (create sample_two_subpasses none none)) (by decide)).2.2.1 rfl,
    (C21_edges_are_hooked_defaults sample_two_subpasses (some sample_widening_sync)
      (compiled (create sample_two_subpasses (some sample_widening_sync) none))
      (by decide)).2.1⟩

/-! ## The initial layout -/

/-- Lines 63-99 for a loaded attachment: as soon as the first usage has one of the three
flags the layout is fixed. -/
theorem initial_layout_loaded (a : attachment) (hl : a.mLoadOperation = on_load.load) :
    (a.get_first_color_depth_input.as_input = true →
      a.get_first_color_depth_input.as_color = false →
      a.get_first_color_depth_input.as_depth_stencil = false →
      initial_layout a = ImageLayout.eShaderReadOnlyOptimal) ∧
    (a.get_first_color_depth_input.as_input = false →
      a.get_first_color_depth_input.as_color = true →
      a.get_first_color_depth_input.as_depth_stencil = false →
      initial_layout a = ImageLayout.eColorAttachmentOptimal) ∧
    (a.get_first_color_depth_input.as_input = false →
      a.get_first_color_depth_input.as_color = false →
      a.get_first_color_depth_input.as_depth_stencil = true →
      initial_layout a = ImageLayout.eDepthStencilAttachmentOptimal) := by
  unfold initial_layout initial_layout_before_final initial_layout_from_first_usage
  simp only [hl]
  refine ⟨?_, ?_, ?_⟩ <;> intro h1 h2 h3 <;> simp [h1, h2, h3]

/-- C22: for an attachment whose load operation is load and whose first chronological
usage is in exactly one of the categories input, colour, depth/stencil, the initial layout
in the description that `create` returns is the layout of that category, whatever the usage
hint before the pass and whatever the final layout. -/
theorem C22_initial_layout_single_category (atts : List attachment)
    (aSync : Option (renderpass_sync → renderpass_sync)) (r : renderpass_t)
    (h : create atts aSync none = Except.ok r) (k : Nat) (a : attachment)
    (ha : atts[k]? = some a) (hl : a.mLoadOperation = on_load.load) :
    ∃ d, r.mAttachmentDescriptions[k]? = some d ∧
      (a.get_first_color_depth_input.as_input = true →
        a.get_first_color_depth_input.as_color = false →
        a.get_first_color_depth_input.as_depth_stencil = false →
        d.initialLayout = ImageLayout.eShaderReadOnlyOptimal) ∧
      (a.get_first_color_depth_input.as_input = false →
        a.get_first_color_depth_input.as_color = true →
        a.get_first_color_depth_input.as_depth_stencil = false →
        d.initialLayout = ImageLayout.eColorAttachmentOptimal) ∧
      (a.get_first_color_depth_input.as_input = false →
        a.get_first_color_depth_input.as_color = false →
        a.get_first_color_depth_input.as_depth_stencil = true →
        d.initialLayout = ImageLayout.eDepthStencilAttachmentOptimal) :=
  ⟨attachment_description a, description_of_create h ha, initial_layout_loaded a hl⟩

/-- C22, on loaded attachments whose only usage is an input, a colour and a depth/stencil
usage; the second one has a usage hint before the pass and a usage hint after it. -/
theorem C22_initial_layout_single_category_witness :
    (∃ d, (compiled (create [sample_loaded_attachment [input_usage none]] none
        none)).mAttachmentDescriptions[0]? = some d ∧
      d.initialLayout = ImageLayout.eShaderReadOnlyOptimal) ∧
    (∃ d, (compiled (create [{ sample_loaded_attachment [color_usage none] with
          mImageUsageHintBefore := some ⟨true, true⟩
          mImageUsageHintAfter := some ⟨true, true⟩ }] none
        none)).mAttachmentDescriptions[0]? = some d ∧
      d.initialLayout = ImageLayout.eColorAttachmentOptimal) ∧
    (∃ d, (compiled (create [sample_loaded_attachment [depth_stencil_usage]] none
        none)).mAttachmentDescriptions[0]? = some d ∧
      d.initialLayout = ImageLayout.eDepthStencilAttachmentOptimal) := by
  obtain ⟨d1, e1, f1, -, -⟩ := C22_initial_layout_single_category
    [sample_loaded_attachment [input_usage none]] none
    (compiled (create [sample_loaded_attachment [input_usage none]] none none)) (by decide) 0
    (sample_loaded_attachment [input_usage none]) rfl rfl
  obtain ⟨d2, e2, -, f2, -⟩ := C22_initial_layout_single_category
    [{ sample_loaded_attachment [color_usage none] with
        mImageUsageHintBefore := some ⟨true, true⟩
        mImageUsageHintAfter := some ⟨true, true⟩ }] none
    (compiled (create [{ sample_loaded_attachment [color_usage none] with
        mImageUsageHintBefore := some ⟨true, true⟩
        mImageUsageHintAfter := some ⟨true, true⟩ }] none none)) (by decide) 0
    { sample_loaded_attachment [color_usage none] with
        mImageUsageHintBefore := some ⟨true, true⟩
        mImageUsageHintAfter := some ⟨true, true⟩ } rfl rfl
  obtain ⟨d3, e3, -, -, f3⟩ := C22_initial_layout_single_category
    [sample_loaded_attachment [depth_stencil_usage]] none
    (compiled (create [sample_loaded_attachment [depth_stencil_usage]] none none))
    (by decide) 0 (sample_loaded_attachment [depth_stencil_usage]) rfl rfl
  exact ⟨⟨d1, e1, f1 rfl rfl rfl⟩, ⟨d2, e2, f2 rfl rfl rfl⟩, ⟨d3, e3, f3 rfl rfl rfl⟩⟩

/-- Lines 63-110 and 159-161 for a cleared attachment whose first usage has one of the
three flags: the layout is marked fixed and stays undefined. -/
theorem initial_layout_cleared (a : attachment) (hl : a.mLoadOperation = on_load.clear)
    (hf : a.get_first_color_depth_input.as_input = true ∨
      a.get_first_color_depth_input.as_color = true ∨
      a.get_first_color_depth_input.as_depth_stencil = true) :
    (initial_layout_from_first_usage a).2 = true ∧
      initial_layout a = ImageLayout.eUndefined := by
  unfold initial_layout initial_layout_before_final initial_layout_from_first_usage
  simp only [hl]
  cases h1 : a.get_first_color_depth_input.as_input <;>
    cases h2 : a.get_first_color_depth_input.as_color <;>
    cases h3 : a.get_first_color_depth_input.as_depth_stencil <;>
    simp [h1, h2, h3] at hf ⊢

/-- C23: for an attachment whose load operation is clear and whose first chronological
usage is input, colour or depth/stencil, the first usage marks the initial layout as
fixed, and the initial layout in the description that `create` returns is the undefined
layout; the same attachment with any other usage hint before the pass gets the same
initial layout. -/
theorem C23_cleared_initial_layout_fixed (atts : List attachment)
    (aSync : Option (renderpass_sync → renderpass_sync)) (r : renderpass_t)
    (h : create atts aSync none = Except.ok r) (k : Nat) (a : attachment)
    (ha : atts[k]? = some a) (hl : a.mLoadOperation = on_load.clear)
    (hf : a.get_first_color_depth_input.as_input = true ∨
      a.get_first_color_depth_input.as_color = true ∨
      a.get_first_color_depth_input.as_depth_stencil = true) :
    (initial_layout_from_first_usage a).2 = true ∧
    ∃ d, r.mAttachmentDescriptions[k]? = some d ∧
      d.initialLayout = ImageLayout.eUndefined ∧
      ∀ hint : Option image_usage,
        (attachment_description { a with mImageUsageHintBefore := hint }).initialLayout
          = d.initialLayout := by
  refine ⟨(initial_layout_cleared a hl hf).1, attachment_description a,
    description_of_create h ha, (initial_layout_cleared a hl hf).2, ?_⟩
  intro hint
  exact ((initial_layout_cleared { a with mImageUsageHintBefore := hint } hl hf).2).trans
    (initial_layout_cleared a hl hf).2.symm

/-- C23, on the first colour attachment of the sample declarations, which is cleared. -/
theorem C23_cleared_initial_layout_fixed_witness :
    (initial_layout_from_first_usage (sample_attachment [color_usage none])).2 = true ∧
    ∃ d, (compiled (create sample_attachments none none)).mAttachmentDescriptions[0]? = some d ∧
      d.initialLayout = ImageLayout.eUndefined ∧
      ∀ hint : Option image_usage,
        (attachment_description { sample_attachment [color_usage none] with
          mImageUsageHintBefore := hint }).initialLayout = d.initialLayout :=
  C23_cleared_initial_layout_fixed sample_attachments none
    (compiled (create sample_attachments none none)) (by decide) 0
    (sample_attachment [color_usage none]) rfl rfl (Or.inr (Or.inl rfl))

/-- Lines 100-110 and 159-161 for an attachment that is not loaded and whose first usage
has fixed nothing: the usage hint before the pass decides. -/
theorem initial_layout_hint_before (a : attachment) (hint : image_usage)
    (hl : a.mLoadOperation ≠ on_load.load)
    (hf : (initial_layout_from_first_usage a).2 = false)
    (hh : a.mImageUsageHintBefore = some hint) :
    (hint.shader_storage = true → initial_layout a = ImageLayout.eGeneral) ∧
    (hint.sampled = true → hint.shader_storage = false →
      initial_layout a = ImageLayout.eShaderReadOnlyOptimal) := by
  have hl1 : decide (on_load.load = a.mLoadOperation) = false := by
    simp only [decide_eq_false_iff_not]
    exact fun e => hl e.symm
  unfold initial_layout initial_layout_before_final
  simp only [hf, hh, hl1]
  constructor
  · intro h1
    simp [h1]
  · intro h1 h2
    simp [h1, h2]

/-- C24, as amended: for an attachment whose load operation is clear or don't-care, whose
initial layout was not fixed by its first usage and that has a usage hint before the pass,
the initial layout in the description that `create` returns is the general layout when the
hint names storage usage, and shader-read-only when it names sampled but not storage
usage. -/
theorem C24_initial_layout_from_hint_before (atts : List attachment)
    (aSync : Option (renderpass_sync → renderpass_sync)) (r : renderpass_t)
    (h : create atts aSync none = Except.ok r) (k : Nat) (a : attachment)
    (ha : atts[k]? = some a) (hint : image_usage)
    (hl : a.mLoadOperation = on_load.clear ∨ a.mLoadOperation = on_load.dont_care)
    (hf : (initial_layout_from_first_usage a).2 = false)
    (hh : a.mImageUsageHintBefore = some hint) :
    ∃ d, r.mAttachmentDescriptions[k]? = some d ∧
      (hint.shader_storage = true → d.initialLayout = ImageLayout.eGeneral) ∧
      (hint.sampled = true → hint.shader_storage = false →
        d.initialLayout = ImageLayout.eShaderReadOnlyOptimal) := by
  refine ⟨attachment_description a, description_of_create h ha,
    initial_layout_hint_before a hint ?_ hf hh⟩
  rcases hl with hl | hl <;> rw [hl] <;> decide

/-- C24 as amended, on attachments that no subpass uses: a cleared one with a hint that
names storage usage, and one with load operation don't-care and a hint that names sampled
usage only. -/
theorem C24_initial_layout_from_hint_before_witness :
    (∃ d, (compiled (create [sample_hinted_before_attachment on_load.clear false true] none
        none)).mAttachmentDescriptions[0]? = some d ∧
      d.initialLayout = ImageLayout.eGeneral) ∧
    (∃ d, (compiled (create [sample_hinted_before_attachment on_load.dont_care true false] none
        none)).mAttachmentDescriptions[0]? = some d ∧
      d.initialLayout = ImageLayout.eShaderReadOnlyOptimal) := by
  obtain ⟨d1, e1, f1, -⟩ := C24_initial_layout_from_hint_before
    [sample_hinted_before_attachment on_load.clear false true] none
    (compiled (create [sample_hinted_before_attachment on_load.clear false true] none none))
    (by decide) 0 (sample_hinted_before_attachment on_load.clear false true) rfl ⟨false, true⟩
    (Or.inl rfl) rfl rfl
  obtain ⟨d2, e2, -, f2⟩ := C24_initial_layout_from_hint_before
    [sample_hinted_before_attachment on_load.dont_care true false] none
    (compiled (create [sample_hinted_before_attachment on_load.dont_care true false] none
      none))
    (by decide) 0 (sample_hinted_before_attachment on_load.dont_care true false) rfl
    ⟨true, false⟩ (Or.inr rfl) rfl rfl
  exact ⟨⟨d1, e1, f1 rfl⟩, ⟨d2, e2, f2 rfl rfl⟩⟩

/-- C24 as stated fails for the load operation load: the attachment is loaded, its initial
layout is not fixed by its first usage, its usage hint before the pass names storage usage
only, `create` returns an object, and the initial layout of its description is the final
layout, shader-read-only, not the general layout. -/
theorem C24_counterexample :
    (sample_hinted_before_attachment on_load.load false true).mLoadOperation = on_load.load ∧
    (initial_layout_from_first_usage
      (sample_hinted_before_attachment on_load.load false true)).2 = false ∧
    (sample_hinted_before_attachment on_load.load false true).mImageUsageHintBefore
      = some ⟨false, true⟩ ∧
    ∃ r d, create [sample_hinted_before_attachment on_load.load false true] none none
        = Except.ok r ∧
      r.mAttachmentDescriptions[0]? = some d ∧
      d.initialLayout = ImageLayout.eShaderReadOnlyOptimal ∧
      d.initialLayout = d.finalLayout ∧
      d.initialLayout ≠ ImageLayout.eGeneral :=
  ⟨rfl, rfl, rfl,
    compiled (create [sample_hinted_before_attachment on_load.load false true] none none),
    attachment_description (sample_hinted_before_attachment on_load.load false true),
    by decide, by decide, by decide, by decide, by decide⟩

/-- C25: for an attachment whose load operation is load and whose initial layout was not
fixed by its first usage, the initial layout in the description that `create` returns is
the final layout of the same description, whatever the usage hint before the pass. -/
theorem C25_initial_layout_is_final_layout (atts : List attachment)
    (aSync : Option (renderpass_sync → renderpass_sync)) (r : renderpass_t)
    (h : create atts aSync none = Except.ok r) (k : Nat) (a : attachment)
    (ha : atts[k]? = some a) (hl : a.mLoadOperation = on_load.load)
    (hf : (initial_layout_from_first_usage a).2 = false) :
    ∃ d, r.mAttachmentDescriptions[k]? = some d ∧ d.initialLayout = d.finalLayout ∧
      d.finalLayout = final_layout a := by
  refine ⟨attachment_description a, description_of_create h ha, ?_, rfl⟩
  show initial_layout a = final_layout a
  unfold initial_layout initial_layout_before_final
  simp only [hf, hl]
  cases a.mImageUsageHintBefore <;> simp [hf]

/-- C25, on a loaded attachment that no subpass uses, with a usage hint before the pass. -/
theorem C25_initial_layout_is_final_layout_witness :
    ∃ d, (compiled (create [sample_hinted_before_attachment on_load.load true true] none
        none)).mAttachmentDescriptions[0]? = some d ∧ d.initialLayout = d.finalLayout ∧
      d.finalLayout = final_layout (sample_hinted_before_attachment on_load.load true true) :=
  C25_initial_layout_is_final_layout
    [sample_hinted_before_attachment on_load.load true true] none
    (compiled (create [sample_hinted_before_attachment on_load.load true true] none none))
    (by decide) 0 (sample_hinted_before_attachment on_load.load true true) rfl rfl rfl

/-! ## The clear value of every attachment -/

/-- C26: in an object that `create` returns there is one clear value per attachment, and
the clear value at position k belongs to attachment k: it is the colour clear value of
attachment k when the earliest usage of attachment k that is colour or depth/stencil is a
colour usage, its depth/stencil clear value when that usage is a depth/stencil usage, and
the empty clear value when attachment k has no colour and no depth/stencil usage. -/
theorem C26_clear_value_of_attachment (atts : List attachment)
    (aSync : Option (renderpass_sync → renderpass_sync)) (r : renderpass_t)
    (h : create atts aSync none = Except.ok r) :
    r.mClearValues.length = atts.length ∧
    ∀ (k : Nat) (a : attachment), atts[k]? = some a →
      ∃ c, r.mClearValues[k]? = some c ∧
        (∀ u, first_clear_usage a = some u →
          (u.as_color = true →
            c = ClearValue.color a.mColorClearValue.1 a.mColorClearValue.2.1
              a.mColorClearValue.2.2.1 a.mColorClearValue.2.2.2) ∧
          (u.as_depth_stencil = true →
            c = ClearValue.depthStencil a.mDepthClearValue a.mStencilClearValue)) ∧
        (first_clear_usage a = none → c = ClearValue.empty) := by
  obtain ⟨-, hadm, -, hc, -⟩ := create_ok h
  refine ⟨by rw [hc, List.length_map], ?_⟩
  intro k a ha
  refine ⟨clear_value_of a, by rw [hc, List.getElem?_map, ha]; rfl, ?_, ?_⟩
  · intro u hu
    have hun := (hadm.1 a (List.getElem?_mem ha)).2.2
    unfold clear_usage_unambiguous at hun
    rw [hu] at hun
    unfold clear_value_of
    rw [hu]
    constructor
    · intro hcol
      simp [hcol, color_clear_value]
    · intro hds
      have hcol : u.as_color = false := by
        cases hx : u.as_color
        · rfl
        · simp [hx, hds] at hun
      simp [hcol, depth_stencil_clear_value]
  · intro hn
    unfold clear_value_of
    rw [hn]

/-- C26, on the sample declarations (a colour, a colour and a depth/stencil attachment)
and on an attachment whose only usage is an input usage. -/
theorem C26_clear_value_of_attachment_witness :
    (compiled (create sample_attachments none none)).mClearValues.length
        = sample_attachments.length ∧
    (∃ c, (compiled (create sample_attachments none none)).mClearValues[2]? = some c ∧
      c = ClearValue.depthStencil ⟨0x3F800000⟩ 0) ∧
    (∃ c, (compiled (create [sample_attachment [input_usage none]] none none)).mClearValues[0]?
        = some c ∧ c = ClearValue.empty) := by
  have h1 := C26_clear_value_of_attachment sample_attachments none
    (compiled (create sample_attachments none none)) (by decide)
  obtain ⟨c2, e2, f2, -⟩ := h1.2 2 (sample_attachment [depth_stencil_usage]) rfl
  obtain ⟨c0, e0, -, f0⟩ := (C26_clear_value_of_attachment
    [sample_attachment [input_usage none]] none
    (compiled (create [sample_attachment [input_usage none]] none none)) (by decide)).2 0
    (sample_attachment [input_usage none]) rfl
  exact ⟨h1.1, ⟨c2, e2, (f2 depth_stencil_usage rfl).2 rfl⟩, ⟨c0, e0, f0 rfl⟩⟩

/-! ## The resolve reference of every colour reference -/

theorem drop_eq_cons {α : Type} {l : List α} {j : Nat} {x : α} {rest : List α}
    (h : l.drop j = x :: rest) : l[j]? = some x ∧ rest = l.drop (j + 1) := by
  constructor
  · have := List.getElem?_drop l j 0
    rw [h] at this
    simpa using this.symm
  · rw [← List.tail_drop, h]
    rfl

theorem paired_at_explicit (sc sr : location_map) (qc qr : List AttachmentReference)
    (loc : Nat) (h : sc.count loc > 0) : paired_at sc sr qc qr (sc.get loc) (sr.get loc) :=
  Or.inl ⟨loc, h, rfl, rfl⟩

theorem paired_at_queued (sc sr : location_map) (qc qr : List AttachmentReference)
    (j : Nat) (c r : AttachmentReference) (hc : qc[j]? = some c) (hr : qr[j]? = some r) :
    paired_at sc sr qc qr c r :=
  Or.inr (Or.inl ⟨j, hc, hr⟩)

theorem paired_at_unused (sc sr : location_map) (qc qr : List AttachmentReference) :
    paired_at sc sr qc qr unusedAttachmentRef unusedAttachmentRef :=
  Or.inr (Or.inr ⟨rfl, rfl⟩)

/-- The colour loop pushes its two references in one of the three paired ways. -/
theorem fill_ordered_color_paired (sc sr : location_map) (maxLoc : Int)
    (qc qr : List AttachmentReference) :
    ∀ (fuel loc : Nat) (uc ur oc ors c r : List AttachmentReference) (j : Nat),
      uc = qc.drop j → ur = qr.drop j →
      List.Forall₂ (paired_at sc sr qc qr) oc ors →
      fill_ordered_color sc sr maxLoc fuel loc uc ur oc ors = Except.ok (c, r) →
      List.Forall₂ (paired_at sc sr qc qr) c r := by
  intro fuel
  induction fuel with
  | zero => intro loc uc ur oc ors c r j _ _ _ h; simp [fill_ordered_color] at h
  | succ fuel ih =>
    intro loc uc ur oc ors c r j huc hur hpair h
    simp only [fill_ordered_color] at h
    split at h
    · split at h
      · rename_i hpos
        split at h
        · simp at h
        · split at h
          · simp at h
          · exact ih _ _ _ _ _ _ _ j huc hur
              (List.rel_append hpair (List.Forall₂.cons (paired_at_explicit sc sr qc qr loc hpos)
                List.Forall₂.nil)) h
      · split at h
        · rename_i c0 restColor r0 restResolve
          split at h
          · simp at h
          · obtain ⟨g1, g2⟩ := drop_eq_cons huc.symm
            obtain ⟨g3, g4⟩ := drop_eq_cons hur.symm
            exact ih _ _ _ _ _ _ _ (j + 1) g2 g4
              (List.rel_append hpair (List.Forall₂.cons (paired_at_queued sc sr qc qr j _ _ g1 g3)
                List.Forall₂.nil)) h
        · simp at h
        · rename_i hnil
          exact ih _ _ _ _ _ _ _ j huc hur
            (List.rel_append hpair (List.Forall₂.cons (paired_at_unused sc sr qc qr)
              List.Forall₂.nil)) h
    · simp at h
      rw [← h.1, ← h.2]
      exact hpair

theorem forall₂_getElem? {α β : Type} {R : α → β → Prop} :
    ∀ {l1 : List α} {l2 : List β}, List.Forall₂ R l1 l2 → ∀ (p : Nat) (x : α),
      l1[p]? = some x → ∃ y, l2[p]? = some y ∧ R x y := by
  intro l1 l2 h
  induction h with
  | nil => intro p x hx; simp at hx
  | cons hxy _ ih =>
    intro p x hx
    cases p with
    | zero =>
      simp at hx
      subst hx
      exact ⟨_, by simp, hxy⟩
    | succ p =>
      simp at hx
      obtain ⟨y, hy, hr⟩ := ih p x hx
      exact ⟨y, by simpa using hy, hr⟩

theorem helper_of_resolve_get {s k loc : Nat} {es : List (Nat × subpass_usage_type)}
    {u : subpass_usage_type} (hnd : (color_locations es).Nodup) (hmem : (k, u) ∈ es)
    (hloc : color_location_of u = some loc) :
    (helper_of s es).mSpecificResolveLocations.get loc = resolve_ref u := by
  unfold location_map.get
  rw [lookup_of_mem_nodup _ loc (resolve_ref u)]
  · rfl
  · rw [helper_of_resolve_keys]
    exact List.nodup_reverse.mpr hnd
  · simp only [helper_of, List.mem_reverse, List.mem_filterMap]
    exact ⟨(k, u), hmem, by simp [hloc]⟩

/-- The two queues of location-less colour usages hold, place by place, the colour and the
resolve reference of one and the same usage entry. -/
theorem queued_color_and_resolve :
    ∀ (es : List (Nat × subpass_usage_type)) (j : Nat) (c r : AttachmentReference),
      (queued_color_refs es)[j]? = some c → (queued_resolve_refs es)[j]? = some r →
      ∃ k u, (k, u) ∈ es ∧ u.as_color = true ∧ c = color_ref k ∧ r = resolve_ref u := by
  intro es
  induction es with
  | nil => intro j c r hc _; simp [queued_color_refs] at hc
  | cons e rest ih =>
    intro j c r hc hr
    by_cases hq : queued_as_color e.2 = true
    · simp only [queued_color_refs, queued_resolve_refs, List.filterMap_cons, hq, if_true]
        at hc hr
      cases j with
      | zero =>
        simp at hc hr
        refine ⟨e.1, e.2, by simp, ?_, hc.symm, hr.symm⟩
        simp only [queued_as_color, Bool.and_eq_true] at hq
        exact hq.1
      | succ j =>
        simp only [List.getElem?_cons_succ] at hc hr
        obtain ⟨k, u, hm, h1, h2, h3⟩ := ih j c r hc hr
        exact ⟨k, u, List.mem_cons_of_mem _ hm, h1, h2, h3⟩
    · simp only [queued_color_refs, queued_resolve_refs, List.filterMap_cons, hq] at hc hr
      obtain ⟨k, u, hm, h1, h2, h3⟩ := ih j c r hc hr
      exact ⟨k, u, List.mem_cons_of_mem _ hm, h1, h2, h3⟩

/-- A colour reference and the resolve reference pushed with it belong to one usage entry
of the subpass, or both are the "unused" reference. -/
theorem paired_at_helper_of {s : Nat} {es : List (Nat × subpass_usage_type)}
    (hnd : (color_locations es).Nodup) {c r : AttachmentReference}
    (h : paired_at (helper_of s es).mSpecificColorLocations
      (helper_of s es).mSpecificResolveLocations (queued_color_refs es)
      (queued_resolve_refs es) c r) :
    (∃ k u, (k, u) ∈ es ∧ u.as_color = true ∧ c = color_ref k ∧ r = resolve_ref u) ∨
      (c = unusedAttachmentRef ∧ r = unusedAttachmentRef) := by
  rcases h with ⟨loc, hpos, hc, hr⟩ | ⟨j, hc, hr⟩ | hun
  · left
    have hl := (helper_of_color_count s es loc).mp hpos
    simp only [color_locations, List.mem_filterMap] at hl
    obtain ⟨⟨k, u⟩, hm, hloc⟩ := hl
    refine ⟨k, u, hm, ?_, ?_, ?_⟩
    · simp only [color_location_of] at hloc
      by_contra hne
      simp [hne] at hloc
    · rw [hc]
      exact helper_of_color_get hnd hm hloc
    · rw [hr]
      exact helper_of_resolve_get hnd hm hloc
  · exact Or.inl (queued_color_and_resolve es j c r hc hr)
  · exact Or.inr hun

/-- A usage entry in the column of subpass `s` is the entry at `s` of the attachment with
its index. -/
theorem usages_from_mem (s : Nat) :
    ∀ (atts : List attachment) (k0 k : Nat) (u : subpass_usage_type),
      (k, u) ∈ usages_from s k0 atts →
      k0 ≤ k ∧ ∃ a, atts[k - k0]? = some a ∧ a.mSubpassUsages[s]? = some u := by
  intro atts
  induction atts with
  | nil => intro k0 k u h; simp [usages_from] at h
  | cons a rest ih =>
    intro k0 k u h
    simp only [usages_from] at h
    cases hu : a.mSubpassUsages[s]? with
    | none =>
      simp only [hu] at h
      obtain ⟨h1, a1, h2, h3⟩ := ih (k0 + 1) k u h
      refine ⟨by omega, a1, ?_, h3⟩
      have e : k - k0 = (k - (k0 + 1)) + 1 := by omega
      rw [e]
      simpa using h2
    | some u0 =>
      simp only [hu, List.mem_cons, Prod.mk.injEq] at h
      rcases h with ⟨h1, h2⟩ | h
      · subst h1 h2
        exact ⟨Nat.le_refl _, a, by simp, hu⟩
      · obtain ⟨h1, a1, h2, h3⟩ := ih (k0 + 1) k u h
        refine ⟨by omega, a1, ?_, h3⟩
        have e : k - k0 = (k - (k0 + 1)) + 1 := by omega
        rw [e]
        simpa using h2

theorem usages_in_subpass_mem {atts : List attachment} {s k : Nat} {u : subpass_usage_type}
    (h : (k, u) ∈ usages_in_subpass atts s) :
    ∃ a, atts[k]? = some a ∧ a.mSubpassUsages[s]? = some u := by
  obtain ⟨-, a, h1, h2⟩ := usages_from_mem s atts 0 k u h
  exact ⟨a, by simpa using h1, h2⟩

theorem color_ref_ne_unused (k : Nat) : color_ref k ≠ unusedAttachmentRef := by
  intro h
  have := congrArg AttachmentReference.layout h
  simp [color_ref, unusedAttachmentRef] at this

theorem to_uint32_of_lt {k : Nat} (h : k < 4294967296) : to_uint32 k = k :=
  Nat.mod_eq_of_lt h

/-- C27: in every subpass of an object that `create` returns, the resolve references are
as many as the colour references, and at every position p of the colour references either
the colour reference is that of an attachment k whose usage in the subpass is a colour
usage and the resolve reference at p names the resolve target of that usage (the value
`VK_ATTACHMENT_UNUSED` when the usage declares none) with the layout
colour-attachment-optimal, or both references at p are the "unused" reference. With at
most 2^32 attachments the attachment at a position is unique: where the colour reference of
attachment k stands, the resolve reference is the one of the usage of attachment k. -/
theorem C27_resolve_refs_follow_color_refs (atts : List attachment)
    (aSync : Option (renderpass_sync → renderpass_sync)) (r : renderpass_t)
    (h : create atts aSync none = Except.ok r) (s : Nat) (b : subpass_data)
    (hb : r.mSubpassData[s]? = some b) :
    b.mOrderedResolveAttachmentRefs.length = b.mOrderedColorAttachmentRefs.length ∧
    (∀ (p : Nat) (c : AttachmentReference), b.mOrderedColorAttachmentRefs[p]? = some c →
      (∃ k a u, atts[k]? = some a ∧ a.mSubpassUsages[s]? = some u ∧ u.as_color = true ∧
        c = color_ref k ∧
        b.mOrderedResolveAttachmentRefs[p]? =
          some ⟨u.mResolveAttachmentIndex.getD VK_ATTACHMENT_UNUSED,
            ImageLayout.eColorAttachmentOptimal⟩) ∨
      (c = unusedAttachmentRef ∧
        b.mOrderedResolveAttachmentRefs[p]? = some unusedAttachmentRef)) ∧
    (atts.length ≤ 4294967296 →
      ∀ (p k : Nat) (a : attachment) (u : subpass_usage_type), atts[k]? = some a →
        a.mSubpassUsages[s]? = some u →
        b.mOrderedColorAttachmentRefs[p]? = some (color_ref k) →
        b.mOrderedResolveAttachmentRefs[p]? =
          some ⟨u.mResolveAttachmentIndex.getD VK_ATTACHMENT_UNUSED,
            ImageLayout.eColorAttachmentOptimal⟩) := by
  obtain ⟨hlt, hfill⟩ := subpass_data_of_index h hb
  obtain ⟨-, hadm, -⟩ := create_ok h
  obtain ⟨-, hcol, -⟩ := fill_subpass_data_ok hfill
  have hnd := (hadm.2 s hlt).2
  have hpair := fill_ordered_color_paired _ _ _ (queued_color_refs (usages_in_subpass atts s))
    (queued_resolve_refs (usages_in_subpass atts s)) _ _ _ _ _ _ _ _ 0 rfl rfl
    List.Forall₂.nil hcol
  have hres : ∀ u : subpass_usage_type, resolve_ref u =
      ⟨u.mResolveAttachmentIndex.getD VK_ATTACHMENT_UNUSED,
        ImageLayout.eColorAttachmentOptimal⟩ := by
    intro u
    unfold resolve_ref resolve_attachment
    cases u.mResolveAttachmentIndex <;> rfl
  have hpos : ∀ (p : Nat) (c : AttachmentReference),
      b.mOrderedColorAttachmentRefs[p]? = some c →
      (∃ k a u, atts[k]? = some a ∧ a.mSubpassUsages[s]? = some u ∧ u.as_color = true ∧
        c = color_ref k ∧
        b.mOrderedResolveAttachmentRefs[p]? =
          some ⟨u.mResolveAttachmentIndex.getD VK_ATTACHMENT_UNUSED,
            ImageLayout.eColorAttachmentOptimal⟩) ∨
      (c = unusedAttachmentRef ∧
        b.mOrderedResolveAttachmentRefs[p]? = some unusedAttachmentRef) := by
    intro p c hc
    obtain ⟨rr, hrr, hp⟩ := forall₂_getElem? hpair p c hc
    rcases paired_at_helper_of hnd hp with ⟨k, u, hm, hcolor, e1, e2⟩ | ⟨e1, e2⟩
    · obtain ⟨a, ha, hu⟩ := usages_in_subpass_mem hm
      exact Or.inl ⟨k, a, u, ha, hu, hcolor, e1, by rw [hrr, e2, hres]⟩
    · exact Or.inr ⟨e1, by rw [hrr, e2]⟩
  refine ⟨hpair.length_eq.symm, hpos, ?_⟩
  intro hN p k a u ha hu hc
  rcases hpos p _ hc with ⟨k1, a1, u1, ha1, hu1, -, e1, e2⟩ | ⟨e1, -⟩
  · have hk : k < atts.length := (List.getElem?_eq_some.mp ha).1
    have hk1 : k1 < atts.length := (List.getElem?_eq_some.mp ha1).1
    have e3 := congrArg AttachmentReference.attachment e1
    simp only [color_ref] at e3
    rw [to_uint32_of_lt (by omega), to_uint32_of_lt (by omega)] at e3
    subst e3
    rw [ha] at ha1
    simp only [Option.some.injEq] at ha1
    subst ha1
    rw [hu] at hu1
    simp only [Option.some.injEq] at hu1
    subst hu1
    exact e2
  · exact absurd e1 (color_ref_ne_unused k)

/-- C27, on the sample with a resolve target: position 0 holds attachment 0, which is
resolved into attachment 2; position 1 is unused in both sequences; position 2 holds
attachment 1, which declares no resolve target. -/
theorem C27_resolve_refs_follow_color_refs_witness :
    sample_resolving_subpass_data.mOrderedResolveAttachmentRefs[0]?
      = some ⟨2, ImageLayout.eColorAttachmentOptimal⟩ ∧
    sample_resolving_subpass_data.mOrderedResolveAttachmentRefs[2]?
      = some ⟨VK_ATTACHMENT_UNUSED, ImageLayout.eColorAttachmentOptimal⟩ ∧
    sample_resolving_subpass_data.mOrderedResolveAttachmentRefs.length
      = sample_resolving_subpass_data.mOrderedColorAttachmentRefs.length :=
  ⟨(C27_resolve_refs_follow_color_refs sample_resolving_attachments none
      (compiled (create sample_resolving_attachments none none)) (by decide) 0
      sample_resolving_subpass_data (by decide)).2.2 (by decide) 0 0
      (sample_attachment [{ color_usage none with mResolveAttachmentIndex := some 2 }])
      { color_usage none with mResolveAttachmentIndex := some 2 } rfl rfl (by decide),
    (C27_resolve_refs_follow_color_refs sample_resolving_attachments none
      (compiled (create sample_resolving_attachments none none)) (by decide) 0
      sample_resolving_subpass_data (by decide)).2.2 (by decide) 2 1
      (sample_attachment [color_usage (some 2)]) (color_usage (some 2)) rfl rfl (by decide),
    (C27_resolve_refs_follow_color_refs sample_resolving_attachments none
      (compiled (create sample_resolving_attachments none none)) (by decide) 0
      sample_resolving_subpass_data (by decide)).1⟩

/-! ## Creation on well-formed attachment lists -/

/-- On a valid attachment list and with a sync hook that keeps the subpass identifiers,
`create` reaches the creation call of line 434 and returns, whatever the configuration
hook. -/
theorem create_succeeds {atts : List attachment}
    (aSync : Option (renderpass_sync → renderpass_sync))
    (aAlter : Option (renderpass_t → renderpass_t)) (hv : valid_attachments atts)
    (hs : sync_keeps_subpass_ids aSync) :
    ∃ r, create atts aSync aAlter = Except.ok r ∧ ∃ info, r.mRenderPass = some info := by
  obtain ⟨hne, h1, h2, hadm, hds⟩ := hv
  cases atts with
  | nil => exact absurd rfl hne
  | cons front rest =>
    simp only [num_subpasses_first] at h1 h2 hadm hds
    obtain ⟨st, data, hst, hdata⟩ := create_reaches_dependencies hadm hds
    obtain ⟨deps, hdeps⟩ := subpass_dependencies_succeeds front.mSubpassUsages.length aSync
      h1 h2 hs
    simp only [create, hst, hdata, hdeps]
    exact ⟨_, rfl, _, rfl⟩

theorem usage_passes_assertions_of {u : subpass_usage_type}
    (hres : u.has_resolve = true → u.as_color = true)
    (hpres : u.as_preserve = true →
      u.as_input = false ∧ u.as_color = false ∧ u.as_depth_stencil = false) :
    usage_passes_assertions u = true := by
  unfold usage_passes_assertions
  cases h1 : u.as_preserve <;> cases h2 : u.has_resolve <;> cases h3 : u.as_color <;>
    simp_all

/-- C28, as amended: `create` returns an object, having passed every check and reached the
creation call, for every well-formed attachment list (not empty, equal subpass counts
S >= 1, no explicit input or colour location twice in a subpass, at most one depth/stencil
usage per subpass, preserve never combined with another flag) when moreover S fits 32
bits, a resolve target is declared on colour usages only, the earliest colour or
depth/stencil usage of no attachment is both at once, and the sync hook keeps the subpass
identifiers; whatever the configuration hook. -/
theorem C28_create_succeeds_on_well_formed (atts : List attachment)
    (aSync : Option (renderpass_sync → renderpass_sync))
    (aAlter : Option (renderpass_t → renderpass_t))
    (hw : well_formed_attachments atts)
    (hS : num_subpasses_first atts < 4294967296)
    (hres : ∀ a ∈ atts, ∀ u ∈ a.mSubpassUsages, u.has_resolve = true → u.as_color = true)
    (hclear : ∀ a ∈ atts, clear_usage_unambiguous a = true)
    (hs : sync_keeps_subpass_ids aSync) :
    ∃ r, create atts aSync aAlter = Except.ok r ∧ ∃ info, r.mRenderPass = some info := by
  obtain ⟨hne, h1, hlen, hsub, hpres⟩ := hw
  apply create_succeeds aSync aAlter _ hs
  refine ⟨hne, h1, hS, ⟨?_, ?_⟩, ?_⟩
  · intro a ha
    exact ⟨hlen a ha, fun u hu => usage_passes_assertions_of (hres a ha u hu)
      (hpres a ha u hu), hclear a ha⟩
  · intro s hs1
    exact ⟨(hsub s hs1).1, (hsub s hs1).2.1⟩
  · intro s hs1
    exact (hsub s hs1).2.2

/-- C28 as amended, on the sample declarations without hooks, which omit a colour
location, and on one attachment whose usage is input and colour at once. -/
theorem C28_create_succeeds_on_well_formed_witness :
    (∃ r, create sample_attachments none none = Except.ok r ∧
      ∃ info, r.mRenderPass = some info) ∧
    (∃ r, create [sample_attachment [input_and_color_usage]] none none = Except.ok r ∧
      ∃ info, r.mRenderPass = some info) :=
  ⟨C28_create_succeeds_on_well_formed sample_attachments none none (by decide) (by decide)
      (by decide) (by decide) (fun _ => ⟨rfl, rfl⟩),
    C28_create_succeeds_on_well_formed [sample_attachment [input_and_color_usage]] none none
      (by decide) (by decide) (by decide) (by decide) (fun _ => ⟨rfl, rfl⟩)⟩

/-- C28 as stated fails: each of the three attachment lists is well-formed, and `create`
ends with a failed assertion on the first, whose only usage entry is colour and
depth/stencil at once (line 200), on the second, whose input usage declares a resolve
target (line 206), and on the third when the sync hook redirects the leading edge
(line 385). -/
theorem C28_counterexample :
    well_formed_attachments [sample_attachment [color_and_depth_stencil_usage]] ∧
    create [sample_attachment [color_and_depth_stencil_usage]] none none
      = Except.error (create_error.assertion_failed 200) ∧
    well_formed_attachments [sample_attachment [input_usage_with_resolve]] ∧
    create [sample_attachment [input_usage_with_resolve]] none none
      = Except.error (create_error.assertion_failed 206) ∧
    well_formed_attachments sample_two_subpasses ∧
    create sample_two_subpasses (some sample_redirecting_sync) none
      = Except.error (create_error.assertion_failed 385) := by
  decide

/-! ## The ordered references as a rearrangement of the declared usages -/

/-- The values of the entries at or above a claimed location: the value at the location,
then those above it. -/
theorem values_from_split :
    ∀ (m : location_map) (loc : Nat) (v : AttachmentReference),
      (m.map Prod.fst).Nodup → m.lookup loc = some v →
      ((m.filter (fun e => decide (loc ≤ e.1))).map Prod.snd).Perm
        (v :: (m.filter (fun e => decide (loc + 1 ≤ e.1))).map Prod.snd) := by
  intro m
  induction m with
  | nil => intro loc v _ h; simp at h
  | cons e rest ih =>
    intro loc v hnd hl
    obtain ⟨k, w⟩ := e
    simp only [List.map_cons, List.nodup_cons] at hnd
    by_cases hk : loc = k
    · subst hk
      simp only [List.lookup, beq_self_eq_true, Option.some.injEq] at hl
      subst hl
      have hrest : rest.filter (fun e => decide (loc ≤ e.1))
          = rest.filter (fun e => decide (loc + 1 ≤ e.1)) := by
        apply List.filter_congr
        intro e he
        have hne : e.1 ≠ loc := by
          intro heq
          exact hnd.1 (List.mem_map.mpr ⟨e, he, heq⟩)
        simp only [decide_eq_decide]
        omega
      simp [List.filter_cons, hrest]
    · have hb : (loc == k) = false := by simpa using hk
      simp only [List.lookup, hb] at hl
      have ih1 := ih loc v hnd.2 hl
      by_cases hle : loc ≤ k
      · have hle1 : loc + 1 ≤ k := by omega
        simp only [List.filter_cons, hle, hle1, decide_True, if_true, List.map_cons]
        exact (List.Perm.cons w ih1).trans (List.Perm.swap v w _)
      · have hle1 : ¬ loc + 1 ≤ k := by omega
        simp only [List.filter_cons, hle, hle1, decide_False]
        exact ih1

theorem values_from_unclaimed (m : location_map) (loc : Nat) (h : m.count loc = 0) :
    m.filter (fun e => decide (loc ≤ e.1)) = m.filter (fun e => decide (loc + 1 ≤ e.1)) := by
  apply List.filter_congr
  intro e he
  have hne : e.1 ≠ loc := by
    intro heq
    exact (count_eq_zero_iff m loc).mp h (List.mem_map.mpr ⟨e, he, heq⟩)
  simp only [decide_eq_decide]
  omega

theorem lookup_eq_some_get (m : location_map) (loc : Nat) (h : m.count loc > 0) :
    m.lookup loc = some (m.get loc) := by
  unfold location_map.count at h
  unfold location_map.get
  cases hl : m.lookup loc with
  | none => simp [hl] at h
  | some v => rfl

/-- The loop of `fill_ordered` returns a rearrangement of what was pushed before, what is
still queued, the values at the explicit locations not yet passed, and some "unused"
references. -/
theorem fill_ordered_perm (line : Nat) (specific : location_map) (maxLoc : Int)
    (hnd : (specific.map Prod.fst).Nodup)
    (hmax : ∀ e ∈ specific, (e.1 : Int) ≤ maxLoc) :
    ∀ (fuel loc : Nat) (qr out res : List AttachmentReference),
      fill_ordered line specific maxLoc fuel loc qr out = Except.ok res →
      ∃ n, res.Perm (out ++ qr ++
        (specific.filter (fun e => decide (loc ≤ e.1))).map Prod.snd ++
        List.replicate n unusedAttachmentRef) := by
  intro fuel
  induction fuel with
  | zero => intro loc qr out res h; simp [fill_ordered] at h
  | succ fuel ih =>
    intro loc qr out res h
    simp only [fill_ordered] at h
    split at h
    · split at h
      · rename_i hpos
        split at h
        · simp at h
        · obtain ⟨n, hp⟩ := ih _ _ _ _ h
          refine ⟨n, hp.trans ?_⟩
          have hsplit := values_from_split specific loc _ hnd
            (lookup_eq_some_get specific loc hpos)
          rw [List.perm_iff_count]
          intro x
          have hc := hsplit.count_eq x
          simp only [List.count_append, List.count_cons, List.count_nil] at hc ⊢
          omega
      · rename_i hzero
        have hz : specific.count loc = 0 := by omega
        rw [values_from_unclaimed specific loc hz]
        split at h
        · obtain ⟨n, hp⟩ := ih _ _ _ _ h
          refine ⟨n, hp.trans ?_⟩
          simp
        · obtain ⟨n, hp⟩ := ih _ _ _ _ h
          refine ⟨n + 1, hp.trans ?_⟩
          rw [List.perm_iff_count]
          intro x
          simp only [List.count_append, List.count_cons, List.count_nil, List.count_replicate]
          split <;> omega
    · rename_i hcond
      simp at h
      subst h
      have hq : qr = [] := by
        by_contra hne
        exact hcond (Or.inr hne)
      have hlt : ¬ (loc : Int) ≤ maxLoc := fun hle => hcond (Or.inl hle)
      subst hq
      refine ⟨0, ?_⟩
      have hnil : specific.filter (fun e => decide (loc ≤ e.1)) = [] := by
        rw [List.filter_eq_nil_iff]
        intro e he
        have := hmax e he
        simp only [decide_eq_true_eq]
        omega
      simp [hnil]

/-- The references that the loop of `fill_ordered` returns, started at location 0: the
queued ones, the values at the explicit locations, and some "unused" references. -/
theorem fill_ordered_perm_zero (line : Nat) (specific : location_map) (maxLoc : Int)
    (hnd : (specific.map Prod.fst).Nodup)
    (hmax : ∀ e ∈ specific, (e.1 : Int) ≤ maxLoc)
    (fuel : Nat) (q res : List AttachmentReference)
    (h : fill_ordered line specific maxLoc fuel 0 q [] = Except.ok res) :
    ∃ n, res.Perm (q ++ specific.map Prod.snd ++ List.replicate n unusedAttachmentRef) := by
  obtain ⟨n, hp⟩ := fill_ordered_perm line specific maxLoc hnd hmax fuel 0 q [] res h
  refine ⟨n, hp.trans ?_⟩
  simp

theorem filterMap_if_eq_map_filter {α β : Type} (p : α → Bool) (f : α → β) :
    ∀ (l : List α), l.filterMap (fun e => if p e then some (f e) else none)
      = (l.filter p).map f := by
  intro l
  induction l with
  | nil => rfl
  | cons e rest ih =>
    by_cases h : p e = true
    · simp [List.filterMap_cons, List.filter_cons, h, ih]
    · simp [List.filterMap_cons, List.filter_cons, h, ih]

/-- The queued references and the values at the explicit locations of one category are,
together, the references of the usage entries of that category. -/
theorem queued_and_explicit_perm (flag : subpass_usage_type → Bool)
    (loc_of : subpass_usage_type → Option Nat) (mk : Nat → AttachmentReference) :
    ∀ (es : List (Nat × subpass_usage_type)),
      (es.filterMap (fun e => if flag e.2 && (loc_of e.2).isNone then some (mk e.1) else none)
        ++ (es.filterMap (fun e =>
          (if flag e.2 then loc_of e.2 else none).map (fun loc => (loc, mk e.1)))).map
            Prod.snd).Perm
        (((es.filter (fun e => flag e.2)).map Prod.fst).map mk) := by
  intro es
  induction es with
  | nil => simp
  | cons e rest ih =>
    cases hf : flag e.2 with
    | false =>
      simpa [List.filterMap_cons, List.filter_cons, hf] using ih
    | true =>
      cases hl : loc_of e.2 with
      | none =>
        simp only [List.filterMap_cons, List.filter_cons, hf, hl, Option.isNone_none,
          Bool.and_self, if_true, Option.map_none', List.map_cons, List.cons_append]
        exact List.Perm.cons _ ih
      | some loc =>
        simp only [List.filterMap_cons, List.filter_cons, hf, hl, Option.isNone_some,
          Bool.and_false, if_true, Option.map_some', List.map_cons, Bool.false_eq_true,
          if_false]
        exact List.perm_middle.trans (List.Perm.cons _ ih)

theorem helper_of_input_values (s : Nat) (es : List (Nat × subpass_usage_type)) :
    (queued_input_refs es ++ (helper_of s es).mSpecificInputLocations.map Prod.snd).Perm
      (((es.filter (fun e => e.2.as_input)).map Prod.fst).map input_ref) := by
  have h := queued_and_explicit_perm (fun u => u.as_input) (fun u => u.mInputLocation)
    input_ref es
  refine (List.Perm.append_left _ ?_).trans h
  simp only [helper_of, input_location_of]
  exact (List.reverse_perm _).map _

theorem helper_of_color_values (s : Nat) (es : List (Nat × subpass_usage_type)) :
    (queued_color_refs es ++ (helper_of s es).mSpecificColorLocations.map Prod.snd).Perm
      (((es.filter (fun e => e.2.as_color)).map Prod.fst).map color_ref) := by
  have h := queued_and_explicit_perm (fun u => u.as_color) (fun u => u.mColorLocation)
    color_ref es
  refine (List.Perm.append_left _ ?_).trans h
  simp only [helper_of, color_location_of]
  exact (List.reverse_perm _).map _

/-- The attachment indices in the column of a subpass ascend. -/
theorem usages_from_pairwise (s : Nat) :
    ∀ (atts : List attachment) (k0 : Nat),
      ((usages_from s k0 atts).map Prod.fst).Pairwise (fun a b => a < b) := by
  intro atts
  induction atts with
  | nil => intro k0; simp [usages_from]
  | cons a rest ih =>
    intro k0
    simp only [usages_from]
    cases hu : a.mSubpassUsages[s]? with
    | none => exact ih (k0 + 1)
    | some u =>
      simp only [List.map_cons, List.pairwise_cons]
      refine ⟨?_, ih (k0 + 1)⟩
      intro k hk
      obtain ⟨⟨k1, u1⟩, hmem, rfl⟩ := List.mem_map.mp hk
      have := (usages_from_mem s rest (k0 + 1) k1 u1 hmem).1
      show k0 < k1
      omega

/-- The declared indices of a flag ascend, are the indices of the attachments whose usage
entry at the subpass has the flag, and lie below the number of attachments. -/
theorem declared_indices_spec (flag : subpass_usage_type → Bool) (atts : List attachment)
    (s : Nat) :
    (declared_indices flag atts s).Pairwise (fun a b => a < b) ∧
    (∀ k, k ∈ declared_indices flag atts s ↔
      ∃ a u, atts[k]? = some a ∧ a.mSubpassUsages[s]? = some u ∧ flag u = true) ∧
    ∀ k ∈ declared_indices flag atts s, k < atts.length := by
  have hmem : ∀ k, k ∈ declared_indices flag atts s ↔
      ∃ a u, atts[k]? = some a ∧ a.mSubpassUsages[s]? = some u ∧ flag u = true := by
    intro k
    simp only [declared_indices, List.mem_map, List.mem_filter]
    constructor
    · rintro ⟨⟨k1, u⟩, ⟨hm, hf⟩, rfl⟩
      obtain ⟨a, ha, hu⟩ := usages_in_subpass_mem hm
      exact ⟨a, u, ha, hu, hf⟩
    · rintro ⟨a, u, ha, hu, hf⟩
      exact ⟨(k, u), ⟨mem_usages_in_subpass ha hu, hf⟩, rfl⟩
  refine ⟨?_, hmem, ?_⟩
  · unfold declared_indices usages_in_subpass
    exact (usages_from_pairwise s atts 0).sublist
      ((List.filter_sublist _).map Prod.fst)
  · intro k hk
    obtain ⟨a, u, ha, -, -⟩ := (hmem k).mp hk
    exact (List.getElem?_eq_some.mp ha).1

/-- The reference sequences of a subpass of an object that `create` returns are
rearrangements of the references of the attachments that declare the usage, with some
"unused" references in between; the preserve list is the list of the declared indices. -/
theorem ordered_refs_perm {atts : List attachment}
    {aSync : Option (renderpass_sync → renderpass_sync)} {r : renderpass_t}
    (h : create atts aSync none = Except.ok r) {s : Nat} {b : subpass_data}
    (hb : r.mSubpassData[s]? = some b) :
    (∃ n, b.mOrderedInputAttachmentRefs.Perm
      ((declared_indices (fun u => u.as_input) atts s).map input_ref
        ++ List.replicate n unusedAttachmentRef)) ∧
    (∃ n, b.mOrderedColorAttachmentRefs.Perm
      ((declared_indices (fun u => u.as_color) atts s).map color_ref
        ++ List.replicate n unusedAttachmentRef)) ∧
    (∃ n, b.mOrderedDepthStencilAttachmentRefs.Perm
      ((declared_indices (fun u => u.as_depth_stencil) atts s).map depth_stencil_ref
        ++ List.replicate n unusedAttachmentRef)) ∧
    b.mPreserveAttachments
      = (declared_indices (fun u => u.as_preserve) atts s).map to_uint32 := by
  obtain ⟨hnd1, hnd2, ⟨fuel1, hin⟩, ⟨fuel2, hcol⟩⟩ := ordered_refs_of_create h hb
  obtain ⟨-, hfill⟩ := subpass_data_of_index h hb
  obtain ⟨-, -, hds, -, -, hpres⟩ := fill_subpass_data_ok hfill
  refine ⟨?_, ?_, ?_, ?_⟩
  · obtain ⟨n, hp⟩ := fill_ordered_perm_zero 266 _ _
      (by rw [helper_of_input_keys]; exact List.nodup_reverse.mpr hnd1)
      (by
        intro e he
        apply max_location_ge
        have : e.1 ∈ (helper_of s (usages_in_subpass atts s)).mSpecificInputLocations.map
            Prod.fst := List.mem_map.mpr ⟨e, he, rfl⟩
        rw [helper_of_input_keys] at this
        exact List.mem_reverse.mp this)
      fuel1 _ _ hin
    exact ⟨n, hp.trans ((helper_of_input_values s _).append_right _)⟩
  · obtain ⟨n, hp⟩ := fill_ordered_perm_zero 282 _ _
      (by rw [helper_of_color_keys]; exact List.nodup_reverse.mpr hnd2)
      (by
        intro e he
        apply max_location_ge
        have : e.1 ∈ (helper_of s (usages_in_subpass atts s)).mSpecificColorLocations.map
            Prod.fst := List.mem_map.mpr ⟨e, he, rfl⟩
        rw [helper_of_color_keys] at this
        exact List.mem_reverse.mp this)
      fuel2 _ _ hcol
    exact ⟨n, hp.trans ((helper_of_color_values s _).append_right _)⟩
  · obtain ⟨n, hp⟩ := fill_ordered_perm_zero 304
      (helper_of s (usages_in_subpass atts s)).mSpecificDepthStencilLocations
      (helper_of s (usages_in_subpass atts s)).mDepthStencilMaxLoc
      (by simp [helper_of]) (by intro e he; simp [helper_of] at he) _ _ _ hds
    refine ⟨n, hp.trans ?_⟩
    have hq : (helper_of s (usages_in_subpass atts s)).mUnspecifiedDepthStencilLocations
        = (declared_indices (fun u => u.as_depth_stencil) atts s).map depth_stencil_ref := by
      show depth_stencil_refs (usages_in_subpass atts s) = _
      unfold depth_stencil_refs declared_indices
      rw [filterMap_if_eq_map_filter
        (fun (e : Nat × subpass_usage_type) => e.2.as_depth_stencil)
        (fun (e : Nat × subpass_usage_type) => depth_stencil_ref e.1), List.map_map]
      rfl
    have hs : (helper_of s (usages_in_subpass atts s)).mSpecificDepthStencilLocations = [] :=
      rfl
    rw [hq, hs]
    simp
  · rw [hpres]
    show preserve_indices (usages_in_subpass atts s) = _
    unfold preserve_indices declared_indices
    rw [filterMap_if_eq_map_filter (fun (e : Nat × subpass_usage_type) => e.2.as_preserve)
      (fun (e : Nat × subpass_usage_type) => to_uint32 e.1), List.map_map]
    rfl

theorem input_ref_ne_unused (k : Nat) : input_ref k ≠ unusedAttachmentRef := by
  intro h
  have := congrArg AttachmentReference.layout h
  simp [input_ref, unusedAttachmentRef] at this

/-- Whether a reference sequence names attachment `i`, when the sequence is a
rearrangement of the references of the indices `D` and of "unused" references. -/
theorem any_attachment_of_perm {l : List AttachmentReference} {D : List Nat}
    {mk : Nat → AttachmentReference} {n N i : Nat}
    (hmk : ∀ k, (mk k).attachment = to_uint32 k)
    (hp : l.Perm (D.map mk ++ List.replicate n unusedAttachmentRef))
    (hD : ∀ k ∈ D, k < N) (hN : N < 4294967296) (hi : i < N) :
    l.any (fun ref => decide (ref.attachment = i)) = decide (i ∈ D) := by
  rw [Bool.eq_iff_iff]
  simp only [List.any_eq_true, decide_eq_true_eq]
  constructor
  · rintro ⟨ref, hmem, hatt⟩
    rw [hp.mem_iff, List.mem_append] at hmem
    rcases hmem with hmem | hmem
    · obtain ⟨k, hk, rfl⟩ := List.mem_map.mp hmem
      rw [hmk k, to_uint32_of_lt (by have := hD k hk; omega)] at hatt
      subst hatt
      exact hk
    · have := List.eq_of_mem_replicate hmem
      subst this
      simp only [unusedAttachmentRef, VK_ATTACHMENT_UNUSED] at hatt
      omega
  · intro hi1
    refine ⟨mk i, ?_, ?_⟩
    · rw [hp.mem_iff, List.mem_append]
      exact Or.inl (List.mem_map.mpr ⟨i, hi1, rfl⟩)
    · rw [hmk i, to_uint32_of_lt (by omega)]

theorem mem_declared_iff_flag {flag : subpass_usage_type → Bool} {atts : List attachment}
    {s i : Nat} {a : attachment} {u : subpass_usage_type} (ha : atts[i]? = some a)
    (hu : a.mSubpassUsages[s]? = some u) :
    decide (i ∈ declared_indices flag atts s) = flag u := by
  rw [Bool.eq_iff_iff]
  simp only [decide_eq_true_eq]
  rw [(declared_indices_spec flag atts s).2.1 i]
  constructor
  · rintro ⟨a1, u1, ha1, hu1, hf⟩
    rw [ha] at ha1
    simp only [Option.some.injEq] at ha1
    subst ha1
    rw [hu] at hu1
    simp only [Option.some.injEq] at hu1
    subst hu1
    exact hf
  · intro hf
    exact ⟨a, u, ha, hu, hf⟩

theorem any_index_of_declared {D : List Nat} {N i : Nat} (hD : ∀ k ∈ D, k < N)
    (hN : N < 4294967296) :
    (D.map to_uint32).any (fun idx => decide (idx = i)) = decide (i ∈ D) := by
  rw [Bool.eq_iff_iff]
  simp only [List.any_eq_true, decide_eq_true_eq, List.mem_map]
  constructor
  · rintro ⟨idx, ⟨k, hk, rfl⟩, hidx⟩
    rw [to_uint32_of_lt (by have := hD k hk; omega)] at hidx
    subst hidx
    exact hk
  · intro hi
    exact ⟨to_uint32 i, ⟨i, hi, rfl⟩, to_uint32_of_lt (by have := hD i hi; omega)⟩

/-- C29: for an object that `create` returns for fewer than 2^32 attachments, and for the
usage entry of attachment i at subpass s, the queries `is_input_attachment`,
`is_color_attachment`, `is_depth_stencil_attachment` and `is_preserve_attachment` at
(s, i) pass their assertions and return the input, the colour, the depth/stencil and the
preserve flag of that usage entry. -/
theorem C29_queries_agree_with_declaration (atts : List attachment)
    (aSync : Option (renderpass_sync → renderpass_sync)) (r : renderpass_t)
    (h : create atts aSync none = Except.ok r) (hN : atts.length < 4294967296)
    (s i : Nat) (a : attachment) (u : subpass_usage_type) (ha : atts[i]? = some a)
    (hu : a.mSubpassUsages[s]? = some u) :
    r.is_input_attachment s i = some u.as_input ∧
    r.is_color_attachment s i = some u.as_color ∧
    r.is_depth_stencil_attachment s i = some u.as_depth_stencil ∧
    r.is_preserve_attachment s i = some u.as_preserve := by
  obtain ⟨-, hadm, hd, -, -, -, -, -, hs⟩ := create_ok h
  obtain ⟨b, hb, -⟩ := hs s (subpass_lt_of_usage hadm ha hu)
  obtain ⟨⟨n1, p1⟩, ⟨n2, p2⟩, ⟨n3, p3⟩, p4⟩ := ordered_refs_perm h hb
  have hi : i < atts.length := (List.getElem?_eq_some.mp ha).1
  have hD := fun flag => (declared_indices_spec flag atts s).2.2
  refine ⟨?_, ?_, ?_, ?_⟩
  · simp only [renderpass_t.is_input_attachment, hb, hd, List.length_map, hi, if_true]
    rw [any_attachment_of_perm (fun _ => rfl) p1 (hD _) hN hi, mem_declared_iff_flag ha hu]
  · simp only [renderpass_t.is_color_attachment, hb, hd, List.length_map, hi, if_true]
    rw [any_attachment_of_perm (fun _ => rfl) p2 (hD _) hN hi, mem_declared_iff_flag ha hu]
  · simp only [renderpass_t.is_depth_stencil_attachment, hb, hd, List.length_map, hi, if_true]
    rw [any_attachment_of_perm (fun _ => rfl) p3 (hD _) hN hi, mem_declared_iff_flag ha hu]
  · simp only [renderpass_t.is_preserve_attachment, hb, hd, List.length_map, hi, if_true]
    rw [p4, any_index_of_declared (hD _) hN, mem_declared_iff_flag ha hu]

/-- C29, on the sample declarations: attachment 1 is a colour attachment of subpass 0 and
nothing else, attachment 2 its depth/stencil attachment. -/
theorem C29_queries_agree_with_declaration_witness :
    ((compiled (create sample_attachments none none)).is_input_attachment 0 1 = some false ∧
      (compiled (create sample_attachments none none)).is_color_attachment 0 1 = some true ∧
      (compiled (create sample_attachments none none)).is_depth_stencil_attachment 0 1
        = some false ∧
      (compiled (create sample_attachments none none)).is_preserve_attachment 0 1
        = some false) ∧
    (compiled (create sample_attachments none none)).is_depth_stencil_attachment 0 2
      = some true :=
  ⟨C29_queries_agree_with_declaration sample_attachments none
      (compiled (create sample_attachments none none)) (by decide) (by decide) 0 1
      (sample_attachment [color_usage (some 0)]) (color_usage (some 0)) rfl rfl,
    (C29_queries_agree_with_declaration sample_attachments none
      (compiled (create sample_attachments none none)) (by decide) (by decide) 0 2
      (sample_attachment [depth_stencil_usage]) depth_stencil_usage rfl rfl).2.2.1⟩

/-- The attachments named by the references of a sequence that are not the "unused"
reference, when the sequence is a rearrangement of the references of the indices `D` and
of "unused" references. -/
theorem used_attachments_of_perm {l : List AttachmentReference} {D : List Nat}
    {mk : Nat → AttachmentReference} {n N : Nat}
    (hmk : ∀ k, (mk k).attachment = to_uint32 k) (hne : ∀ k, mk k ≠ unusedAttachmentRef)
    (hp : l.Perm (D.map mk ++ List.replicate n unusedAttachmentRef))
    (hD : ∀ k ∈ D, k < N) (hN : N < 4294967296) :
    ((l.filter (fun ref => decide (ref ≠ unusedAttachmentRef))).map
      (fun ref => ref.attachment)).Perm D := by
  have h1 := (hp.filter (fun ref => decide (ref ≠ unusedAttachmentRef))).map
    (fun ref => ref.attachment)
  have h2 : (D.map mk).filter (fun ref => decide (ref ≠ unusedAttachmentRef)) = D.map mk := by
    rw [List.filter_eq_self]
    intro ref href
    obtain ⟨k, -, rfl⟩ := List.mem_map.mp href
    simpa using hne k
  have h3 : (List.replicate n unusedAttachmentRef).filter
      (fun ref => decide (ref ≠ unusedAttachmentRef)) = [] := by
    rw [List.filter_eq_nil_iff]
    intro ref href
    have := List.eq_of_mem_replicate href
    simp [this]
  have h4 : (D.map mk).map (fun ref => ref.attachment) = D := by
    rw [List.map_map]
    conv_rhs => rw [← List.map_id D]
    apply List.map_congr_left
    intro k hk
    simp only [Function.comp_def, hmk k, id]
    exact to_uint32_of_lt (by have := hD k hk; omega)
  rw [List.filter_append, h2, h3, List.append_nil, h4] at h1
  exact h1

/-- C30: in every subpass of an object that `create` returns for fewer than 2^32
attachments, the input (colour) references other than the "unused" reference name, up to
their order, exactly the indices of the attachments whose usage in the subpass is an input
(colour) usage, each index once and each below the number of attachments; and the preserve
list is exactly the ascending list of the indices of the attachments whose usage in the
subpass is preserve. -/
theorem C30_no_usage_lost_or_duplicated (atts : List attachment)
    (aSync : Option (renderpass_sync → renderpass_sync)) (r : renderpass_t)
    (h : create atts aSync none = Except.ok r) (hN : atts.length < 4294967296)
    (s : Nat) (b : subpass_data) (hb : r.mSubpassData[s]? = some b) :
    ((b.mOrderedInputAttachmentRefs.filter
        (fun ref => decide (ref ≠ unusedAttachmentRef))).map (fun ref => ref.attachment)).Perm
      (declared_indices (fun u => u.as_input) atts s) ∧
    ((b.mOrderedColorAttachmentRefs.filter
        (fun ref => decide (ref ≠ unusedAttachmentRef))).map (fun ref => ref.attachment)).Perm
      (declared_indices (fun u => u.as_color) atts s) ∧
    b.mPreserveAttachments = declared_indices (fun u => u.as_preserve) atts s ∧
    (∀ ref ∈ b.mOrderedInputAttachmentRefs ++ b.mOrderedColorAttachmentRefs,
      ref ≠ unusedAttachmentRef → ref.attachment < atts.length) ∧
    ∀ flag : subpass_usage_type → Bool,
      (declared_indices flag atts s).Pairwise (fun i j => i < j) ∧
      (∀ k, k ∈ declared_indices flag atts s ↔
        ∃ a u, atts[k]? = some a ∧ a.mSubpassUsages[s]? = some u ∧ flag u = true) ∧
      ∀ k ∈ declared_indices flag atts s, k < atts.length := by
  obtain ⟨⟨n1, p1⟩, ⟨n2, p2⟩, -, p4⟩ := ordered_refs_perm h hb
  have hD := fun flag => (declared_indices_spec flag atts s).2.2
  have q1 := used_attachments_of_perm (fun _ => rfl) input_ref_ne_unused p1 (hD _) hN
  have q2 := used_attachments_of_perm (fun _ => rfl) color_ref_ne_unused p2 (hD _) hN
  refine ⟨q1, q2, ?_, ?_, fun flag => declared_indices_spec flag atts s⟩
  · rw [p4]
    conv_rhs => rw [← List.map_id (declared_indices (fun u => u.as_preserve) atts s)]
    apply List.map_congr_left
    intro k hk
    exact to_uint32_of_lt (by have := hD _ k hk; omega)
  · intro ref href hne
    rw [List.mem_append] at href
    rcases href with href | href
    · have hm : ref.attachment ∈ (b.mOrderedInputAttachmentRefs.filter
          (fun ref => decide (ref ≠ unusedAttachmentRef))).map (fun ref => ref.attachment) :=
        List.mem_map.mpr ⟨ref, List.mem_filter.mpr ⟨href, by simpa using hne⟩, rfl⟩
      exact hD _ _ (q1.mem_iff.mp hm)
    · have hm : ref.attachment ∈ (b.mOrderedColorAttachmentRefs.filter
          (fun ref => decide (ref ≠ unusedAttachmentRef))).map (fun ref => ref.attachment) :=
        List.mem_map.mpr ⟨ref, List.mem_filter.mpr ⟨href, by simpa using hne⟩, rfl⟩
      exact hD _ _ (q2.mem_iff.mp hm)

/-- C30, on the sample with a resolve target, whose colour references are attachment 0,
"unused", attachment 1. -/
theorem C30_no_usage_lost_or_duplicated_witness :
    ((sample_resolving_subpass_data.mOrderedColorAttachmentRefs.filter
        (fun ref => decide (ref ≠ unusedAttachmentRef))).map (fun ref => ref.attachment)).Perm
      (declared_indices (fun u => u.as_color) sample_resolving_attachments 0) ∧
    sample_resolving_subpass_data.mPreserveAttachments
      = declared_indices (fun u => u.as_preserve) sample_resolving_attachments 0 :=
  ⟨(C30_no_usage_lost_or_duplicated sample_resolving_attachments none
      (compiled (create sample_resolving_attachments none none)) (by decide) (by decide) 0
      sample_resolving_subpass_data (by decide)).2.1,
    (C30_no_usage_lost_or_duplicated sample_resolving_attachments none
      (compiled (create sample_resolving_attachments none none)) (by decide) (by decide) 0
      sample_resolving_subpass_data (by decide)).2.2.1⟩

/-! ## Device queues: a queue is bound whenever a family matches -/

theorem mem_enumerate_pairs :
    ∀ (families : List queue_family) (p : Nat × Nat),
      p ∈ enumerate_pairs families ↔
        ∃ f ∈ families, p.1 = f.index ∧ p.2 < f.queueCount := by
  intro families
  induction families with
  | nil => intro p; simp [enumerate_pairs]
  | cons family rest ih =>
    intro p
    simp only [enumerate_pairs, List.mem_append, List.mem_map, List.mem_range, ih,
      List.mem_cons, exists_eq_or_imp]
    constructor
    · rintro (⟨qi, hqi, rfl⟩ | h)
      · exact Or.inl ⟨rfl, hqi⟩
      · exact Or.inr h
    · rintro (⟨h1, h2⟩ | h)
      · exact Or.inl ⟨p.2, h2, by rw [← h1]⟩
      · exact Or.inr h

/-- The indices that the loops of `prepare` set before the jump to `found_indices`: those
of the first enumerated pair that the strategy looks for, the queue index replaced by 0
under `prefer_everything_on_single_queue`. -/
theorem find_indices_eq (aSelectionStrategy : device_queue_selection_strategy)
    (ledger : List device_queue) (families : List queue_family) :
    find_indices aSelectionStrategy ledger families
      = ((enumerate_pairs families).find? (satisfies_strategy aSelectionStrategy ledger)).map
          (fun p => match aSelectionStrategy with
            | device_queue_selection_strategy.prefer_separate_queues => p
            | device_queue_selection_strategy.prefer_everything_on_single_queue => (p.1, 0)) := by
  cases aSelectionStrategy with
  | prefer_separate_queues =>
    have hs : satisfies_strategy device_queue_selection_strategy.prefer_separate_queues ledger
        = fun p => !already_in_use ledger p.1 p.2 := by
      funext p
      rfl
    rw [find_indices_separate, hs]
    cases (enumerate_pairs families).find? (fun p => !already_in_use ledger p.1 p.2) <;> rfl
  | prefer_everything_on_single_queue =>
    rw [find_indices_single]
    rfl

/-- The queue index that the loops of `prepare` set is below the queue count of the family
whose index they set. -/
theorem find_indices_bound (aSelectionStrategy : device_queue_selection_strategy)
    (ledger : List device_queue) (families : List queue_family) (found : Nat × Nat)
    (h : find_indices aSelectionStrategy ledger families = some found) :
    ∃ f ∈ families, f.index = found.1 ∧ found.2 < f.queueCount := by
  rw [find_indices_eq] at h
  cases hf : (enumerate_pairs families).find? (satisfies_strategy aSelectionStrategy ledger) with
  | none => simp [hf] at h
  | some p =>
    simp only [hf, Option.map_some', Option.some.injEq] at h
    obtain ⟨f, hmem, h1, h2⟩ := (mem_enumerate_pairs families p).mp (List.mem_of_find?_eq_some hf)
    cases aSelectionStrategy with
    | prefer_separate_queues =>
      subst h
      exact ⟨f, hmem, h1.symm, h2⟩
    | prefer_everything_on_single_queue =>
      subst h
      exact ⟨f, hmem, h1.symm, by show 0 < f.queueCount; omega⟩

/-- C31: `prepare` returns a queue whenever the list of matching families is not empty.
When no enumerated (family, queue index) pair is one that the strategy looks for (every
pair is in the ledger under prefer_separate_queues, no pair is in the ledger under
prefer_everything_on_single_queue), the queue is bound to the first family with queue
index 0. When every family has at least one queue, the bound queue index is below the queue
count of a family with the bound family index, and of every such family when the family
indices are distinct. -/
theorem C31_prepare_binds_when_family_matches (families : List queue_family)
    (aSelectionStrategy : device_queue_selection_strategy) (ledger : List device_queue)
    (hne : families ≠ []) :
    ∃ q ledger1, device_queue.prepare families aSelectionStrategy ledger = some (q, ledger1) ∧
      ((∀ p ∈ enumerate_pairs families,
          satisfies_strategy aSelectionStrategy ledger p = false) →
        families.head?.map (fun f => f.index) = some q.mQueueFamilyIndex ∧
          q.mQueueIndex = 0) ∧
      ((∀ f ∈ families, 1 ≤ f.queueCount) →
        (∃ f ∈ families, f.index = q.mQueueFamilyIndex ∧ q.mQueueIndex < f.queueCount) ∧
        ((families.map (fun f => f.index)).Nodup →
          ∀ f ∈ families, f.index = q.mQueueFamilyIndex → q.mQueueIndex < f.queueCount)) := by
  cases families with
  | nil => exact absurd rfl hne
  | cons first rest =>
    have hbound : (∀ f ∈ first :: rest, 1 ≤ f.queueCount) →
        ∃ f ∈ first :: rest,
          f.index = ((find_indices aSelectionStrategy ledger (first :: rest)).getD
            (first.index, 0)).1 ∧
          ((find_indices aSelectionStrategy ledger (first :: rest)).getD (first.index, 0)).2
            < f.queueCount := by
      intro hq
      cases hf : find_indices aSelectionStrategy ledger (first :: rest) with
      | none => exact ⟨first, by simp, rfl, hq first (by simp)⟩
      | some found => exact find_indices_bound aSelectionStrategy ledger _ found hf
    refine ⟨_, _, rfl, ?_, ?_⟩
    · intro hnone
      have hfind : find_indices aSelectionStrategy ledger (first :: rest) = none := by
        rw [find_indices_eq]
        have : (enumerate_pairs (first :: rest)).find?
            (satisfies_strategy aSelectionStrategy ledger) = none := by
          rw [List.find?_eq_none]
          intro p hp
          simp [hnone p hp]
        rw [this]
        rfl
      simp [hfind]
    · intro hq
      refine ⟨hbound hq, ?_⟩
      intro hnd f hf hidx
      obtain ⟨f1, hf1, h1, h2⟩ := hbound hq
      have : f = f1 := List.inj_on_of_nodup_map hnd hf hf1 (hidx.trans h1.symm)
      subst this
      exact h2

/-- C31, at the family 0 with two queues whose two pairs are both in the ledger, under
prefer_separate_queues: the pair (0, 0) is bound, and 0 is below the queue count 2. -/
theorem C31_prepare_binds_when_family_matches_witness :
    ∃ q ledger1, device_queue.prepare [⟨0, 2⟩]
        device_queue_selection_strategy.prefer_separate_queues
        [⟨0, 0, float32.half, none⟩, ⟨0, 1, float32.half, none⟩] = some (q, ledger1) ∧
      q.mQueueFamilyIndex = 0 ∧ q.mQueueIndex = 0 ∧
      ∃ f ∈ ([⟨0, 2⟩] : List queue_family),
        f.index = q.mQueueFamilyIndex ∧ q.mQueueIndex < f.queueCount := by
  obtain ⟨q, ledger1, h1, h2, h3⟩ := C31_prepare_binds_when_family_matches [⟨0, 2⟩]
    device_queue_selection_strategy.prefer_separate_queues
    [⟨0, 0, float32.half, none⟩, ⟨0, 1, float32.half, none⟩] (by decide)
  obtain ⟨h4, h5⟩ := h2 (by decide)
  simp only [List.head?_cons, Option.map_some', Option.some.injEq] at h4
  exact ⟨q, ledger1, h1, h4.symm, h5, (h3 (by decide)).1⟩

end cgb
